import Mathlib

/-!
# Calendar app: event store, transaction ledger and calendar bridge

A shallow embedding of `src/script.js` (classes `Calendar` and `FinanceTracker`).

Conventions of the embedding.

* JavaScript numbers that hold amounts are `JsNum`: `NaN`, the two infinities and the
  finite values, the latter given as rationals. Arithmetic comes in two forms. The
  operations `+` and `-` of `JsNum` are exact; `updateDashboard` and `updateChart` use
  them and give the totals in exact arithmetic. The operations `addDouble` and
  `subDouble` round the exact result to the nearest double (IEEE 754 binary64, ties to
  even), as the platform does; `updateDashboardDouble` and `updateChartDouble` use them
  and give the totals that the program computes.
* Identifiers produced by `Date.now()` are natural numbers.
* The object `calendar.events` is an insertion-ordered dictionary from date strings to
  arrays of events: `EventMap`, an association list.
* Form reads (`element.value`, `element.checked`), the clock (`Date.now()`,
  `new Date().toISOString()`) and the answer to `confirm(...)` are arguments of the
  handlers; the handlers return the next state together with the feedback shown to
  the user.
* A history of the application is a list of user actions (`Action`) run from a state
  (`run`); the records created on the way are collected by `creations`.
* Time values of `Date` objects are integers (milliseconds since the epoch), `none` for
  an invalid date. A date-only string `YYYY-MM-DD` is read as midnight UTC, the
  constructor `new Date(year, monthIndex, day)` as local midnight; local time is UTC plus
  one fixed offset (`Today.utcOffsetMinutes`).
* `renderTransactions` returns the sequence of transactions that it shows, or `none` when
  its `catch` block shows the error state.
* A `Date` object handed to `formatDate` is given by its local calendar fields
  (`DateFields`); `parseDate` returns the local day number of the `Date` that it builds.
* `updateChart` returns the labels and the data that it hands to the chart, or `none`
  when the chart is not initialised.
-/

set_option autoImplicit false

namespace CalendarApp

/-! ## JavaScript numbers -/

/-- A JavaScript number: `NaN`, `-Infinity`, `Infinity` or a finite value. -/
inductive JsNum where
  | nan
  | negInf
  | posInf
  | fin (q : ℚ)
deriving DecidableEq

namespace JsNum

/-- The JavaScript `a + b` on numbers, in exact arithmetic (see `addDouble` for the
rounded sum). -/
def add : JsNum → JsNum → JsNum
  | nan, _ => nan
  | _, nan => nan
  | posInf, negInf => nan
  | negInf, posInf => nan
  | posInf, _ => posInf
  | _, posInf => posInf
  | negInf, _ => negInf
  | _, negInf => negInf
  | fin a, fin b => fin (a + b)

/-- The JavaScript unary minus. -/
def neg : JsNum → JsNum
  | nan => nan
  | negInf => posInf
  | posInf => negInf
  | fin a => fin (-a)

/-- The JavaScript `a - b` on numbers, in exact arithmetic (see `subDouble` for the
rounded difference). -/
def sub (a b : JsNum) : JsNum := add a (neg b)

/-- The JavaScript `isNaN(a)` on a number. -/
def isNaN : JsNum → Bool
  | nan => true
  | _ => false

/-- The truthiness of a number: every number but `NaN` and zero is truthy. -/
def truthy : JsNum → Bool
  | nan => false
  | fin q => decide (q ≠ 0)
  | _ => true

/-- The JavaScript `a <= b` on numbers (false as soon as one side is `NaN`). -/
def le : JsNum → JsNum → Bool
  | nan, _ => false
  | _, nan => false
  | negInf, _ => true
  | _, posInf => true
  | posInf, _ => false
  | _, negInf => false
  | fin a, fin b => decide (a ≤ b)

/-- The JavaScript `a < b` on numbers (false as soon as one side is `NaN`). -/
def lt : JsNum → JsNum → Bool
  | nan, _ => false
  | _, nan => false
  | posInf, _ => false
  | _, negInf => false
  | negInf, _ => true
  | _, posInf => true
  | fin a, fin b => decide (a < b)

instance : Zero JsNum := ⟨fin 0⟩
instance : Add JsNum := ⟨add⟩

/-- Numbers under `+`, with zero: a commutative monoid (in exact arithmetic). -/
instance : AddCommMonoid JsNum where
  add := add
  zero := fin 0
  nsmul_zero := fun _ => rfl
  nsmul_succ := fun _ _ => rfl
  add_assoc := fun a b c => by
    show add (add a b) c = add a (add b c)
    cases a <;> cases b <;> cases c <;> simp [add, add_assoc]
  zero_add := fun a => by
    show add (fin 0) a = a
    cases a <;> simp [add]
  add_zero := fun a => by
    show add a (fin 0) = a
    cases a <;> simp [add]
  add_comm := fun a b => by
    show add a b = add b a
    cases a <;> cases b <;> simp [add, add_comm]
  nsmul := nsmulRec

instance : Neg JsNum := ⟨neg⟩
instance : Sub JsNum := ⟨sub⟩

end JsNum

/-! ## Data model -/

/-- A transaction record of `FinanceTracker.transactions`. The optional fields
`description` and `recurringFrequency` are `none` when absent or `null`. -/
structure Transaction where
  id : Nat
  type : String
  amount : JsNum
  category : String
  date : String
  description : Option String
  recurring : Bool
  recurringFrequency : Option String
  createdAt : String
deriving DecidableEq

/-- The `id` of a calendar event: a number (`Date.now()`, plain events) or a string
(mirrored events). Strict equality never identifies a number with a string. -/
inductive EventId where
  | num (n : Nat)
  | str (s : String)
deriving DecidableEq

/-- The `financeData` back-reference of a mirrored event. -/
structure FinanceData where
  transactionId : Nat
  type : String
  amount : JsNum
deriving DecidableEq

/-- An event object stored in `calendar.events[dateKey]`; a field that the object
literal does not set is `none`. -/
structure CalendarEvent where
  id : EventId
  title : String
  time : Option String
  description : Option String
  recurring : Option Bool
  financeData : Option FinanceData
deriving DecidableEq

/-- The object `calendar.events`: date key to array of events, keys in insertion order. -/
abbrev EventMap := List (String × List CalendarEvent)

namespace EventMap

/-- The property read `events[key]`; `none` stands for `undefined`. -/
def get? : EventMap → String → Option (List CalendarEvent)
  | [], _ => none
  | (k, v) :: rest, key => if k = key then some v else get? rest key

/-- The assignment `events[key] = value`: overwrites in place, or adds the key last. -/
def set : EventMap → String → List CalendarEvent → EventMap
  | [], key, value => [(key, value)]
  | (k, v) :: rest, key, value =>
    if k = key then (k, value) :: rest else (k, v) :: set rest key value

/-- The statement `delete events[key]`. -/
def delete : EventMap → String → EventMap
  | [], _ => []
  | (k, v) :: rest, key => if k = key then delete rest key else (k, v) :: delete rest key

end EventMap

/-- The fields of a `Calendar` instance that the stores use. `events` is `none` when the
property is missing or falsy. -/
structure Calendar where
  currentMonth : Int
  currentYear : Int
  events : Option EventMap
deriving DecidableEq

/-- The global state: `window.calendar` (`none` when it is not set) and the fields
`transactions` and `currentTransaction` of the `FinanceTracker` instance. -/
structure AppState where
  calendar : Option Calendar
  transactions : List Transaction
  currentTransaction : Option Transaction
deriving DecidableEq

/-- The event mapping of a state, when the calendar and its mapping are available. -/
def AppState.events (s : AppState) : Option EventMap :=
  match s.calendar with
  | none => none
  | some cal => cal.events

/-! ## Currency formatting -/

/-- Inserts a comma between groups of three digits, counted from the right. -/
def groupThousands (digits : List Char) : List Char :=
  let rec go : List Char → Nat → List Char
    | [], _ => []
    | c :: cs, n =>
      if n ≠ 0 ∧ n % 3 = 0 then c :: ',' :: go cs (n - 1) else c :: go cs (n - 1)
  go digits (digits.length - 1)

/-- Two decimal digits of a number below one hundred. -/
def twoDigits (n : Nat) : String :=
  if n < 10 then "0" ++ toString n else toString n

/-- The amount in hundredths, rounded half away from zero, of the absolute value. -/
def roundedCents (q : ℚ) : Nat :=
  (200 * q.num.natAbs + q.den) / (2 * q.den)

/-- The method `formatCurrency`: `new Intl.NumberFormat('en-US', {style: 'currency',
currency: 'USD'}).format(amount)`. The platform formatter is modelled: dollar sign,
grouped integer digits, two fraction digits rounded half away from zero, a leading
minus sign for negative values. -/
def formatCurrency : JsNum → String
  | .nan => "$NaN"
  | .posInf => "$∞"
  | .negInf => "-$∞"
  | .fin q =>
    let cents := roundedCents q
    (if q < 0 then "-$" else "$")
      ++ String.mk (groupThousands (toString (cents / 100)).data)
      ++ "." ++ twoDigits (cents % 100)

/-! ## Array helpers -/

/-- The method `Array.prototype.findIndex`: the first index whose element satisfies the
predicate; `none` stands for `-1`. -/
def findIndex {α : Type} (p : α → Bool) : List α → Option Nat
  | [] => none
  | x :: xs => if p x then some 0 else (findIndex p xs).map (· + 1)

/-! ## Calendar bridge -/

/-- The object literal `calendarEvent` built by `addRecurringTransactionToCalendar`. -/
def calendarEvent (transaction : Transaction) : CalendarEvent :=
  let title := (if transaction.type = "income" then "Income" else "Payment") ++ ": "
    ++ formatCurrency transaction.amount
  let description := transaction.category ++ ": " ++
    (match transaction.description with
     | none => "Recurring transaction"
     | some d => if d = "" then "Recurring transaction" else d)
  { id := .str ("finance_" ++ toString transaction.id)
    title := title
    time := none
    description := some description
    recurring := some true
    financeData := some
      { transactionId := transaction.id
        type := transaction.type
        amount := transaction.amount } }

/-- The body of `addRecurringTransactionToCalendar` once the mapping is at hand:
create the array of the date when the date has none, then push the event. -/
def pushCalendarEvent (events : EventMap) (transaction : Transaction) : EventMap :=
  let dateKey := transaction.date
  let events1 := match events.get? dateKey with
    | none => events.set dateKey []
    | some _ => events
  match events1.get? dateKey with
  | none => events1
  | some list => events1.set dateKey (list ++ [calendarEvent transaction])

/-- The method `addRecurringTransactionToCalendar`: returns at once when the calendar or
its mapping is not available. -/
def addRecurringTransactionToCalendar (s : AppState) (transaction : Transaction) : AppState :=
  match s.calendar with
  | none => s
  | some calendar =>
    match calendar.events with
    | none => s
    | some events =>
      { s with calendar := some { calendar with events := some (pushCalendarEvent events transaction) } }

/-- The body of `removeTransactionFromCalendar` once the mapping is at hand. -/
def filterCalendarEvents (events : EventMap) (transaction : Transaction) : EventMap :=
  let dateKey := transaction.date
  match events.get? dateKey with
  | none => events
  | some list =>
    let filteredEvents :=
      list.filter (fun event => decide (event.id ≠ .str ("finance_" ++ toString transaction.id)))
    if filteredEvents.length = 0 then events.delete dateKey
    else events.set dateKey filteredEvents

/-- The method `removeTransactionFromCalendar`. -/
def removeTransactionFromCalendar (s : AppState) (transaction : Transaction) : AppState :=
  match s.calendar with
  | none => s
  | some calendar =>
    match calendar.events with
    | none => s
    | some events =>
      { s with calendar := some { calendar with events := some (filterCalendarEvents events transaction) } }

/-! ## Transaction form -/

/-- The values read from the transaction form: `amount` is the result of
`parseFloat(this.transactionAmount.value)`, `recurringFrequency` the value of the
frequency selector (used only when `recurring` is checked). -/
structure TransactionForm where
  type : String
  amount : JsNum
  category : String
  date : String
  description : String
  recurring : Bool
  recurringFrequency : String
deriving DecidableEq

/-- What `handleTransactionSubmit` shows to the user: the validation alert, or the text
of the `successMessage` element. -/
inductive SubmitOutcome where
  | validationFailed
  | feedback (message : String)
deriving DecidableEq

/-- The validation test of `handleTransactionSubmit`:
`!date || !amount || isNaN(amount) || amount <= 0`. -/
def formInvalid (form : TransactionForm) : Bool :=
  form.date = "" || !form.amount.truthy || form.amount.isNaN || form.amount.le (.fin 0)

/-- The object literal `transaction` of `handleTransactionSubmit`: `id` and `createdAt`
come from the transaction being edited when there is one, else from the clock. -/
def buildTransaction (current : Option Transaction) (form : TransactionForm)
    (now : Nat) (nowIso : String) : Transaction :=
  { id := match current with
      | some c => c.id
      | none => now
    type := form.type
    amount := form.amount
    category := form.category
    date := form.date
    description := some form.description
    recurring := form.recurring
    recurringFrequency := if form.recurring then some form.recurringFrequency else none
    createdAt := match current with
      | some c => c.createdAt
      | none => nowIso }

/-- The method `handleTransactionSubmit` (its synchronous part; the modal is closed later
by a timer, see `closeTransactionModal`). `now` is `Date.now()` and `nowIso` is
`new Date().toISOString()`. -/
def handleTransactionSubmit (s : AppState) (form : TransactionForm) (now : Nat)
    (nowIso : String) : AppState × SubmitOutcome :=
  if formInvalid form then (s, .validationFailed)
  else
    let transaction := buildTransaction s.currentTransaction form now nowIso
    match s.currentTransaction with
    | some current =>
      let s1 := match findIndex (fun t => decide (t.id = current.id)) s.transactions with
        | some index => { s with transactions := s.transactions.set index transaction }
        | none => s
      (s1, .feedback "Transaction updated successfully!")
    | none =>
      let s1 := { s with transactions := s.transactions ++ [transaction] }
      let s2 := if form.recurring then addRecurringTransactionToCalendar s1 transaction else s1
      (s2, .feedback "Transaction added successfully!")

/-- The method `closeTransactionModal`. -/
def closeTransactionModal (s : AppState) : AppState :=
  { s with currentTransaction := none }

/-- The method `openTransactionModal`. -/
def openTransactionModal (s : AppState) (transaction : Option Transaction) : AppState :=
  { s with currentTransaction := transaction }

/-- How a call of `deleteTransaction` ends. -/
inductive DeleteOutcome where
  | noSelection
  | cancelled
  | deleted
  | notFound
deriving DecidableEq

/-- The method `deleteTransaction`; `confirmed` is the answer to the `confirm` dialog. -/
def deleteTransaction (s : AppState) (confirmed : Bool) : AppState × DeleteOutcome :=
  match s.currentTransaction with
  | none => (s, .noSelection)
  | some current =>
    if !confirmed then (s, .cancelled)
    else
      match findIndex (fun t => decide (t.id = current.id)) s.transactions with
      | some index =>
        let s1 := { s with transactions := s.transactions.eraseIdx index }
        let s2 := if current.recurring then removeTransactionFromCalendar s1 current else s1
        (closeTransactionModal s2, .deleted)
      | none => (s, .notFound)

/-! ## Dashboard -/

/-- The three figures computed by `updateDashboard`. -/
structure DashboardTotals where
  totalIncome : JsNum
  totalExpenses : JsNum
  balance : JsNum
deriving DecidableEq

/-- One step of the `forEach` loop of `updateDashboard` on the pair
`(totalIncome, totalExpenses)`, in exact arithmetic. -/
def dashboardStep (acc : JsNum × JsNum) (transaction : Transaction) : JsNum × JsNum :=
  if transaction.type = "income" then (acc.1 + transaction.amount, acc.2)
  else (acc.1, acc.2 + transaction.amount)

/-- The computation of `updateDashboard` in exact arithmetic (`updateDashboardDouble` is
the same computation in the arithmetic of the platform). -/
def updateDashboard (transactions : List Transaction) : DashboardTotals :=
  let totals := transactions.foldl dashboardStep (0, 0)
  { totalIncome := totals.1
    totalExpenses := totals.2
    balance := totals.1 - totals.2 }

/-! ## Plain calendar events -/

/-- The values read from the event form by `handleEventSubmit`. -/
structure EventForm where
  date : String
  title : String
  time : String
  description : String
deriving DecidableEq

/-- The object literal `newEvent` of `handleEventSubmit`; `now` is `Date.now()`. -/
def newEvent (form : EventForm) (now : Nat) : CalendarEvent :=
  { id := .num now
    title := form.title
    time := some form.time
    description := some form.description
    recurring := none
    financeData := none }

/-- The statements of `handleEventSubmit` on the mapping: create the array of the date
when the date has none, then push the event. -/
def pushNewEvent (events : EventMap) (form : EventForm) (now : Nat) : EventMap :=
  let events1 := match events.get? form.date with
    | none => events.set form.date []
    | some _ => events
  match events1.get? form.date with
  | none => events1
  | some list => events1.set form.date (list ++ [newEvent form now])

/-- The method `Calendar.handleEventSubmit`: a form without date or title is rejected. -/
def handleEventSubmit (s : AppState) (form : EventForm) (now : Nat) : AppState :=
  if form.date = "" ∨ form.title = "" then s
  else
    match s.calendar with
    | none => s
    | some calendar =>
      match calendar.events with
      | none => s
      | some events =>
        { s with calendar := some { calendar with events := some (pushNewEvent events form now) } }

/-! ## Runs of the application -/

/-- The id that `addRecurringTransactionToCalendar` gives to the mirrored event of the
transaction with the given id, and that `removeTransactionFromCalendar` looks for. -/
def financeEventId (id : Nat) : EventId := .str ("finance_" ++ toString id)

/-- All the events of a mapping, date after date. -/
def EventMap.allEvents : EventMap → List CalendarEvent
  | [] => []
  | (_, list) :: rest => list ++ allEvents rest

/-- All the events held by the calendar of a state (none when there is no mapping). -/
def AppState.storedEvents (s : AppState) : List CalendarEvent :=
  match s.events with
  | none => []
  | some events => events.allEvents

/-- The user actions on the two stores. `openModal none` opens the transaction form for a
new transaction, `openModal (some i)` opens it on the stored transaction at index `i` (the
rendered items are the stored records); `submit` and `remove` are the two buttons of the
transaction form; `addEvent` is the submission of the event form. -/
inductive Action where
  | openModal (index : Option Nat)
  | closeModal
  | submit (form : TransactionForm) (now : Nat) (nowIso : String)
  | remove (confirmed : Bool)
  | addEvent (form : EventForm) (now : Nat)

/-- The state after one action. -/
def step (s : AppState) : Action → AppState
  | .openModal none => openTransactionModal s none
  | .openModal (some index) =>
    match s.transactions[index]? with
    | some transaction => openTransactionModal s (some transaction)
    | none => s
  | .closeModal => closeTransactionModal s
  | .submit form now nowIso => (handleTransactionSubmit s form now nowIso).1
  | .remove confirmed => (deleteTransaction s confirmed).1
  | .addEvent form now => handleEventSubmit s form now

/-- The state after a sequence of actions. -/
def run : AppState → List Action → AppState
  | s, [] => s
  | s, action :: rest => run (step s action) rest

/-- The record that an action creates in a state: a submission that passes validation
while no transaction is being edited creates one, every other action none. -/
def created (s : AppState) : Action → List Transaction
  | .submit form now nowIso =>
    if formInvalid form = false ∧ s.currentTransaction = none then
      [buildTransaction none form now nowIso]
    else []
  | _ => []

/-- The records created along a sequence of actions, in order of creation. -/
def creations : AppState → List Action → List Transaction
  | _, [] => []
  | s, action :: rest => created s action ++ creations (step s action) rest

/-- Empty stores: no transaction, no form open, and an event mapping without entry (or no
calendar at all). -/
def emptyStores (s : AppState) : Prop :=
  s.transactions = [] ∧ s.currentTransaction = none ∧ (s.events = none ∨ s.events = some [])

/-- The number read back from decimal digit characters, most significant first, starting
from the value `acc` of the digits already read. -/
def digitsValue (acc : Nat) (digits : List Char) : Nat :=
  digits.foldl (fun n c => n * 10 + (c.toNat - 48)) acc

/-- The invariant of the runs, relative to the records `log` created so far: every stored
id was assigned at a creation, stored ids are pairwise distinct, every event with a
"finance_" id belongs to a record created with the recurring flag, no "finance_" id occurs
twice among the stored events, and an event with `financeData` carries the id built from
its `transactionId`. -/
structure StoresInvariant (s : AppState) (log : List Transaction) : Prop where
  stored_created : ∀ k ∈ s.transactions.map (·.id), k ∈ log.map (·.id)
  stored_nodup : (s.transactions.map (·.id)).Nodup
  mirrored_created : ∀ e ∈ s.storedEvents, ∀ k, e.id = financeEventId k →
    ∃ r ∈ log, r.id = k ∧ r.recurring = true
  mirrored_once : ∀ k, s.storedEvents.countP (fun e => decide (e.id = financeEventId k)) ≤ 1
  finance_id : ∀ e ∈ s.storedEvents, ∀ fd, e.financeData = some fd →
    e.id = financeEventId fd.transactionId

/-! ## Dates -/

/-- The day number (days since 1970-01-01) of a day of the proleptic Gregorian calendar;
`month` counts from 1. -/
def daysFromCivil (year month day : Int) : Int :=
  let y := if month ≤ 2 then year - 1 else year
  let era := y / 400
  let yoe := y - era * 400
  let mp := (month + 9) % 12
  let doy := (153 * mp + 2) / 5 + day - 1
  let doe := yoe * 365 + yoe / 4 - yoe / 100 + doy
  era * 146097 + doe - 719468

/-- The number of days of a month; `month` counts from 1. -/
def daysInMonth (year month : Int) : Int :=
  if month = 2 then
    if year % 4 = 0 ∧ (year % 100 ≠ 0 ∨ year % 400 = 0) then 29 else 28
  else if month = 4 ∨ month = 6 ∨ month = 9 ∨ month = 11 then 30
  else 31

/-- Milliseconds per day. -/
def msPerDay : Int := 86400000

/-- The value of a run of decimal digits, `none` when a character is not a digit. -/
def parseDigits (chars : List Char) : Option Nat :=
  if chars.all Char.isDigit then some (digitsValue 0 chars) else none

/-- The calendar day written by a date string of the form `YYYY-MM-DD`, as year, month
(from 1) and day; `none` when the string has another form or names no day. -/
def parseIsoDate (dateString : String) : Option (Int × Int × Int) :=
  match dateString.data with
  | [y1, y2, y3, y4, '-', m1, m2, '-', d1, d2] =>
    match parseDigits [y1, y2, y3, y4], parseDigits [m1, m2], parseDigits [d1, d2] with
    | some y, some m, some d =>
      if 1 ≤ m ∧ m ≤ 12 ∧ 1 ≤ d ∧ (d : Int) ≤ daysInMonth y m then
        some ((y : Int), (m : Int), (d : Int))
      else none
    | _, _, _ => none
  | _ => none

/-- The day number of the day written by a date string. -/
def dayNumberOf (dateString : String) : Option Int :=
  (parseIsoDate dateString).map (fun ymd => daysFromCivil ymd.1 ymd.2.1 ymd.2.2)

/-- The time value `new Date(dateString).getTime()` in milliseconds, `none` for `NaN`. A
date-only string is read as midnight UTC of that day; the platform parser is modelled on
the form `YYYY-MM-DD`, the form that the date input of the transaction form produces. -/
def dateValue (dateString : String) : Option Int :=
  (dayNumberOf dateString).map (fun n => n * msPerDay)

/-- What `renderTransactions` reads from `new Date()`: the local calendar date
(`getFullYear()`, `getMonth()` from 0, `getDate()`) and the offset of local time from UTC
in minutes, positive east of Greenwich (one offset for all days: daylight-saving changes
are not modelled). -/
structure Today where
  fullYear : Int
  month : Int
  date : Int
  utcOffsetMinutes : Int
deriving DecidableEq

/-- The day number of the local day `new Date(year, monthIndex, day)`; `monthIndex` counts
from 0 and `day` may run out of the month, as in `getDate() - getDay()`. -/
def makeDay (year monthIndex day : Int) : Int :=
  let fullYear := if 0 ≤ year ∧ year ≤ 99 then 1900 + year else year
  daysFromCivil (fullYear + monthIndex / 12) (monthIndex % 12 + 1) 1 + (day - 1)

/-- The time value of local midnight of the day with the given day number. -/
def localMidnight (today : Today) (dayNumber : Int) : Option Int :=
  some (dayNumber * msPerDay - today.utcOffsetMinutes * 60000)

/-- The day number of today. -/
def Today.dayNumber (today : Today) : Int :=
  makeDay today.fullYear today.month today.date

/-- The method `getDay()` of today: 0 for Sunday; day number 0 is a Thursday. -/
def Today.getDay (today : Today) : Int :=
  (today.dayNumber + 4) % 7

/-- The constant `startOfDay` of `renderTransactions`. -/
def startOfDay (today : Today) : Option Int :=
  localMidnight today (makeDay today.fullYear today.month today.date)

/-- The constant `startOfWeek` of `renderTransactions`. -/
def startOfWeek (today : Today) : Option Int :=
  localMidnight today (makeDay today.fullYear today.month (today.date - today.getDay))

/-- The constant `startOfMonth` of `renderTransactions`. -/
def startOfMonth (today : Today) : Option Int :=
  localMidnight today (makeDay today.fullYear today.month 1)

/-- The constant `startOfYear` of `renderTransactions`. -/
def startOfYear (today : Today) : Option Int :=
  localMidnight today (makeDay today.fullYear 0 1)

/-- The comparison `a >= b` of two time values: false as soon as one side is `NaN`. -/
def timeGe : Option Int → Option Int → Bool
  | some a, some b => decide (a ≥ b)
  | _, _ => false


/-! ## The transaction view -/

/-- The values of the three filter controls read by `renderTransactions`; `searchText` is
the content of the search box as typed. -/
structure Filters where
  dateFilter : String
  categoryFilter : String
  searchText : String
deriving DecidableEq

/-- The method `String.prototype.toLowerCase`, modelled on the letters A to Z. -/
def toLowerCase (text : String) : String := String.mk (text.data.map Char.toLower)

/-- The method `String.prototype.includes`: `search` occurs in `text` as a substring. -/
def includes (text search : String) : Bool := decide (search.data <:+: text.data)

/-- The callback of the date filter: the `switch` on the value of the date filter. -/
def dateFilterKeeps (today : Today) (dateFilter : String) (transaction : Transaction) : Bool :=
  let transactionDate := dateValue transaction.date
  if dateFilter = "today" then timeGe transactionDate (startOfDay today)
  else if dateFilter = "week" then timeGe transactionDate (startOfWeek today)
  else if dateFilter = "month" then timeGe transactionDate (startOfMonth today)
  else if dateFilter = "year" then timeGe transactionDate (startOfYear today)
  else true

/-- The date stage of `renderTransactions`. -/
def dateStage (today : Today) (dateFilter : String) (transactions : List Transaction) :
    List Transaction :=
  if dateFilter ≠ "all" then transactions.filter (dateFilterKeeps today dateFilter)
  else transactions

/-- The category stage of `renderTransactions`. -/
def categoryStage (categoryFilter : String) (transactions : List Transaction) :
    List Transaction :=
  if categoryFilter ≠ "all" then
    if categoryFilter = "income" then
      transactions.filter (fun t => decide (t.type = "income"))
    else if categoryFilter = "expense" then
      transactions.filter (fun t => decide (t.type = "expense"))
    else transactions.filter (fun t => decide (t.category = categoryFilter))
  else transactions

/-- The callback of the search filter; `searchText` is already in lower case. The result
`none` stands for the TypeError that `transaction.description.toLowerCase()` raises when
the description is absent. -/
def searchKeeps (searchText : String) (transaction : Transaction) : Option Bool :=
  match transaction.description with
  | none => none
  | some description =>
    some (includes (toLowerCase description) searchText
      || includes (toLowerCase transaction.category) searchText
      || includes (toLowerCase (formatCurrency transaction.amount)) searchText)

/-- The method `Array.prototype.filter` with a callback that may throw: the elements are
tested in order and the first exception ends the call (`none`). -/
def filterThrowing {α : Type} (callback : α → Option Bool) : List α → Option (List α)
  | [] => some []
  | x :: xs =>
    match callback x with
    | none => none
    | some keep =>
      match filterThrowing callback xs with
      | none => none
      | some rest => some (if keep then x :: rest else rest)

/-- The search stage of `renderTransactions`; an empty search text skips the stage. -/
def searchStage (searchText : String) (transactions : List Transaction) :
    Option (List Transaction) :=
  if searchText ≠ "" then filterThrowing (searchKeeps searchText) transactions
  else some transactions

/-- The compare function `(a, b) => new Date(b.date) - new Date(a.date)`; `none` stands
for `NaN`. -/
def compareByDate (a b : Transaction) : Option Int :=
  match dateValue b.date, dateValue a.date with
  | some x, some y => some (x - y)
  | _, _ => none

/-- Whether `Array.prototype.sort` may leave `a` before `b`: the compare function does not
return a positive number (`NaN` counts as zero). -/
def staysBefore {α : Type} (compareFn : α → α → Option Int) (a b : α) : Bool :=
  match compareFn a b with
  | some v => decide (v ≤ 0)
  | none => true

/-- The method `Array.prototype.sort(compareFn)`, a stable sort: elements that compare as
equal keep their order. It is modelled by insertion from the right; on a consistent
compare function every stable sort gives this result. -/
def arraySort {α : Type} (compareFn : α → α → Option Int) (list : List α) : List α :=
  list.insertionSort (fun a b => staysBefore compareFn a b = true)

/-- The method `renderTransactions`: the sequence of transactions shown in the list, in
order (`some []` is the empty state), or `none` for the error state of the `catch` block. -/
def renderTransactions (today : Today) (filters : Filters)
    (transactions : List Transaction) : Option (List Transaction) :=
  let searchText := toLowerCase filters.searchText
  let afterDate := dateStage today filters.dateFilter transactions
  let afterCategory := categoryStage filters.categoryFilter afterDate
  match searchStage searchText afterCategory with
  | none => none
  | some filteredTransactions => some (arraySort compareByDate filteredTransactions)

/-- Whether a transaction passes the three filters, the stages being taken one transaction
at a time. -/
def passesFilters (today : Today) (filters : Filters) (transaction : Transaction) : Bool :=
  (decide (filters.dateFilter = "all") || dateFilterKeeps today filters.dateFilter transaction)
  && (decide (filters.categoryFilter = "all")
      || (if filters.categoryFilter = "income" then decide (transaction.type = "income")
          else if filters.categoryFilter = "expense" then decide (transaction.type = "expense")
          else decide (transaction.category = filters.categoryFilter)))
  && (decide (toLowerCase filters.searchText = "")
      || decide (searchKeeps (toLowerCase filters.searchText) transaction = some true))

/-! ## Month navigation and date keys -/

/-- The method `Calendar.navigateMonth` on the two counters `currentMonth` and
`currentYear` (the rendering that follows reads them and changes nothing). -/
def navigateMonth (calendar : Calendar) (direction : Int) : Calendar :=
  let currentMonth := calendar.currentMonth + direction
  if currentMonth < 0 then
    { calendar with currentMonth := 11, currentYear := calendar.currentYear - 1 }
  else if currentMonth > 11 then
    { calendar with currentMonth := 0, currentYear := calendar.currentYear + 1 }
  else { calendar with currentMonth := currentMonth }

/-- What `formatDate` reads from a `Date` object: `getFullYear()`, `getMonth()` (from 0)
and `getDate()`, the calendar date in local time. -/
structure DateFields where
  fullYear : Int
  month : Int
  date : Int
deriving DecidableEq

/-- The local day number of the `Date` object with the given fields. -/
def DateFields.dayNumber (date : DateFields) : Int :=
  makeDay date.fullYear date.month date.date

/-- The method `String.prototype.padStart(targetLength, padChar)` with a pad string of one
character. -/
def padStart (text : String) (targetLength : Nat) (padChar : Char) : String :=
  String.mk (List.replicate (targetLength - text.length) padChar ++ text.data)

/-- The method `Calendar.formatDate`. -/
def formatDate (date : DateFields) : String :=
  let year := toString date.fullYear
  let month := padStart (toString (date.month + 1)) 2 '0'
  let day := padStart (toString date.date) 2 '0'
  year ++ "-" ++ month ++ "-" ++ day

/-- The method `String.prototype.split(separator)` with a separator of one character, on
the characters of the string. -/
def splitOn (separator : Char) : List Char → List (List Char)
  | [] => [[]]
  | c :: rest =>
    if c = separator then [] :: splitOn separator rest
    else
      match splitOn separator rest with
      | [] => [[c]]
      | piece :: pieces => (c :: piece) :: pieces

/-- The function `parseInt(text)` in base ten: leading white space, an optional sign, then
the longest run of decimal digits; `none` stands for `NaN` (no digit to read). The prefix
`0x` of hexadecimal numbers is not modelled. -/
def parseInt (chars : List Char) : Option Int :=
  let trimmed := chars.dropWhile Char.isWhitespace
  let negative : Bool := decide (trimmed.head? = some '-')
  let unsigned :=
    if trimmed.head? = some '-' ∨ trimmed.head? = some '+' then trimmed.tail else trimmed
  let digits := unsigned.takeWhile Char.isDigit
  if digits = [] then none
  else if negative then some (-(digitsValue 0 digits : Int))
  else some (digitsValue 0 digits : Int)

/-- The destructuring `[year, month, day]` of `parseDate`: the first three pieces of the
date string, each one read by `parseInt` (`parseInt(undefined)` is `NaN`); `none` as soon
as one of the three is `NaN`. -/
def parseDateParts (dateString : String) : Option (Int × Int × Int) :=
  let pieces := (splitOn '-' dateString.data).map parseInt
  match pieces[0]?.join, pieces[1]?.join, pieces[2]?.join with
  | some year, some month, some day => some (year, month, day)
  | _, _, _ => none

/-- The method `Calendar.parseDate`: the local day number of
`new Date(year, month - 1, day)`, `none` for an invalid date. -/
def parseDate (dateString : String) : Option Int :=
  (parseDateParts dateString).map (fun parts => makeDay parts.1 (parts.2.1 - 1) parts.2.2)

/-! ## Chart -/

/-- The object `categoryTotals` of `updateChart`: category to running total, keys in
insertion order (the order of `Object.entries` for keys that are not array indices).
Categories are taken not to be names of properties of `Object.prototype`. -/
abbrev CategoryTotals := List (String × JsNum)

namespace CategoryTotals

/-- The property read `categoryTotals[key]`; `none` stands for `undefined`. -/
def get? : CategoryTotals → String → Option JsNum
  | [], _ => none
  | (k, v) :: rest, key => if k = key then some v else get? rest key

/-- The assignment `categoryTotals[key] = value`: overwrites in place, or adds the key
last. -/
def set : CategoryTotals → String → JsNum → CategoryTotals
  | [], key, value => [(key, value)]
  | (k, v) :: rest, key, value =>
    if k = key then (k, value) :: rest else (k, v) :: set rest key value

end CategoryTotals

/-- One turn of the `forEach` loop of `updateChart` on `categoryTotals`, in exact
arithmetic: the entry of the category is set to zero when it is missing or falsy (for a
transaction of any type), and the amount is added to it when the type is 'expense'. -/
def chartStep (categoryTotals : CategoryTotals) (transaction : Transaction) : CategoryTotals :=
  let amount := transaction.amount
  let category := transaction.category
  let totals1 := match categoryTotals.get? category with
    | none => categoryTotals.set category 0
    | some value => if value.truthy then categoryTotals else categoryTotals.set category 0
  if transaction.type = "expense" then
    match totals1.get? category with
    | none => totals1.set category .nan
    | some value => totals1.set category (value + amount)
  else totals1

/-- Whether `Array.prototype.sort` may leave `a` before `b` when the compare function
returns a number: the result is not positive (`NaN` counts as zero). -/
def staysBeforeNumber {α : Type} (compareFn : α → α → JsNum) (a b : α) : Bool :=
  !(JsNum.lt 0 (compareFn a b))

/-- The method `Array.prototype.sort(compareFn)` for a compare function that returns a
number, modelled as `arraySort` is. -/
def arraySortNumber {α : Type} (compareFn : α → α → JsNum) (list : List α) : List α :=
  list.insertionSort (fun a b => staysBeforeNumber compareFn a b = true)

/-- The entries of `categoryTotals` after the loop, in the order given by
`.sort(([,a], [,b]) => b - a)`. -/
def chartEntries (transactions : List Transaction) : List (String × JsNum) :=
  arraySortNumber (fun x y => y.2 - x.2) (transactions.foldl chartStep [])

/-- The expression `category.charAt(0).toUpperCase() + category.slice(1)`, the upper case
being modelled on the letters a to z. -/
def capitalize (category : String) : String :=
  match category.data with
  | [] => ""
  | c :: rest => String.mk (c.toUpper :: rest)

/-- What `updateChart` hands to the chart: `chart.data.labels` and
`chart.data.datasets[0].data`. -/
structure ChartData where
  labels : List String
  data : List JsNum
deriving DecidableEq

/-- The method `updateChart` in exact arithmetic: `chart` is the field `this.chart`
(`none` when the chart is not initialised, the method then returns at once and nothing is
reported). -/
def updateChart (chart : Option ChartData) (transactions : List Transaction) :
    Option ChartData :=
  match chart with
  | none => none
  | some _ =>
    let entries := chartEntries transactions
    some { labels := entries.map (fun entry => capitalize entry.1)
           data := entries.map (fun entry => entry.2) }

/-! ## Exceptions in the calendar bridge -/

/-- The `try`/`catch` around the body of `addRecurringTransactionToCalendar`: `raised`
tells whether a statement of the `try` block raises an exception before the event is
pushed (while the title is formatted or a debug message is shown). The `catch` block only
logs, so the state is then left as it was. -/
def addRecurringTransactionToCalendarCatching (raised : Bool) (s : AppState)
    (transaction : Transaction) : AppState :=
  if raised then s else addRecurringTransactionToCalendar s transaction

/-- The method `handleTransactionSubmit` with the `try`/`catch` of the calendar bridge made
explicit; with `raised = false` it is `handleTransactionSubmit`. -/
def handleTransactionSubmitCatching (raised : Bool) (s : AppState) (form : TransactionForm)
    (now : Nat) (nowIso : String) : AppState × SubmitOutcome :=
  if formInvalid form then (s, .validationFailed)
  else
    let transaction := buildTransaction s.currentTransaction form now nowIso
    match s.currentTransaction with
    | some current =>
      let s1 := match findIndex (fun t => decide (t.id = current.id)) s.transactions with
        | some index => { s with transactions := s.transactions.set index transaction }
        | none => s
      (s1, .feedback "Transaction updated successfully!")
    | none =>
      let s1 := { s with transactions := s.transactions ++ [transaction] }
      let s2 := if form.recurring then
        addRecurringTransactionToCalendarCatching raised s1 transaction else s1
      (s2, .feedback "Transaction added successfully!")

/-! ## Double arithmetic -/

/-- The number of binary digits of `n`, counted with `fuel` halvings. -/
def bitLengthCore : Nat → Nat → Nat
  | 0, _ => 0
  | fuel + 1, n => if n = 0 then 0 else bitLengthCore fuel (n / 2) + 1

/-- The number of binary digits of `n` (0 for 0): `2 ^ (bitLength n - 1) ≤ n < 2 ^ bitLength n`
for a positive `n`. -/
def bitLength (n : Nat) : Nat := bitLengthCore n n

/-- The integer nearest to `n / d`, the even one of the two when `n / d` lies half-way. -/
def roundHalfEven (n d : Nat) : Nat :=
  let q := n / d
  let r := n % d
  if 2 * r < d then q
  else if d < 2 * r then q + 1
  else if q % 2 = 0 then q else q + 1

/-- The exponent `e` of the unit in which a double holds the positive number `n / d`:
`2 ^ (e + 52) ≤ n / d < 2 ^ (e + 53)` for a normal number, and the least exponent -1074
below the normal range. -/
def doubleExponent (n d : Nat) : Int :=
  let k : Int := (bitLength n : Int) - (bitLength d : Int)
  let floorLog : Int := if d * 2 ^ k.toNat ≤ n * 2 ^ (-k).toNat then k else k - 1
  max (floorLog - 52) (-1074)

/-- The number of units `2 ^ e` of the double nearest to the positive number `n / d`,
ties going to the even number of units; it is at most `2 ^ 53`. -/
def doubleMantissa (n d : Nat) : Nat :=
  let e := doubleExponent n d
  roundHalfEven (n * 2 ^ (-e).toNat) (d * 2 ^ e.toNat)

/-- The double nearest to the positive number `n / d` (IEEE 754 binary64, round to nearest,
ties to even): `Infinity` when the rounded value reaches `2 ^ 1024`. -/
def roundMagnitude (n d : Nat) : JsNum :=
  let e := doubleExponent n d
  let m := doubleMantissa n d
  if 972 ≤ e ∨ (e = 971 ∧ 2 ^ 53 ≤ m) then .posInf
  else .fin ((m : ℚ) * (2 : ℚ) ^ e)

/-- The double nearest to a rational number. -/
def roundDouble (q : ℚ) : JsNum :=
  if q = 0 then .fin 0
  else if 0 < q then roundMagnitude q.num.natAbs q.den
  else JsNum.neg (roundMagnitude q.num.natAbs q.den)

namespace JsNum

/-- The result of an arithmetic operation as the platform stores it: the exact result
rounded to the nearest double. -/
def toDouble : JsNum → JsNum
  | fin q => roundDouble q
  | x => x

/-- The JavaScript `a + b` on doubles: the exact sum, rounded. -/
def addDouble (a b : JsNum) : JsNum := (a + b).toDouble

/-- The JavaScript `a - b` on doubles: the exact difference, rounded. -/
def subDouble (a b : JsNum) : JsNum := (a - b).toDouble

end JsNum

/-- One step of the `forEach` loop of `updateDashboard` in double arithmetic. -/
def dashboardStepDouble (acc : JsNum × JsNum) (transaction : Transaction) : JsNum × JsNum :=
  if transaction.type = "income" then (acc.1.addDouble transaction.amount, acc.2)
  else (acc.1, acc.2.addDouble transaction.amount)

/-- The computation of `updateDashboard` in double arithmetic, the arithmetic of the
platform: every `+=` and the final subtraction round their result to the nearest double. -/
def updateDashboardDouble (transactions : List Transaction) : DashboardTotals :=
  let totals := transactions.foldl dashboardStepDouble (0, 0)
  { totalIncome := totals.1
    totalExpenses := totals.2
    balance := totals.1.subDouble totals.2 }

/-- One turn of the `forEach` loop of `updateChart` in double arithmetic. -/
def chartStepDouble (categoryTotals : CategoryTotals) (transaction : Transaction) :
    CategoryTotals :=
  let amount := transaction.amount
  let category := transaction.category
  let totals1 := match categoryTotals.get? category with
    | none => categoryTotals.set category 0
    | some value => if value.truthy then categoryTotals else categoryTotals.set category 0
  if transaction.type = "expense" then
    match totals1.get? category with
    | none => totals1.set category .nan
    | some value => totals1.set category (value.addDouble amount)
  else totals1

/-- The entries of `categoryTotals` after the loop in double arithmetic, in the order given
by `.sort(([,a], [,b]) => b - a)`, the subtraction being the one of doubles. -/
def chartEntriesDouble (transactions : List Transaction) : List (String × JsNum) :=
  arraySortNumber (fun x y => y.2.subDouble x.2) (transactions.foldl chartStepDouble [])

/-- The method `updateChart` in double arithmetic, the arithmetic of the platform. -/
def updateChartDouble (chart : Option ChartData) (transactions : List Transaction) :
    Option ChartData :=
  match chart with
  | none => none
  | some _ =>
    let entries := chartEntriesDouble transactions
    some { labels := entries.map (fun entry => capitalize entry.1)
           data := entries.map (fun entry => entry.2) }

/-- A total of amounts that are not negative, in double arithmetic: `Infinity`, or a
multiple of the least positive double `2 ^ -1074` that is not negative. -/
def nonNegativeDouble (v : JsNum) : Prop :=
  v = .posInf ∨ ∃ k : Nat, v = .fin ((k : ℚ) * (2 : ℚ) ^ (-1074 : Int))

/-! ## Scenario data -/

/-- A state with an available, empty calendar and no transaction. -/
def emptyState : AppState :=
  { calendar := some { currentMonth := 2, currentYear := 2024, events := some [] }
    transactions := []
    currentTransaction := none }

/-- The form of the scenario "expense of 42.50 on food". -/
def foodExpenseForm : TransactionForm :=
  { type := "expense", amount := .fin 42.5, category := "food", date := "2024-03-15"
    description := "", recurring := false, recurringFrequency := "monthly" }

/-- The form of the scenario "recurring salary of 1000". -/
def salaryForm : TransactionForm :=
  { type := "income", amount := .fin 1000, category := "salary", date := "2024-03-01"
    description := "", recurring := true, recurringFrequency := "monthly" }

/-- The form of the food scenario with the amount left at zero. -/
def zeroAmountForm : TransactionForm :=
  { foodExpenseForm with amount := .fin 0 }

/-- A stored transaction with id 123, as created from `salaryForm`. -/
def salaryTransaction : Transaction :=
  buildTransaction none salaryForm 123 "2024-03-01T09:00:00.000Z"

/-- A stored transaction with id 7, as created from `foodExpenseForm`. -/
def foodTransaction : Transaction :=
  buildTransaction none foodExpenseForm 7 "2024-03-15T12:00:00.000Z"

/-- A state with one stored transaction and no form open. -/
def ledgerState : AppState :=
  { emptyState with transactions := [foodTransaction] }

/-- A state with two stored transactions, the second one opened for editing. -/
def editingState : AppState :=
  { emptyState with
    transactions := [salaryTransaction, foodTransaction]
    currentTransaction := some foodTransaction }

/-- A state whose form is open on a transaction that is not stored. -/
def staleState : AppState :=
  { emptyState with
    transactions := [salaryTransaction]
    currentTransaction := some foodTransaction }

/-- A plain calendar event, as `handleEventSubmit` stores it. -/
def dentistEvent : CalendarEvent :=
  { id := .num 5, title := "Dentist", time := some "10:00", description := some ""
    recurring := none, financeData := none }

/-- A state with one stored transaction, no form open, and plain events on two dates. -/
def calendarState : AppState :=
  { calendar := some
      { currentMonth := 2, currentYear := 2024
        events := some [("2024-03-01", [dentistEvent]), ("2024-03-02", [dentistEvent])] }
    transactions := [foodTransaction]
    currentTransaction := none }

/-- A state whose form is open on a recurring transaction that is not stored, while the
calendar holds the mirrored event of that transaction and a plain event. -/
def staleRecurringState : AppState :=
  { calendar := some
      { currentMonth := 2, currentYear := 2024
        events := some
          [("2024-03-01",
            [dentistEvent, calendarEvent salaryTransaction])] }
    transactions := [foodTransaction]
    currentTransaction := some salaryTransaction }

/-- The salary form with the recurring flag cleared. -/
def plainSalaryForm : TransactionForm :=
  { salaryForm with recurring := false }

/-- The salary form with the date moved by a month. -/
def movedSalaryForm : TransactionForm :=
  { salaryForm with date := "2024-04-01" }

/-- A recurring transaction is created, then edited so that its recurring flag is cleared. -/
def clearFlagActions : List Action :=
  [.submit salaryForm 123 "2024-03-01T09:00:00.000Z",
   .openModal (some 0),
   .submit plainSalaryForm 200 "2024-03-02T09:00:00.000Z"]

/-- A recurring transaction is created and edited so that its date moves; the form is
closed and opened again on the transaction. -/
def moveActions : List Action :=
  [.submit salaryForm 123 "2024-03-01T09:00:00.000Z",
   .openModal (some 0),
   .submit movedSalaryForm 200 "2024-03-02T09:00:00.000Z",
   .closeModal,
   .openModal (some 0)]

/-- Two transactions are created while the clock shows the same value. -/
def sameTickActions : List Action :=
  [.submit salaryForm 123 "2024-03-01T09:00:00.000Z",
   .submit plainSalaryForm 123 "2024-03-01T09:00:00.000Z"]

/-- The form of a plain calendar event. -/
def dentistForm : EventForm :=
  { date := "2024-03-01", title := "Dentist", time := "10:00", description := "" }

/-- A recurring transaction, a plain event and a transaction that is not recurring are
created, then the form is opened on the recurring transaction. -/
def busyActions : List Action :=
  [.submit salaryForm 123 "2024-03-01T09:00:00.000Z",
   .addEvent dentistForm 124,
   .submit plainSalaryForm 125 "2024-03-01T09:00:02.000Z",
   .openModal (some 0)]

/-- The clock of the view scenarios: Friday 15 March 2024, local time being UTC. -/
def march15 : Today :=
  { fullYear := 2024, month := 2, date := 15, utcOffsetMinutes := 0 }

/-- The same day in a zone five hours west of Greenwich. -/
def march15West : Today :=
  { march15 with utcOffsetMinutes := -300 }

/-- A transaction dated today in the view scenarios. -/
def todayTransaction : Transaction :=
  { salaryTransaction with id := 1, date := "2024-03-15" }

/-- A transaction dated five days after today in the view scenarios. -/
def laterTransaction : Transaction :=
  { salaryTransaction with id := 2, date := "2024-03-20", category := "bonus" }

/-- A second transaction dated today, stored after `laterTransaction`. -/
def secondTodayTransaction : Transaction :=
  { salaryTransaction with id := 3, date := "2024-03-15", description := some "Refund" }

/-- A transaction dated before today in the view scenarios. -/
def earlierTransaction : Transaction :=
  { salaryTransaction with id := 4, date := "2024-03-09" }

/-- The stored list of the view scenarios. -/
def viewTransactions : List Transaction :=
  [todayTransaction, laterTransaction, secondTodayTransaction, earlierTransaction]

/-- A stored record without the optional field `description`. -/
def undescribedTransaction : Transaction :=
  { todayTransaction with id := 5, description := none }

/-- An expense of 900 in the category "rent". -/
def rentTransaction : Transaction :=
  { salaryTransaction with id := 10, type := "expense", category := "rent", amount := .fin 900 }

/-- An expense of 8 in the category "food". -/
def groceriesTransaction : Transaction :=
  { salaryTransaction with id := 11, type := "expense", category := "food", amount := .fin 8 }

/-- An expense of 34 in the category "food". -/
def dinnerTransaction : Transaction :=
  { salaryTransaction with id := 12, type := "expense", category := "food", amount := .fin 34 }

/-- The stored list of the chart scenarios: one income and three expenses. -/
def chartTransactions : List Transaction :=
  [salaryTransaction, groceriesTransaction, rentTransaction, dinnerTransaction]

/-- A chart that is initialised and shows nothing yet. -/
def emptyChart : ChartData := { labels := [], data := [] }

/-- An income of ten quadrillion (1e16), a number that a double holds exactly. -/
def largeIncome : Transaction :=
  { salaryTransaction with
    id := 20, amount := .fin 10000000000000000, recurring := false,
    recurringFrequency := none }

/-- An income of 1. -/
def unitIncome : Transaction :=
  { salaryTransaction with
    id := 21, amount := .fin 1, recurring := false, recurringFrequency := none }

/-- A state with the one stored income of ten quadrillion and no form open. -/
def largeLedgerState : AppState :=
  { emptyState with transactions := [largeIncome] }

/-- The form of an income of 1, not recurring. -/
def unitIncomeForm : TransactionForm :=
  { salaryForm with amount := .fin 1, recurring := false }

/-- An expense of ten quadrillion (1e16) in the category "food". -/
def largeExpense : Transaction :=
  { largeIncome with id := 22, type := "expense", category := "food" }

/-- An expense of 1 in the category "food". -/
def unitExpense : Transaction :=
  { unitIncome with id := 23, type := "expense", category := "food" }

/-- A record of the category "food" whose amount is `NaN`. -/
def nanExpense : Transaction :=
  { unitExpense with id := 24, amount := .nan }

/-! ## Lemmas on the embedding -/

theorem EventMap.get?_set_self (m : EventMap) (key : String) (value : List CalendarEvent) :
    (m.set key value).get? key = some value := by
  induction m with
  | nil => simp [EventMap.set, EventMap.get?]
  | cons p rest ih =>
    obtain ⟨k, v⟩ := p
    by_cases h : k = key
    · simp [EventMap.set, EventMap.get?, h]
    · simp [EventMap.set, EventMap.get?, h, ih]

theorem EventMap.get?_set_of_ne (m : EventMap) (key other : String)
    (value : List CalendarEvent) (h : other ≠ key) :
    (m.set key value).get? other = m.get? other := by
  induction m with
  | nil => simp [EventMap.set, EventMap.get?, Ne.symm h]
  | cons p rest ih =>
    obtain ⟨k, v⟩ := p
    by_cases hk : k = key
    · have hko : k ≠ other := fun e => h (e ▸ hk)
      simp [EventMap.set, EventMap.get?, hk, hko, Ne.symm h]
    · by_cases hko : k = other
      · subst hko
        simp [EventMap.set, EventMap.get?, h]
      · simp [EventMap.set, EventMap.get?, hk, hko, ih]

theorem JsNum.zero_eq : (0 : JsNum) = .fin 0 := rfl

theorem JsNum.fin_add_fin (a b : ℚ) : (JsNum.fin a + JsNum.fin b : JsNum) = .fin (a + b) := rfl

theorem JsNum.fin_sub_fin (a b : ℚ) : (JsNum.fin a - JsNum.fin b : JsNum) = .fin (a - b) := by
  show JsNum.add (.fin a) (JsNum.neg (.fin b)) = .fin (a - b)
  simp [JsNum.add, JsNum.neg, sub_eq_add_neg]

theorem formInvalid_of_valid (form : TransactionForm) (hdate : form.date ≠ "")
    (hpos : JsNum.lt (.fin 0) form.amount = true) : formInvalid form = false := by
  unfold formInvalid
  cases hq : form.amount with
  | nan => simp [hq, JsNum.lt] at hpos
  | negInf => simp [hq, JsNum.lt] at hpos
  | posInf => simp [hdate, JsNum.truthy, JsNum.isNaN, JsNum.le]
  | fin q =>
    rw [hq] at hpos
    have h0 : (0 : ℚ) < q := by simpa [JsNum.lt] using hpos
    simp [hdate, JsNum.truthy, JsNum.isNaN, JsNum.le, ne_of_gt h0, h0]

theorem formInvalid_of_invalid (form : TransactionForm)
    (h : form.date = "" ∨ form.amount = .nan ∨ form.amount = .fin 0
      ∨ JsNum.lt form.amount (.fin 0) = true) : formInvalid form = true := by
  unfold formInvalid
  rcases h with h | h | h | h
  · simp [h]
  · simp [h, JsNum.truthy]
  · simp [h, JsNum.truthy]
  · cases hq : form.amount with
    | nan => simp [JsNum.truthy]
    | negInf => simp [JsNum.le]
    | posInf => simp [hq, JsNum.lt] at h
    | fin q =>
      rw [hq] at h
      have h0 : q < 0 := by simpa [JsNum.lt] using h
      simp [JsNum.le, le_of_lt h0]

theorem addRecurringTransactionToCalendar_transactions (s : AppState) (t : Transaction) :
    (addRecurringTransactionToCalendar s t).transactions = s.transactions := by
  unfold addRecurringTransactionToCalendar
  split
  · rfl
  · split <;> rfl

theorem handleTransactionSubmit_new_transactions (s : AppState) (form : TransactionForm)
    (now : Nat) (nowIso : String) (hnew : s.currentTransaction = none)
    (hvalid : formInvalid form = false) :
    (handleTransactionSubmit s form now nowIso).1.transactions
      = s.transactions ++ [buildTransaction none form now nowIso] := by
  unfold handleTransactionSubmit
  simp only [hvalid, hnew]
  by_cases hr : form.recurring = true
  · simp [hr, addRecurringTransactionToCalendar_transactions]
  · simp [hr]

theorem findIndex_eq_none {α : Type} (p : α → Bool) (l : List α)
    (h : ∀ x ∈ l, p x = false) : findIndex p l = none := by
  induction l with
  | nil => rfl
  | cons x xs ih =>
    have hx : p x = false := h x (List.mem_cons_self x xs)
    have hxs : ∀ y ∈ xs, p y = false := fun y hy => h y (List.mem_cons_of_mem x hy)
    simp [findIndex, hx, ih hxs]

/-- With pairwise distinct ids, `findIndex` on an id returns the index of the one record
that carries this id. -/
theorem findIndex_id_of_nodup (ts : List Transaction) (a : Nat) (i : Nat) (t : Transaction)
    (hnodup : (ts.map (·.id)).Nodup) (hi : ts[i]? = some t) (hid : t.id = a) :
    findIndex (fun u => decide (u.id = a)) ts = some i := by
  induction ts generalizing i with
  | nil => simp at hi
  | cons x xs ih =>
    rw [List.map_cons, List.nodup_cons] at hnodup
    cases i with
    | zero =>
      have hx : x = t := by simpa using hi
      simp [findIndex, hx, hid]
    | succ k =>
      have hk : xs[k]? = some t := by simpa using hi
      have hmem : t ∈ xs := List.getElem?_mem hk
      have hxa : x.id ≠ a := by
        intro hx
        apply hnodup.1
        rw [hx, ← hid]
        exact List.mem_map_of_mem _ hmem
      simp [findIndex, hxa, ih k hnodup.2 hk]

/-- With pairwise distinct ids, erasing at the index found for an id is the same as
filtering this id out. -/
theorem eraseIdx_eq_filter_of_nodup (ts : List Transaction) (a : Nat) (i : Nat)
    (hnodup : (ts.map (·.id)).Nodup)
    (hfind : findIndex (fun u => decide (u.id = a)) ts = some i) :
    ts.eraseIdx i = ts.filter (fun u => decide (u.id ≠ a)) := by
  induction ts generalizing i with
  | nil => simp [findIndex] at hfind
  | cons x xs ih =>
    rw [List.map_cons, List.nodup_cons] at hnodup
    by_cases hx : x.id = a
    · have h0 : i = 0 := by simpa [findIndex, hx] using hfind.symm
      subst h0
      have hall : ∀ u ∈ xs, u.id ≠ a := by
        intro u hu hua
        apply hnodup.1
        rw [hx, ← hua]
        exact List.mem_map_of_mem _ hu
      have hfilter : xs.filter (fun u => decide (u.id ≠ a)) = xs := by
        rw [List.filter_eq_self]
        intro u hu
        simpa using hall u hu
      rw [List.filter_cons_of_neg (by simp [hx]), hfilter]
      rfl
    · cases hrest : findIndex (fun u => decide (u.id = a)) xs with
      | none => simp [findIndex, hx, hrest] at hfind
      | some k =>
        have hik : i = k + 1 := by simpa [findIndex, hx, hrest] using hfind.symm
        subst hik
        simp [hx, ih k hnodup.2 hrest]

theorem removeTransactionFromCalendar_transactions (s : AppState) (t : Transaction) :
    (removeTransactionFromCalendar s t).transactions = s.transactions := by
  unfold removeTransactionFromCalendar
  split
  · rfl
  · split <;> rfl

theorem pushCalendarEvent_get?_self (events : EventMap) (t : Transaction) :
    (pushCalendarEvent events t).get? t.date
      = some ((events.get? t.date).getD [] ++ [calendarEvent t]) := by
  unfold pushCalendarEvent
  cases h : events.get? t.date with
  | none => simp [h, EventMap.get?_set_self]
  | some list => simp [h, EventMap.get?_set_self]

theorem pushCalendarEvent_get?_of_ne (events : EventMap) (t : Transaction) (key : String)
    (hkey : key ≠ t.date) : (pushCalendarEvent events t).get? key = events.get? key := by
  unfold pushCalendarEvent
  cases h : events.get? t.date with
  | none => simp [h, EventMap.get?_set_self, EventMap.get?_set_of_ne _ _ _ _ hkey]
  | some list => simp [h, EventMap.get?_set_of_ne _ _ _ _ hkey]

theorem addRecurringTransactionToCalendar_events (s : AppState) (t : Transaction)
    (events : EventMap) (hev : s.events = some events) :
    (addRecurringTransactionToCalendar s t).events = some (pushCalendarEvent events t) := by
  unfold AppState.events at hev
  unfold addRecurringTransactionToCalendar
  cases hc : s.calendar with
  | none => simp [hc] at hev
  | some calendar =>
    simp only [hc] at hev
    simp [hev, AppState.events]

theorem foldl_dashboardStep (ts : List Transaction) (a b : JsNum)
    (h : ∀ t ∈ ts, t.type = "income" ∨ t.type = "expense") :
    ts.foldl dashboardStep (a, b)
      = (a + ((ts.filter (fun t => decide (t.type = "income"))).map (·.amount)).sum,
         b + ((ts.filter (fun t => decide (t.type = "expense"))).map (·.amount)).sum) := by
  induction ts generalizing a b with
  | nil => simp
  | cons t rest ih =>
    have hrest : ∀ u ∈ rest, u.type = "income" ∨ u.type = "expense" :=
      fun u hu => h u (List.mem_cons_of_mem t hu)
    rw [List.foldl_cons, ih _ _ hrest]
    rcases h t (List.mem_cons_self t rest) with ht | ht
    · simp [dashboardStep, ht, add_assoc]
    · have hne : t.type ≠ "income" := by rw [ht]; decide
      simp [dashboardStep, ht, hne, add_assoc]

/-! ## Validation and creation -/

/-- C1: a transaction form submission, new or edit, whose date is empty or whose amount is
NaN, zero or negative is rejected by `handleTransactionSubmit` before any mutation: the
call reports the validation failure and returns the state it received, so the transaction
list and the calendar event mapping are what they were. -/
theorem handleTransactionSubmit_rejects_invalid (s : AppState) (form : TransactionForm)
    (now : Nat) (nowIso : String)
    (h : form.date = "" ∨ form.amount = .nan ∨ form.amount = .fin 0
      ∨ JsNum.lt form.amount (.fin 0) = true) :
    handleTransactionSubmit s form now nowIso = (s, .validationFailed)
    ∧ (handleTransactionSubmit s form now nowIso).1.transactions = s.transactions
    ∧ (handleTransactionSubmit s form now nowIso).1.events = s.events := by
  have hres : handleTransactionSubmit s form now nowIso = (s, .validationFailed) := by
    unfold handleTransactionSubmit
    simp [formInvalid_of_invalid form h]
  simp [hres]

theorem handleTransactionSubmit_rejects_invalid_witness :
    (zeroAmountForm.date = "" ∨ zeroAmountForm.amount = .nan ∨ zeroAmountForm.amount = .fin 0
      ∨ JsNum.lt zeroAmountForm.amount (.fin 0) = true)
    ∧ (handleTransactionSubmit editingState zeroAmountForm 99 "2024-03-16T08:00:00.000Z"
        = (editingState, .validationFailed)
      ∧ (handleTransactionSubmit editingState zeroAmountForm 99
          "2024-03-16T08:00:00.000Z").1.transactions = editingState.transactions
      ∧ (handleTransactionSubmit editingState zeroAmountForm 99
          "2024-03-16T08:00:00.000Z").1.events = editingState.events) :=
  ⟨Or.inr (Or.inr (Or.inl rfl)),
   handleTransactionSubmit_rejects_invalid editingState zeroAmountForm 99
     "2024-03-16T08:00:00.000Z" (Or.inr (Or.inr (Or.inl rfl)))⟩

/-- C2: a valid submission of a new transaction (nothing being edited, non-empty date,
amount above zero) appends exactly one record to the transaction list. The record carries
the submitted type, amount, category, date, description and recurring flag, its id is the
clock value and its createdAt the timestamp; every transaction stored before is still at
its index. -/
theorem handleTransactionSubmit_appends_new (s : AppState) (form : TransactionForm)
    (now : Nat) (nowIso : String) (hnew : s.currentTransaction = none)
    (hdate : form.date ≠ "") (hpos : JsNum.lt (.fin 0) form.amount = true) :
    ∃ r : Transaction,
      (handleTransactionSubmit s form now nowIso).1.transactions = s.transactions ++ [r]
      ∧ r.type = form.type ∧ r.amount = form.amount ∧ r.category = form.category
      ∧ r.date = form.date ∧ r.description = some form.description
      ∧ r.recurring = form.recurring ∧ r.id = now ∧ r.createdAt = nowIso
      ∧ ∀ i, i < s.transactions.length →
          (handleTransactionSubmit s form now nowIso).1.transactions[i]? = s.transactions[i]? := by
  have happ := handleTransactionSubmit_new_transactions s form now nowIso hnew
    (formInvalid_of_valid form hdate hpos)
  refine ⟨buildTransaction none form now nowIso, happ, rfl, rfl, rfl, rfl, rfl, rfl, rfl, rfl, ?_⟩
  intro i hi
  rw [happ, List.getElem?_append_left hi]

theorem handleTransactionSubmit_appends_new_witness :
    (ledgerState.currentTransaction = none ∧ salaryForm.date ≠ ""
      ∧ JsNum.lt (.fin 0) salaryForm.amount = true)
    ∧ ∃ r : Transaction,
      (handleTransactionSubmit ledgerState salaryForm 123 "2024-03-01T09:00:00.000Z").1.transactions
        = ledgerState.transactions ++ [r]
      ∧ r.type = salaryForm.type ∧ r.amount = salaryForm.amount
      ∧ r.category = salaryForm.category
      ∧ r.date = salaryForm.date ∧ r.description = some salaryForm.description
      ∧ r.recurring = salaryForm.recurring ∧ r.id = 123
      ∧ r.createdAt = "2024-03-01T09:00:00.000Z"
      ∧ ∀ i, i < ledgerState.transactions.length →
          (handleTransactionSubmit ledgerState salaryForm 123
            "2024-03-01T09:00:00.000Z").1.transactions[i]? = ledgerState.transactions[i]? :=
  ⟨⟨rfl, by decide, by simp [salaryForm, JsNum.lt]⟩,
   handleTransactionSubmit_appends_new ledgerState salaryForm 123 "2024-03-01T09:00:00.000Z"
     rfl (by decide) (by simp [salaryForm, JsNum.lt])⟩

/-! ## Edit -/

/-- An edit submission that passes validation while the id of the edited transaction is
not stored: the state is returned as it was, and the feedback is the success text. -/
theorem handleTransactionSubmit_edit_unknown_id (s : AppState) (form : TransactionForm)
    (now : Nat) (nowIso : String) (c : Transaction) (hcur : s.currentTransaction = some c)
    (hvalid : formInvalid form = false) (hnone : ∀ t ∈ s.transactions, t.id ≠ c.id) :
    handleTransactionSubmit s form now nowIso
      = (s, .feedback "Transaction updated successfully!") := by
  have hfind : findIndex (fun t => decide (t.id = c.id)) s.transactions = none :=
    findIndex_eq_none _ _ (fun t ht => by simpa using hnone t ht)
  unfold handleTransactionSubmit
  simp [hvalid, hcur, hfind]

/-- C5: a valid edit submission, with pairwise distinct ids, on a transaction whose id is
stored at index `i` (the form was opened on that record, so the edited transaction carries
its createdAt): the list keeps its length, the record at index `i` keeps its id and its
createdAt and takes the submitted type, amount, category, date, description and recurring
flag, and the record at every other index is unchanged. -/
theorem handleTransactionSubmit_edit_in_place (s : AppState) (form : TransactionForm)
    (now : Nat) (nowIso : String) (c t : Transaction) (i : Nat)
    (hcur : s.currentTransaction = some c)
    (hdate : form.date ≠ "") (hpos : JsNum.lt (.fin 0) form.amount = true)
    (hnodup : (s.transactions.map (·.id)).Nodup)
    (hi : s.transactions[i]? = some t) (hid : t.id = c.id)
    (hsnap : t.createdAt = c.createdAt) :
    (handleTransactionSubmit s form now nowIso).1.transactions.length = s.transactions.length
    ∧ (∃ r : Transaction,
        (handleTransactionSubmit s form now nowIso).1.transactions[i]? = some r
        ∧ r.id = t.id ∧ r.createdAt = t.createdAt
        ∧ r.type = form.type ∧ r.amount = form.amount ∧ r.category = form.category
        ∧ r.date = form.date ∧ r.description = some form.description
        ∧ r.recurring = form.recurring)
    ∧ ∀ j, j ≠ i →
        (handleTransactionSubmit s form now nowIso).1.transactions[j]? = s.transactions[j]? := by
  have hfind := findIndex_id_of_nodup s.transactions c.id i t hnodup hi hid
  have hlt : i < s.transactions.length := (List.getElem?_eq_some.mp hi).1
  have hres : (handleTransactionSubmit s form now nowIso).1.transactions
      = s.transactions.set i (buildTransaction (some c) form now nowIso) := by
    unfold handleTransactionSubmit
    simp [formInvalid_of_valid form hdate hpos, hcur, hfind]
  rw [hres]
  refine ⟨List.length_set .., ⟨buildTransaction (some c) form now nowIso, ?_, hid.symm,
    hsnap.symm, rfl, rfl, rfl, rfl, rfl, rfl⟩, ?_⟩
  · simp [List.getElem?_set, hlt]
  · intro j hj
    simp [List.getElem?_set, Ne.symm hj]

theorem handleTransactionSubmit_edit_in_place_witness :
    (editingState.currentTransaction = some foodTransaction
      ∧ salaryForm.date ≠ "" ∧ JsNum.lt (.fin 0) salaryForm.amount = true
      ∧ (editingState.transactions.map (·.id)).Nodup
      ∧ editingState.transactions[1]? = some foodTransaction)
    ∧ (handleTransactionSubmit editingState salaryForm 99
          "2024-03-16T08:00:00.000Z").1.transactions.length = editingState.transactions.length
    ∧ (∃ r : Transaction,
        (handleTransactionSubmit editingState salaryForm 99
          "2024-03-16T08:00:00.000Z").1.transactions[1]? = some r
        ∧ r.id = foodTransaction.id ∧ r.createdAt = foodTransaction.createdAt
        ∧ r.type = salaryForm.type ∧ r.amount = salaryForm.amount
        ∧ r.category = salaryForm.category
        ∧ r.date = salaryForm.date ∧ r.description = some salaryForm.description
        ∧ r.recurring = salaryForm.recurring)
    ∧ ∀ j, j ≠ 1 →
        (handleTransactionSubmit editingState salaryForm 99
          "2024-03-16T08:00:00.000Z").1.transactions[j]? = editingState.transactions[j]? :=
  ⟨⟨rfl, by decide, by simp [salaryForm, JsNum.lt], by decide, rfl⟩,
   handleTransactionSubmit_edit_in_place editingState salaryForm 99 "2024-03-16T08:00:00.000Z"
     foodTransaction foodTransaction 1 rfl (by decide) (by simp [salaryForm, JsNum.lt])
     (by decide) rfl rfl rfl⟩

/-- The claim C6 fails on an edit submission that passes validation while the form is open
on a transaction whose id is not stored (here: the list holds id 123, the form is open on
id 7): the call leaves the list as it was, yet its feedback is the text
"Transaction updated successfully!", and no not-found error is reported. -/
theorem handleTransactionSubmit_edit_unknown_id_reports_success :
    (∀ t ∈ staleState.transactions, t.id ≠ foodTransaction.id)
    ∧ staleState.currentTransaction = some foodTransaction
    ∧ formInvalid salaryForm = false
    ∧ handleTransactionSubmit staleState salaryForm 99 "2024-03-16T08:00:00.000Z"
      = (staleState, .feedback "Transaction updated successfully!") := by
  have hnone : ∀ t ∈ staleState.transactions, t.id ≠ foodTransaction.id := by decide
  have hvalid : formInvalid salaryForm = false :=
    formInvalid_of_valid salaryForm (by decide) (by simp [salaryForm, JsNum.lt])
  exact ⟨hnone, rfl, hvalid,
    handleTransactionSubmit_edit_unknown_id staleState salaryForm 99 _ foodTransaction rfl
      hvalid hnone⟩

/-! ## Deletion -/

/-- C7: with pairwise distinct ids, a confirmed deletion of a transaction whose id is
stored leaves a list that holds no transaction with that id, is one element shorter, and
is the old list without that one record: every other transaction is unchanged and in the
same relative order. -/
theorem deleteTransaction_removes (s : AppState) (c : Transaction)
    (hcur : s.currentTransaction = some c)
    (hnodup : (s.transactions.map (·.id)).Nodup)
    (hmem : ∃ t ∈ s.transactions, t.id = c.id) :
    (∀ t ∈ (deleteTransaction s true).1.transactions, t.id ≠ c.id)
    ∧ (deleteTransaction s true).1.transactions.length + 1 = s.transactions.length
    ∧ (deleteTransaction s true).1.transactions
        = s.transactions.filter (fun t => decide (t.id ≠ c.id))
    ∧ (deleteTransaction s true).2 = .deleted := by
  obtain ⟨t, ht, hid⟩ := hmem
  obtain ⟨i, hi⟩ := List.getElem?_of_mem ht
  have hfind := findIndex_id_of_nodup s.transactions c.id i t hnodup hi hid
  have hlt : i < s.transactions.length := (List.getElem?_eq_some.mp hi).1
  have hres : (deleteTransaction s true).1.transactions = s.transactions.eraseIdx i := by
    unfold deleteTransaction
    simp only [hcur, hfind]
    by_cases hr : c.recurring = true
    · simp [hr, closeTransactionModal, removeTransactionFromCalendar_transactions]
    · simp [hr, closeTransactionModal]
  have hout : (deleteTransaction s true).2 = .deleted := by
    unfold deleteTransaction
    simp [hcur, hfind]
  have hfilter := eraseIdx_eq_filter_of_nodup s.transactions c.id i hnodup hfind
  refine ⟨?_, ?_, ?_, hout⟩
  · intro u hu
    rw [hres, hfilter] at hu
    simpa using (List.mem_filter.mp hu).2
  · rw [hres, List.length_eraseIdx, if_pos hlt]
    omega
  · rw [hres, hfilter]

theorem deleteTransaction_removes_witness :
    (editingState.currentTransaction = some foodTransaction
      ∧ (editingState.transactions.map (·.id)).Nodup
      ∧ ∃ t ∈ editingState.transactions, t.id = foodTransaction.id)
    ∧ (∀ t ∈ (deleteTransaction editingState true).1.transactions, t.id ≠ foodTransaction.id)
    ∧ (deleteTransaction editingState true).1.transactions.length + 1
        = editingState.transactions.length
    ∧ (deleteTransaction editingState true).1.transactions
        = editingState.transactions.filter (fun t => decide (t.id ≠ foodTransaction.id))
    ∧ (deleteTransaction editingState true).2 = .deleted :=
  ⟨⟨rfl, by decide, foodTransaction, by simp [editingState], rfl⟩,
   deleteTransaction_removes editingState foodTransaction rfl (by decide)
     ⟨foodTransaction, by simp [editingState], rfl⟩⟩

/-- C8: a deletion request on a transaction whose id matches no stored transaction is a
no-op, confirmed or not and whatever the recurring flag of the requested transaction: the
state after the call is the state before it, so the transaction list and the calendar event
mapping are the same. -/
theorem deleteTransaction_unknown_id (s : AppState) (confirmed : Bool) (c : Transaction)
    (hcur : s.currentTransaction = some c)
    (hnone : ∀ t ∈ s.transactions, t.id ≠ c.id) :
    (deleteTransaction s confirmed).1 = s
    ∧ (deleteTransaction s confirmed).1.transactions = s.transactions
    ∧ (deleteTransaction s confirmed).1.events = s.events := by
  have hfind : findIndex (fun t => decide (t.id = c.id)) s.transactions = none :=
    findIndex_eq_none _ _ (fun t ht => by simpa using hnone t ht)
  have hres : (deleteTransaction s confirmed).1 = s := by
    unfold deleteTransaction
    cases confirmed <;> simp [hcur, hfind]
  simp [hres]

theorem deleteTransaction_unknown_id_witness :
    (staleRecurringState.currentTransaction = some salaryTransaction
      ∧ ∀ t ∈ staleRecurringState.transactions, t.id ≠ salaryTransaction.id)
    ∧ (deleteTransaction staleRecurringState true).1 = staleRecurringState
    ∧ (deleteTransaction staleRecurringState true).1.transactions = staleRecurringState.transactions
    ∧ (deleteTransaction staleRecurringState true).1.events = staleRecurringState.events :=
  ⟨⟨rfl, by decide⟩,
   deleteTransaction_unknown_id staleRecurringState true salaryTransaction rfl (by decide)⟩

/-! ## Mirroring of recurring transactions -/

/-- C9: a valid submission of a new transaction with the recurring flag set, the calendar
being available: the event list stored under the date of the transaction is afterwards the
list stored before (empty when the date had none) with one event appended last, whose id is
the string "finance_" followed by the id of the transaction; the lists of all the other
dates are unchanged. -/
theorem handleTransactionSubmit_mirrors_recurring (s : AppState) (form : TransactionForm)
    (now : Nat) (nowIso : String) (events : EventMap)
    (hnew : s.currentTransaction = none)
    (hdate : form.date ≠ "") (hpos : JsNum.lt (.fin 0) form.amount = true)
    (hrec : form.recurring = true) (hev : s.events = some events) :
    ∃ (r : Transaction) (events' : EventMap) (e : CalendarEvent),
      (handleTransactionSubmit s form now nowIso).1.transactions = s.transactions ++ [r]
      ∧ r.id = now ∧ r.date = form.date
      ∧ (handleTransactionSubmit s form now nowIso).1.events = some events'
      ∧ events'.get? r.date = some ((events.get? r.date).getD [] ++ [e])
      ∧ e.id = .str ("finance_" ++ toString r.id)
      ∧ ∀ key, key ≠ r.date → events'.get? key = events.get? key := by
  have hvalid := formInvalid_of_valid form hdate hpos
  have hevents : (handleTransactionSubmit s form now nowIso).1.events
      = some (pushCalendarEvent events (buildTransaction none form now nowIso)) := by
    unfold handleTransactionSubmit
    simp only [hvalid, hnew, hrec]
    exact addRecurringTransactionToCalendar_events _ _ events hev
  exact ⟨buildTransaction none form now nowIso, _, calendarEvent _,
    handleTransactionSubmit_new_transactions s form now nowIso hnew hvalid, rfl, rfl, hevents,
    pushCalendarEvent_get?_self events _, rfl,
    fun key hkey => pushCalendarEvent_get?_of_ne events _ key hkey⟩

theorem handleTransactionSubmit_mirrors_recurring_witness :
    (calendarState.currentTransaction = none ∧ salaryForm.date ≠ ""
      ∧ JsNum.lt (.fin 0) salaryForm.amount = true ∧ salaryForm.recurring = true
      ∧ calendarState.events
          = some [("2024-03-01", [dentistEvent]), ("2024-03-02", [dentistEvent])])
    ∧ ∃ (r : Transaction) (events' : EventMap) (e : CalendarEvent),
      (handleTransactionSubmit calendarState salaryForm 123
          "2024-03-01T09:00:00.000Z").1.transactions = calendarState.transactions ++ [r]
      ∧ r.id = 123 ∧ r.date = salaryForm.date
      ∧ (handleTransactionSubmit calendarState salaryForm 123
          "2024-03-01T09:00:00.000Z").1.events = some events'
      ∧ events'.get? r.date
          = some ((EventMap.get? [("2024-03-01", [dentistEvent]), ("2024-03-02", [dentistEvent])]
              r.date).getD [] ++ [e])
      ∧ e.id = .str ("finance_" ++ toString r.id)
      ∧ ∀ key, key ≠ r.date → events'.get? key
          = EventMap.get? [("2024-03-01", [dentistEvent]), ("2024-03-02", [dentistEvent])] key :=
  ⟨⟨rfl, by decide, by simp [salaryForm, JsNum.lt], rfl, rfl⟩,
   handleTransactionSubmit_mirrors_recurring calendarState salaryForm 123
     "2024-03-01T09:00:00.000Z" _ rfl (by decide) (by simp [salaryForm, JsNum.lt]) rfl rfl⟩

/-- C10: the mirrored event that `addRecurringTransactionToCalendar` builds for a
transaction `t` and pushes under the date of `t` has the title "Income: " followed by
`formatCurrency(t.amount)` when the type of `t` is "income" and "Payment: " followed by it
otherwise, the description `t.category`, ": " and the description of `t` when this one is
non-empty, and `t.category` followed by ": Recurring transaction" when it is empty or absent,
the recurring flag set, and financeData made of the id, type and amount of `t`. For the
income of 1000 with id 123 the id is "finance_123" and the title "Income: $1,000.00". -/
theorem calendarEvent_fields (t : Transaction) (events : EventMap) (calendar : Calendar)
    (ts : List Transaction) (current : Option Transaction) :
    ((addRecurringTransactionToCalendar
        { calendar := some { calendar with events := some events }
          transactions := ts, currentTransaction := current } t).events.bind
        (fun m => m.get? t.date))
      = some ((events.get? t.date).getD [] ++ [calendarEvent t])
    ∧ (calendarEvent t).id = .str ("finance_" ++ toString t.id)
    ∧ (calendarEvent t).title
        = (if t.type = "income" then "Income: " else "Payment: ") ++ formatCurrency t.amount
    ∧ (∀ d, t.description = some d → d ≠ "" →
        (calendarEvent t).description = some (t.category ++ ": " ++ d))
    ∧ (t.description = none ∨ t.description = some "" →
        (calendarEvent t).description = some (t.category ++ ": Recurring transaction"))
    ∧ (calendarEvent t).recurring = some true
    ∧ (calendarEvent t).financeData
        = some { transactionId := t.id, type := t.type, amount := t.amount }
    ∧ (calendarEvent salaryTransaction).id = .str "finance_123"
    ∧ (calendarEvent salaryTransaction).title = "Income: $1,000.00" := by
  refine ⟨?_, rfl, ?_, ?_, ?_, rfl, rfl, by decide, by decide⟩
  · rw [addRecurringTransactionToCalendar_events
      ⟨some { calendar with events := some events }, ts, current⟩ t events rfl]
    exact pushCalendarEvent_get?_self events t
  · by_cases ht : t.type = "income"
    · simp only [calendarEvent, ht, if_true]
      rfl
    · simp only [calendarEvent, ht, if_false]
      rfl
  · intro d hd hne
    simp [calendarEvent, hd, hne]
  · intro h
    have happ : t.category ++ ": " ++ "Recurring transaction"
        = t.category ++ ": Recurring transaction" := by
      rw [String.append_assoc]
      rfl
    rcases h with h | h <;> simp [calendarEvent, h, happ]

/-! ## Event identifiers -/

theorem digitChar_toNat (k : Nat) (hk : k < 10) : (Nat.digitChar k).toNat - 48 = k := by
  interval_cases k <;> rfl

theorem digitsValue_toDigitsCore (fuel n : Nat) (ds : List Char) (hfuel : n < fuel) :
    digitsValue 0 (Nat.toDigitsCore 10 fuel n ds) = digitsValue n ds := by
  induction fuel generalizing n ds with
  | zero => omega
  | succ fuel ih =>
    unfold Nat.toDigitsCore
    have hd : (Nat.digitChar (n % 10)).toNat - 48 = n % 10 :=
      digitChar_toNat _ (Nat.mod_lt _ (by decide))
    by_cases h0 : n / 10 = 0
    · have hn : n % 10 = n := Nat.mod_eq_of_lt (by omega)
      rw [hn] at hd
      simp [h0, digitsValue, hd, hn]
    · have hlt : n / 10 < fuel := by omega
      simp only [h0, if_false]
      rw [ih (n / 10) _ hlt]
      have hn : n / 10 * 10 + n % 10 = n := by omega
      simp [digitsValue, hd, hn]

theorem toString_nat_injective (a b : Nat) (h : toString a = toString b) : a = b := by
  have h1 : Nat.toDigits 10 a = Nat.toDigits 10 b := by
    have h2 : (Nat.toDigits 10 a).asString = (Nat.toDigits 10 b).asString := h
    exact congrArg String.data h2
  have ha := digitsValue_toDigitsCore (a + 1) a [] (Nat.lt_succ_self a)
  have hb := digitsValue_toDigitsCore (b + 1) b [] (Nat.lt_succ_self b)
  have hab : digitsValue 0 (Nat.toDigits 10 a) = digitsValue 0 (Nat.toDigits 10 b) := by rw [h1]
  simp only [Nat.toDigits] at hab
  rw [ha, hb] at hab
  simpa [digitsValue] using hab

theorem financeEventId_injective (a b : Nat) (h : financeEventId a = financeEventId b) :
    a = b := by
  unfold financeEventId at h
  have h1 : "finance_" ++ toString a = "finance_" ++ toString b := by
    injection h
  have h2 : ("finance_" ++ toString a).data = ("finance_" ++ toString b).data := by rw [h1]
  rw [String.data_append, String.data_append] at h2
  have h3 := List.append_cancel_left h2
  exact toString_nat_injective a b (String.ext h3)

/-! ## Event mapping: deletion and the list of all events -/

theorem EventMap.get?_delete_self (m : EventMap) (key : String) :
    (m.delete key).get? key = none := by
  induction m with
  | nil => rfl
  | cons p rest ih =>
    obtain ⟨k, v⟩ := p
    by_cases h : k = key
    · simp [EventMap.delete, h, ih]
    · simp [EventMap.delete, EventMap.get?, h, ih]

theorem EventMap.get?_delete_of_ne (m : EventMap) (key other : String) (h : other ≠ key) :
    (m.delete key).get? other = m.get? other := by
  induction m with
  | nil => rfl
  | cons p rest ih =>
    obtain ⟨k, v⟩ := p
    by_cases hk : k = key
    · subst hk
      simp [EventMap.delete, EventMap.get?, Ne.symm h, ih]
    · by_cases hko : k = other
      · subst hko
        simp [EventMap.delete, EventMap.get?, h]
      · simp [EventMap.delete, EventMap.get?, hk, hko, ih]

theorem EventMap.set_get?_self (m : EventMap) (key : String) (list : List CalendarEvent)
    (h : m.get? key = some list) : m.set key list = m := by
  induction m with
  | nil => simp [EventMap.get?] at h
  | cons p rest ih =>
    obtain ⟨k, v⟩ := p
    by_cases hk : k = key
    · simp [EventMap.get?, hk] at h
      simp [EventMap.set, hk, h]
    · simp [EventMap.get?, hk] at h
      simp [EventMap.set, hk, ih h]

theorem EventMap.mem_allEvents_of_get? (m : EventMap) (key : String)
    (list : List CalendarEvent) (e : CalendarEvent) (h : m.get? key = some list)
    (he : e ∈ list) : e ∈ m.allEvents := by
  induction m with
  | nil => simp [EventMap.get?] at h
  | cons p rest ih =>
    obtain ⟨k, v⟩ := p
    by_cases hk : k = key
    · simp [EventMap.get?, hk] at h
      simp [EventMap.allEvents, h, he]
    · simp [EventMap.get?, hk] at h
      simp [EventMap.allEvents, ih h]

theorem EventMap.countP_allEvents_set (p : CalendarEvent → Bool) (m : EventMap)
    (key : String) (value : List CalendarEvent) :
    (m.set key value).allEvents.countP p + ((m.get? key).getD []).countP p
      = m.allEvents.countP p + value.countP p := by
  induction m with
  | nil => simp [EventMap.set, EventMap.get?, EventMap.allEvents]
  | cons q rest ih =>
    obtain ⟨k, v⟩ := q
    by_cases hk : k = key
    · simp [EventMap.set, EventMap.get?, EventMap.allEvents, hk, List.countP_append]
      omega
    · simp only [EventMap.set, EventMap.get?, EventMap.allEvents, hk, if_false,
        List.countP_append]
      omega

theorem EventMap.countP_allEvents_delete (p : CalendarEvent → Bool) (m : EventMap)
    (key : String) :
    (m.delete key).allEvents.countP p + ((m.get? key).getD []).countP p
      ≤ m.allEvents.countP p := by
  induction m with
  | nil => simp [EventMap.delete, EventMap.get?, EventMap.allEvents]
  | cons q rest ih =>
    obtain ⟨k, v⟩ := q
    by_cases hk : k = key
    · have h1 : (EventMap.allEvents (EventMap.delete rest key)).countP p
          ≤ (EventMap.allEvents rest).countP p := by
        have := ih
        omega
      simp [EventMap.delete, EventMap.get?, EventMap.allEvents, hk, List.countP_append]
      omega
    · simp only [EventMap.delete, EventMap.get?, EventMap.allEvents, hk, if_false,
        List.countP_append]
      omega

theorem EventMap.mem_allEvents_set (m : EventMap) (key : String)
    (value : List CalendarEvent) (e : CalendarEvent) (h : e ∈ (m.set key value).allEvents) :
    e ∈ value ∨ e ∈ m.allEvents := by
  induction m with
  | nil => simpa [EventMap.set, EventMap.allEvents] using h
  | cons q rest ih =>
    obtain ⟨k, v⟩ := q
    by_cases hk : k = key
    · simp [EventMap.set, EventMap.allEvents, hk] at h
      rcases h with h | h
      · exact Or.inl h
      · exact Or.inr (by simp [EventMap.allEvents, h])
    · simp [EventMap.set, EventMap.allEvents, hk] at h
      rcases h with h | h
      · exact Or.inr (by simp [EventMap.allEvents, h])
      · rcases ih h with h2 | h2
        · exact Or.inl h2
        · exact Or.inr (by simp [EventMap.allEvents, h2])

theorem EventMap.mem_allEvents_delete (m : EventMap) (key : String) (e : CalendarEvent)
    (h : e ∈ (m.delete key).allEvents) : e ∈ m.allEvents := by
  induction m with
  | nil => simpa [EventMap.delete] using h
  | cons q rest ih =>
    obtain ⟨k, v⟩ := q
    by_cases hk : k = key
    · simp [EventMap.delete, hk] at h
      simp [EventMap.allEvents, ih h]
    · simp [EventMap.delete, EventMap.allEvents, hk] at h
      rcases h with h | h
      · simp [EventMap.allEvents, h]
      · simp [EventMap.allEvents, ih h]

/-! ## Removal of a mirrored event -/

/-- C11: `removeTransactionFromCalendar` on a transaction `t` leaves under the date of `t`
the events stored there before whose id differs from "finance_" followed by the id of `t`,
in their order; when none is left the date key is absent afterwards; the entry of every
other date key is unchanged; and a mapping without entry for the date of `t` is unchanged. -/
theorem removeTransactionFromCalendar_filters (events : EventMap) (t : Transaction)
    (calendar : Calendar) (ts : List Transaction) (current : Option Transaction) :
    (removeTransactionFromCalendar
        { calendar := some { calendar with events := some events }
          transactions := ts, currentTransaction := current } t).events
      = some (filterCalendarEvents events t)
    ∧ (∀ list, events.get? t.date = some list →
        list.filter (fun e => decide (e.id ≠ financeEventId t.id)) ≠ [] →
        (filterCalendarEvents events t).get? t.date
          = some (list.filter (fun e => decide (e.id ≠ financeEventId t.id))))
    ∧ (∀ list, events.get? t.date = some list →
        list.filter (fun e => decide (e.id ≠ financeEventId t.id)) = [] →
        (filterCalendarEvents events t).get? t.date = none)
    ∧ (∀ key, key ≠ t.date → (filterCalendarEvents events t).get? key = events.get? key)
    ∧ (events.get? t.date = none → filterCalendarEvents events t = events) := by
  refine ⟨rfl, ?_, ?_, ?_, ?_⟩
  · intro list hlist hne
    have hlen : (list.filter (fun e => decide (e.id ≠ financeEventId t.id))).length ≠ 0 := by
      simpa [List.length_eq_zero] using hne
    unfold financeEventId at hlen
    simp only [filterCalendarEvents, hlist, hlen, if_false]
    exact EventMap.get?_set_self _ _ _
  · intro list hlist hnil
    have hlen : (list.filter (fun e => decide (e.id ≠ financeEventId t.id))).length = 0 := by
      rw [hnil]; rfl
    unfold financeEventId at hlen
    simp only [filterCalendarEvents, hlist, hlen, if_true]
    exact EventMap.get?_delete_self _ _
  · intro key hkey
    unfold filterCalendarEvents
    cases h : events.get? t.date with
    | none => simp [h]
    | some list =>
      simp only [h]
      split
      · exact EventMap.get?_delete_of_ne _ _ _ hkey
      · exact EventMap.get?_set_of_ne _ _ _ _ hkey
  · intro h
    simp [filterCalendarEvents, h]

/-! ## Edits leave the calendar alone -/

/-- C16: an edit submission, whatever the old and the new values of the recurring flag and
of the date, leaves the calendar as it was: the event mapping after the call is the mapping
before it. -/
theorem handleTransactionSubmit_edit_keeps_events (s : AppState) (form : TransactionForm)
    (now : Nat) (nowIso : String) (c : Transaction)
    (hcur : s.currentTransaction = some c) :
    (handleTransactionSubmit s form now nowIso).1.calendar = s.calendar
    ∧ (handleTransactionSubmit s form now nowIso).1.events = s.events := by
  have hcal : (handleTransactionSubmit s form now nowIso).1.calendar = s.calendar := by
    unfold handleTransactionSubmit
    by_cases hv : formInvalid form = true
    · simp [hv]
    · simp only [hv, hcur]
      cases findIndex (fun t => decide (t.id = c.id)) s.transactions <;> rfl
  exact ⟨hcal, by unfold AppState.events; rw [hcal]⟩

theorem handleTransactionSubmit_edit_keeps_events_witness :
    editingState.currentTransaction = some foodTransaction
    ∧ (handleTransactionSubmit editingState salaryForm 99
        "2024-03-16T08:00:00.000Z").1.calendar = editingState.calendar
    ∧ (handleTransactionSubmit editingState salaryForm 99
        "2024-03-16T08:00:00.000Z").1.events = editingState.events :=
  ⟨rfl, handleTransactionSubmit_edit_keeps_events editingState salaryForm 99
    "2024-03-16T08:00:00.000Z" foodTransaction rfl⟩

/-! ## Counting the events of a mapping -/

theorem pushCalendarEvent_countP (p : CalendarEvent → Bool) (events : EventMap)
    (t : Transaction) :
    (pushCalendarEvent events t).allEvents.countP p
      = events.allEvents.countP p + [calendarEvent t].countP p := by
  unfold pushCalendarEvent
  cases h : events.get? t.date with
  | none =>
    have h1 := EventMap.countP_allEvents_set p events t.date []
    have h2 := EventMap.countP_allEvents_set p (events.set t.date []) t.date
      ([] ++ [calendarEvent t])
    simp only [h, EventMap.get?_set_self, Option.getD, List.countP_nil, List.nil_append] at h1 h2 ⊢
    omega
  | some list =>
    have h1 := EventMap.countP_allEvents_set p events t.date (list ++ [calendarEvent t])
    simp only [h, Option.getD, List.countP_append] at h1 ⊢
    omega

theorem pushCalendarEvent_mem (events : EventMap) (t : Transaction) (e : CalendarEvent)
    (he : e ∈ (pushCalendarEvent events t).allEvents) :
    e = calendarEvent t ∨ e ∈ events.allEvents := by
  unfold pushCalendarEvent at he
  cases h : events.get? t.date with
  | none =>
    simp only [h, EventMap.get?_set_self] at he
    rcases EventMap.mem_allEvents_set _ _ _ _ he with h1 | h1
    · exact Or.inl (by simpa using h1)
    · rcases EventMap.mem_allEvents_set _ _ _ _ h1 with h2 | h2
      · simp at h2
      · exact Or.inr h2
  | some list =>
    simp only [h] at he
    rcases EventMap.mem_allEvents_set _ _ _ _ he with h1 | h1
    · rcases List.mem_append.mp h1 with h2 | h2
      · exact Or.inr (EventMap.mem_allEvents_of_get? _ _ _ _ h h2)
      · exact Or.inl (by simpa using h2)
    · exact Or.inr h1

theorem pushNewEvent_countP (p : CalendarEvent → Bool) (events : EventMap)
    (form : EventForm) (now : Nat) :
    (pushNewEvent events form now).allEvents.countP p
      = events.allEvents.countP p + [newEvent form now].countP p := by
  unfold pushNewEvent
  cases h : events.get? form.date with
  | none =>
    have h1 := EventMap.countP_allEvents_set p events form.date []
    have h2 := EventMap.countP_allEvents_set p (events.set form.date []) form.date
      ([] ++ [newEvent form now])
    simp only [h, EventMap.get?_set_self, Option.getD, List.countP_nil, List.nil_append] at h1 h2 ⊢
    omega
  | some list =>
    have h1 := EventMap.countP_allEvents_set p events form.date (list ++ [newEvent form now])
    simp only [h, Option.getD, List.countP_append] at h1 ⊢
    omega

theorem pushNewEvent_mem (events : EventMap) (form : EventForm) (now : Nat)
    (e : CalendarEvent) (he : e ∈ (pushNewEvent events form now).allEvents) :
    e = newEvent form now ∨ e ∈ events.allEvents := by
  unfold pushNewEvent at he
  cases h : events.get? form.date with
  | none =>
    simp only [h, EventMap.get?_set_self] at he
    rcases EventMap.mem_allEvents_set _ _ _ _ he with h1 | h1
    · exact Or.inl (by simpa using h1)
    · rcases EventMap.mem_allEvents_set _ _ _ _ h1 with h2 | h2
      · simp at h2
      · exact Or.inr h2
  | some list =>
    simp only [h] at he
    rcases EventMap.mem_allEvents_set _ _ _ _ he with h1 | h1
    · rcases List.mem_append.mp h1 with h2 | h2
      · exact Or.inr (EventMap.mem_allEvents_of_get? _ _ _ _ h h2)
      · exact Or.inl (by simpa using h2)
    · exact Or.inr h1

/-- Counting through `filterCalendarEvents`: what is lost is lost under the date of `t`. -/
theorem filterCalendarEvents_countP (p : CalendarEvent → Bool) (events : EventMap)
    (t : Transaction) :
    (filterCalendarEvents events t).allEvents.countP p
        + ((events.get? t.date).getD []).countP p
      ≤ events.allEvents.countP p
        + (((events.get? t.date).getD []).filter
            (fun e => decide (e.id ≠ financeEventId t.id))).countP p := by
  unfold filterCalendarEvents
  cases h : events.get? t.date with
  | none => simp [h]
  | some list =>
    simp only [h, Option.getD]
    by_cases hl : (list.filter
        (fun e => decide (e.id ≠ EventId.str ("finance_" ++ toString t.id)))).length = 0
    · have h1 := EventMap.countP_allEvents_delete p events t.date
      simp only [h, Option.getD] at h1
      simp only [hl, if_true]
      omega
    · have h1 := EventMap.countP_allEvents_set p events t.date (list.filter
        (fun e => decide (e.id ≠ EventId.str ("finance_" ++ toString t.id))))
      simp only [h, Option.getD] at h1
      simp only [hl, if_false]
      unfold financeEventId
      omega

theorem filterCalendarEvents_countP_le (p : CalendarEvent → Bool) (events : EventMap)
    (t : Transaction) :
    (filterCalendarEvents events t).allEvents.countP p ≤ events.allEvents.countP p := by
  have h := filterCalendarEvents_countP p events t
  have h2 : (((events.get? t.date).getD []).filter
      (fun e => decide (e.id ≠ financeEventId t.id))).countP p
      ≤ ((events.get? t.date).getD []).countP p :=
    List.Sublist.countP_le _ (List.filter_sublist _)
  omega

theorem filterCalendarEvents_mem (events : EventMap) (t : Transaction) (e : CalendarEvent)
    (he : e ∈ (filterCalendarEvents events t).allEvents) : e ∈ events.allEvents := by
  unfold filterCalendarEvents at he
  cases h : events.get? t.date with
  | none => simpa [h] using he
  | some list =>
    simp only [h] at he
    split at he
    · exact EventMap.mem_allEvents_delete _ _ _ he
    · rcases EventMap.mem_allEvents_set _ _ _ _ he with h1 | h1
      · exact EventMap.mem_allEvents_of_get? _ _ _ _ h (List.mem_of_mem_filter h1)
      · exact h1

/-! ## The invariant of the runs -/

theorem findIndex_some {α : Type} (p : α → Bool) (l : List α) (i : Nat)
    (h : findIndex p l = some i) : ∃ x, l[i]? = some x ∧ p x = true := by
  induction l generalizing i with
  | nil => simp [findIndex] at h
  | cons y ys ih =>
    by_cases hy : p y = true
    · have h0 : i = 0 := by simpa [findIndex, hy] using h.symm
      subst h0
      exact ⟨y, by simp, hy⟩
    · cases hrest : findIndex p ys with
      | none => simp [findIndex, hy, hrest] at h
      | some k =>
        have hik : i = k + 1 := by simpa [findIndex, hy, hrest] using h.symm
        subst hik
        obtain ⟨x, hx, hpx⟩ := ih k hrest
        exact ⟨x, by simpa using hx, hpx⟩

theorem map_id_set (ts : List Transaction) (i : Nat) (t r : Transaction)
    (hi : ts[i]? = some t) (hid : r.id = t.id) :
    (ts.set i r).map (·.id) = ts.map (·.id) := by
  induction ts generalizing i with
  | nil => simp
  | cons x xs ih =>
    cases i with
    | zero =>
      have hx : x = t := by simpa using hi
      simp [hx, hid]
    | succ k =>
      have hk : xs[k]? = some t := by simpa using hi
      simp [ih k hk]

theorem AppState.storedEvents_of_events_none (s : AppState) (h : s.events = none) :
    s.storedEvents = [] := by
  simp [AppState.storedEvents, h]

theorem AppState.storedEvents_of_events_some (s : AppState) (events : EventMap)
    (h : s.events = some events) : s.storedEvents = events.allEvents := by
  simp [AppState.storedEvents, h]

theorem addRecurringTransactionToCalendar_of_events_none (s : AppState) (t : Transaction)
    (h : s.events = none) : addRecurringTransactionToCalendar s t = s := by
  unfold AppState.events at h
  unfold addRecurringTransactionToCalendar
  cases hc : s.calendar with
  | none => rfl
  | some calendar =>
    simp only [hc] at h
    simp [h]

theorem removeTransactionFromCalendar_of_events_none (s : AppState) (t : Transaction)
    (h : s.events = none) : removeTransactionFromCalendar s t = s := by
  unfold AppState.events at h
  unfold removeTransactionFromCalendar
  cases hc : s.calendar with
  | none => rfl
  | some calendar =>
    simp only [hc] at h
    simp [h]

theorem removeTransactionFromCalendar_events (s : AppState) (t : Transaction)
    (events : EventMap) (hev : s.events = some events) :
    (removeTransactionFromCalendar s t).events = some (filterCalendarEvents events t) := by
  unfold AppState.events at hev
  unfold removeTransactionFromCalendar
  cases hc : s.calendar with
  | none => simp [hc] at hev
  | some calendar =>
    simp only [hc] at hev
    simp [hev, AppState.events]

theorem handleEventSubmit_transactions (s : AppState) (form : EventForm) (now : Nat) :
    (handleEventSubmit s form now).transactions = s.transactions := by
  unfold handleEventSubmit
  split
  · rfl
  · split
    · rfl
    · split <;> rfl

theorem handleEventSubmit_events (s : AppState) (form : EventForm) (now : Nat) :
    (handleEventSubmit s form now).events = s.events
    ∨ ∃ events, s.events = some events
        ∧ (handleEventSubmit s form now).events = some (pushNewEvent events form now) := by
  unfold handleEventSubmit
  split
  · exact Or.inl rfl
  · cases hc : s.calendar with
    | none => exact Or.inl rfl
    | some calendar =>
      cases he : calendar.events with
      | none => simp [he]
      | some events =>
        refine Or.inr ⟨events, ?_, ?_⟩
        · simp [AppState.events, hc, he]
        · simp [AppState.events, he]

theorem AppState.storedEvents_congr (s s' : AppState) (he : s'.events = s.events) :
    s'.storedEvents = s.storedEvents := by
  unfold AppState.storedEvents
  rw [he]

theorem StoresInvariant.mono {s : AppState} {log : List Transaction}
    (h : StoresInvariant s log) (extra : List Transaction) :
    StoresInvariant s (log ++ extra) where
  stored_created := fun k hk => by
    rw [List.map_append]
    exact List.mem_append_left _ (h.stored_created k hk)
  stored_nodup := h.stored_nodup
  mirrored_created := fun e he k hk => by
    obtain ⟨r, hr, hid, hrec⟩ := h.mirrored_created e he k hk
    exact ⟨r, List.mem_append_left _ hr, hid, hrec⟩
  mirrored_once := h.mirrored_once
  finance_id := h.finance_id

/-- The invariant passes to a state whose stored ids are a sublist of the old ones and
whose events are among the old ones, counted with multiplicity. -/
theorem StoresInvariant.of_shrink {s s' : AppState} {log : List Transaction}
    (h : StoresInvariant s log)
    (hts : (s'.transactions.map (·.id)).Sublist (s.transactions.map (·.id)))
    (hmem : ∀ e ∈ s'.storedEvents, e ∈ s.storedEvents)
    (hcount : ∀ p : CalendarEvent → Bool,
      s'.storedEvents.countP p ≤ s.storedEvents.countP p) :
    StoresInvariant s' log where
  stored_created := fun k hk => h.stored_created k (hts.subset hk)
  stored_nodup := h.stored_nodup.sublist hts
  mirrored_created := fun e he k hk => h.mirrored_created e (hmem e he) k hk
  mirrored_once := fun k => le_trans (hcount _) (h.mirrored_once k)
  finance_id := fun e he fd hfd => h.finance_id e (hmem e he) fd hfd

theorem StoresInvariant.of_same {s s' : AppState} {log : List Transaction}
    (h : StoresInvariant s log) (hts : s'.transactions.map (·.id) = s.transactions.map (·.id))
    (he : s'.events = s.events) : StoresInvariant s' log := by
  have hse := AppState.storedEvents_congr s s' he
  refine h.of_shrink ?_ ?_ ?_
  · rw [hts]
  · intro e hmem
    rw [hse] at hmem
    exact hmem
  · intro p
    rw [hse]

/-- The invariant after a plain event, with a numeric id and no `financeData`, is pushed. -/
theorem StoresInvariant.after_handleEventSubmit {s : AppState} {log : List Transaction}
    (h : StoresInvariant s log) (form : EventForm) (now : Nat) :
    StoresInvariant (handleEventSubmit s form now) log := by
  have hts := handleEventSubmit_transactions s form now
  rcases handleEventSubmit_events s form now with he | ⟨events, hev, he⟩
  · exact h.of_same (by rw [hts]) he
  · have hold := AppState.storedEvents_of_events_some s events hev
    have hnew := AppState.storedEvents_of_events_some _ _ he
    have hmem : ∀ e ∈ (handleEventSubmit s form now).storedEvents,
        e = newEvent form now ∨ e ∈ s.storedEvents := by
      intro e hmem
      rw [hnew] at hmem
      rw [hold]
      exact pushNewEvent_mem events form now e hmem
    refine ⟨?_, ?_, ?_, ?_, ?_⟩
    · rw [hts]; exact h.stored_created
    · rw [hts]; exact h.stored_nodup
    · intro e hem k hk
      rcases hmem e hem with h1 | h1
      · rw [h1] at hk
        simp [newEvent, financeEventId] at hk
      · exact h.mirrored_created e h1 k hk
    · intro k
      rw [hnew, pushNewEvent_countP, ← hold]
      have h0 : [newEvent form now].countP (fun e => decide (e.id = financeEventId k)) = 0 := by
        simp [newEvent, financeEventId]
      have := h.mirrored_once k
      omega
    · intro e hem fd hfd
      rcases hmem e hem with h1 | h1
      · rw [h1] at hfd
        simp [newEvent] at hfd
      · exact h.finance_id e h1 fd hfd

theorem StoresInvariant.after_removeTransactionFromCalendar {s : AppState}
    {log : List Transaction} (h : StoresInvariant s log) (t : Transaction) :
    StoresInvariant (removeTransactionFromCalendar s t) log := by
  have hts := removeTransactionFromCalendar_transactions s t
  cases hev : s.events with
  | none =>
    rw [removeTransactionFromCalendar_of_events_none s t hev]
    exact h
  | some events =>
    have hnew := AppState.storedEvents_of_events_some _ _
      (removeTransactionFromCalendar_events s t events hev)
    have hold := AppState.storedEvents_of_events_some s events hev
    refine h.of_shrink ?_ ?_ ?_
    · rw [hts]
    · intro e he
      rw [hnew] at he
      rw [hold]
      exact filterCalendarEvents_mem events t e he
    · intro p
      rw [hnew, hold]
      exact filterCalendarEvents_countP_le p events t

theorem StoresInvariant.after_eraseIdx {s s' : AppState} {log : List Transaction}
    (h : StoresInvariant s log) (i : Nat)
    (hts : s'.transactions = s.transactions.eraseIdx i) (he : s'.events = s.events) :
    StoresInvariant s' log := by
  have hse := AppState.storedEvents_congr s s' he
  refine h.of_shrink ?_ ?_ ?_
  · rw [hts]
    exact (List.eraseIdx_sublist _ _).map _
  · intro e hmem
    rw [hse] at hmem
    exact hmem
  · intro p
    rw [hse]

/-- The invariant after `deleteTransaction`: the list loses at most one record and the
mapping at most the events filtered out under one date. -/
theorem StoresInvariant.after_deleteTransaction {s : AppState} {log : List Transaction}
    (h : StoresInvariant s log) (confirmed : Bool) :
    StoresInvariant (deleteTransaction s confirmed).1 log := by
  unfold deleteTransaction
  split
  · exact h
  · split
    · exact h
    · split
      · rename_i current _ _ _ index _
        have h1 : StoresInvariant
            ({ s with transactions := s.transactions.eraseIdx index } : AppState) log :=
          h.after_eraseIdx index rfl rfl
        show StoresInvariant (closeTransactionModal
          (if current.recurring = true then
            removeTransactionFromCalendar
              { s with transactions := s.transactions.eraseIdx index } current
           else { s with transactions := s.transactions.eraseIdx index })) log
        split
        · exact (h1.after_removeTransactionFromCalendar current).of_same rfl rfl
        · exact h1.of_same rfl rfl
      · exact h

/-- The invariant after a record with a fresh id is appended, without mirroring. -/
theorem StoresInvariant.after_append {s s' : AppState} {log : List Transaction}
    (h : StoresInvariant s log) (r : Transaction)
    (hfresh : r.id ∉ log.map (·.id))
    (hts : s'.transactions = s.transactions ++ [r]) (he : s'.events = s.events) :
    StoresInvariant s' (log ++ [r]) := by
  have hse := AppState.storedEvents_congr s s' he
  refine ⟨?_, ?_, ?_, ?_, ?_⟩
  · intro k hk
    rw [hts, List.map_append, List.mem_append] at hk
    rw [List.map_append, List.mem_append]
    rcases hk with hk | hk
    · exact Or.inl (h.stored_created k hk)
    · exact Or.inr hk
  · rw [hts, List.map_append]
    refine List.Nodup.append h.stored_nodup (by simp) ?_
    intro k hk1 hk2
    have hk : k = r.id := by simpa using hk2
    exact hfresh (hk ▸ h.stored_created k hk1)
  · intro e hem k hk
    rw [hse] at hem
    obtain ⟨r', hr', hid, hrec⟩ := h.mirrored_created e hem k hk
    exact ⟨r', List.mem_append_left _ hr', hid, hrec⟩
  · intro k
    rw [hse]
    exact h.mirrored_once k
  · intro e hem fd hfd
    rw [hse] at hem
    exact h.finance_id e hem fd hfd

/-- The invariant after the mirrored event of a freshly created recurring record is
pushed. -/
theorem StoresInvariant.after_mirror {s : AppState} {log : List Transaction}
    (r : Transaction) (h : StoresInvariant s (log ++ [r])) (hrec : r.recurring = true)
    (hnone : ∀ e ∈ s.storedEvents, e.id ≠ financeEventId r.id) :
    StoresInvariant (addRecurringTransactionToCalendar s r) (log ++ [r]) := by
  have hts := addRecurringTransactionToCalendar_transactions s r
  cases hev : s.events with
  | none =>
    rw [addRecurringTransactionToCalendar_of_events_none s r hev]
    exact h
  | some events =>
    have hnew := AppState.storedEvents_of_events_some _ _
      (addRecurringTransactionToCalendar_events s r events hev)
    have hold := AppState.storedEvents_of_events_some s events hev
    have hmem : ∀ e ∈ (addRecurringTransactionToCalendar s r).storedEvents,
        e = calendarEvent r ∨ e ∈ s.storedEvents := by
      intro e he
      rw [hnew] at he
      rw [hold]
      exact pushCalendarEvent_mem events r e he
    refine ⟨?_, ?_, ?_, ?_, ?_⟩
    · rw [hts]; exact h.stored_created
    · rw [hts]; exact h.stored_nodup
    · intro e hem k hk
      rcases hmem e hem with h1 | h1
      · have hk2 : financeEventId r.id = financeEventId k := by
          rw [← hk, h1]; rfl
        exact ⟨r, by simp, financeEventId_injective _ _ hk2, hrec⟩
      · exact h.mirrored_created e h1 k hk
    · intro k
      rw [hnew, pushCalendarEvent_countP, ← hold]
      by_cases hk : k = r.id
      · have h0 : s.storedEvents.countP (fun e => decide (e.id = financeEventId k)) = 0 := by
          rw [List.countP_eq_zero]
          intro e he
          simpa [hk] using hnone e he
        rw [h0, Nat.zero_add]
        exact List.countP_le_length _
      · have h0 : [calendarEvent r].countP (fun e => decide (e.id = financeEventId k)) = 0 := by
          rw [List.countP_eq_zero]
          intro e he
          have he2 : e = calendarEvent r := by simpa using he
          have hne : financeEventId r.id ≠ financeEventId k :=
            fun heq => hk (financeEventId_injective _ _ heq).symm
          simpa [he2] using hne
        have := h.mirrored_once k
        omega
    · intro e hem fd hfd
      rcases hmem e hem with h1 | h1
      · rw [h1] at hfd ⊢
        have hfd2 : fd = { transactionId := r.id, type := r.type, amount := r.amount } := by
          simpa [calendarEvent] using hfd.symm
        rw [hfd2]
        rfl
      · exact h.finance_id e h1 fd hfd

/-- The invariant after `handleTransactionSubmit`, when the id of the record that the call
creates, if it creates one, is not among the ids created before. -/
theorem StoresInvariant.after_handleTransactionSubmit {s : AppState}
    {log : List Transaction} (h : StoresInvariant s log) (form : TransactionForm)
    (now : Nat) (nowIso : String)
    (hfresh : ((log ++ created s (.submit form now nowIso)).map (·.id)).Nodup) :
    StoresInvariant (handleTransactionSubmit s form now nowIso).1
      (log ++ created s (.submit form now nowIso)) := by
  by_cases hv : formInvalid form = true
  · have hres : (handleTransactionSubmit s form now nowIso).1 = s := by
      simp [handleTransactionSubmit, hv]
    rw [hres]
    exact h.mono _
  · have hv2 : formInvalid form = false := by simpa using hv
    cases hcur : s.currentTransaction with
    | some c =>
      have hcr : created s (.submit form now nowIso) = [] := by
        simp [created, hcur]
      rw [hcr]
      refine StoresInvariant.mono ?_ []
      unfold handleTransactionSubmit
      simp only [hv2, hcur]
      cases hfind : findIndex (fun t => decide (t.id = c.id)) s.transactions with
      | none => exact h
      | some i =>
        obtain ⟨x, hx, hpx⟩ := findIndex_some _ _ _ hfind
        have hxid : x.id = c.id := by simpa using hpx
        exact h.of_same (map_id_set s.transactions i x _ hx hxid.symm) rfl
    | none =>
      have hcr : created s (.submit form now nowIso)
          = [buildTransaction none form now nowIso] := by
        simp [created, hv2, hcur]
      rw [hcr] at hfresh ⊢
      have hnot : (buildTransaction none form now nowIso).id ∉ log.map (·.id) := by
        rw [List.map_append, List.nodup_append] at hfresh
        intro hmem
        exact hfresh.2.2 hmem (by simp)
      have h1 : ∀ current, StoresInvariant
          ({ calendar := s.calendar
             transactions := s.transactions ++ [buildTransaction none form now nowIso]
             currentTransaction := current } : AppState)
          (log ++ [buildTransaction none form now nowIso]) :=
        fun _ => h.after_append _ hnot rfl rfl
      unfold handleTransactionSubmit
      simp only [hv2, hcur]
      by_cases hr : form.recurring = true
      · simp only [hr]
        show StoresInvariant (addRecurringTransactionToCalendar
          { calendar := s.calendar
            transactions := s.transactions ++ [buildTransaction none form now nowIso]
            currentTransaction := none } (buildTransaction none form now nowIso)) _
        refine (h1 none).after_mirror _ hr ?_
        intro e he heid
        obtain ⟨r', hr', hid, _⟩ := h.mirrored_created e he _ heid
        exact hnot (hid ▸ List.mem_map_of_mem _ hr')
      · have hr2 : form.recurring = false := by simpa using hr
        simp only [hr2]
        exact h1 none

theorem StoresInvariant.after_step {s : AppState} {log : List Transaction}
    (h : StoresInvariant s log) (action : Action)
    (hfresh : ((log ++ created s action).map (·.id)).Nodup) :
    StoresInvariant (step s action) (log ++ created s action) := by
  cases action with
  | openModal index =>
    refine StoresInvariant.mono ?_ _
    cases index with
    | none =>
      show StoresInvariant (openTransactionModal s none) log
      exact h.of_same rfl rfl
    | some i =>
      show StoresInvariant (match s.transactions[i]? with
        | some transaction => openTransactionModal s (some transaction)
        | none => s) log
      cases s.transactions[i]? with
      | none => exact h
      | some t =>
        show StoresInvariant (openTransactionModal s (some t)) log
        exact h.of_same rfl rfl
  | closeModal =>
    refine StoresInvariant.mono ?_ _
    show StoresInvariant (closeTransactionModal s) log
    exact h.of_same rfl rfl
  | submit form now nowIso => exact h.after_handleTransactionSubmit form now nowIso hfresh
  | remove confirmed => exact (h.after_deleteTransaction confirmed).mono _
  | addEvent form now => exact (h.after_handleEventSubmit form now).mono _

theorem StoresInvariant.after_run {s : AppState} {log : List Transaction}
    (h : StoresInvariant s log) (actions : List Action)
    (hfresh : ((log ++ creations s actions).map (·.id)).Nodup) :
    StoresInvariant (run s actions) (log ++ creations s actions) := by
  induction actions generalizing s log with
  | nil => exact h.mono _
  | cons action rest ih =>
    have hassoc : log ++ creations s (action :: rest)
        = (log ++ created s action) ++ creations (step s action) rest := by
      simp [creations, List.append_assoc]
    rw [hassoc] at hfresh ⊢
    have hfirst : ((log ++ created s action).map (·.id)).Nodup := by
      rw [List.map_append] at hfresh
      exact (List.nodup_append.mp hfresh).1
    exact ih (h.after_step action hfirst) hfresh

theorem StoresInvariant.of_emptyStores {s : AppState} (h : emptyStores s) :
    StoresInvariant s [] := by
  obtain ⟨hts, _, hev⟩ := h
  have hse : s.storedEvents = [] := by
    rcases hev with hev | hev
    · exact AppState.storedEvents_of_events_none s hev
    · rw [AppState.storedEvents_of_events_some s [] hev]
      rfl
  refine ⟨?_, ?_, ?_, ?_, ?_⟩
  · simp [hts]
  · simp [hts]
  · simp [hse]
  · simp [hse]
  · simp [hse]

/-- Every state reached from empty stores, the ids assigned at creation being pairwise
distinct, satisfies the invariant relative to the records created on the way. -/
theorem StoresInvariant.of_run {s : AppState} (actions : List Action)
    (hinit : emptyStores s) (hfresh : ((creations s actions).map (·.id)).Nodup) :
    StoresInvariant (run s actions) (creations s actions) := by
  have h := (StoresInvariant.of_emptyStores hinit).after_run actions (by simpa using hfresh)
  simpa using h

theorem findIndex_of_mem {α : Type} (p : α → Bool) (l : List α)
    (h : ∃ x ∈ l, p x = true) : ∃ i, findIndex p l = some i := by
  cases hfind : findIndex p l with
  | some i => exact ⟨i, rfl⟩
  | none =>
    exfalso
    obtain ⟨x, hx, hpx⟩ := h
    induction l with
    | nil => simp at hx
    | cons y ys ih =>
      by_cases hy : p y = true
      · simp [findIndex, hy] at hfind
      · have hys : findIndex p ys = none := by
          cases hrest : findIndex p ys with
          | none => rfl
          | some k => simp [findIndex, hy, hrest] at hfind
        rcases List.mem_cons.mp hx with h1 | h1
        · exact hy (h1 ▸ hpx)
        · exact ih hys h1

/-! ## Invariants of the stores -/

/-- When the deletion does remove the mirrored event: in a state reached from empty stores
with pairwise distinct creation ids, a confirmed deletion through a form record `c` whose
id is stored, whose recurring flag is set and under whose date the mirrored event lies
succeeds and leaves no event with the id "finance_" followed by that id, under any date.
The flag and the date are those of the form record, which is what the code reads. -/
theorem deleteTransaction_removes_event_under_form_date (s : AppState) (actions : List Action)
    (c : Transaction) (events : EventMap) (list : List CalendarEvent) (e : CalendarEvent)
    (hinit : emptyStores s) (hfresh : ((creations s actions).map (·.id)).Nodup)
    (hcur : (run s actions).currentTransaction = some c)
    (hstored : ∃ t ∈ (run s actions).transactions, t.id = c.id)
    (hrec : c.recurring = true)
    (hev : (run s actions).events = some events)
    (hlist : events.get? c.date = some list) (he : e ∈ list)
    (hid : e.id = financeEventId c.id) :
    (deleteTransaction (run s actions) true).2 = .deleted
    ∧ (∀ e' ∈ (deleteTransaction (run s actions) true).1.storedEvents,
        e'.id ≠ financeEventId c.id)
    ∧ ∀ events', (deleteTransaction (run s actions) true).1.events = some events' →
        ∀ key list', events'.get? key = some list' →
          ∀ e' ∈ list', e'.id ≠ financeEventId c.id := by
  have hinv := StoresInvariant.of_run actions hinit hfresh
  obtain ⟨i, hfind⟩ := findIndex_of_mem (fun t => decide (t.id = c.id))
    (run s actions).transactions
    (by obtain ⟨t, ht, htid⟩ := hstored; exact ⟨t, ht, by simpa using htid⟩)
  have hres : deleteTransaction (run s actions) true
      = (closeTransactionModal (removeTransactionFromCalendar
          { run s actions with
            transactions := (run s actions).transactions.eraseIdx i } c), .deleted) := by
    unfold deleteTransaction
    simp [hcur, hfind, hrec]
  have hevents : (deleteTransaction (run s actions) true).1.events
      = some (filterCalendarEvents events c) := by
    rw [hres]
    exact removeTransactionFromCalendar_events _ c events hev
  have hstoredEvents : (deleteTransaction (run s actions) true).1.storedEvents
      = (filterCalendarEvents events c).allEvents :=
    AppState.storedEvents_of_events_some _ _ hevents
  have hcount := filterCalendarEvents_countP
    (fun e' => decide (e'.id = financeEventId c.id)) events c
  have hone := hinv.mirrored_once c.id
  rw [AppState.storedEvents_of_events_some _ events hev] at hone
  have hzero : (((events.get? c.date).getD []).filter
      (fun e' => decide (e'.id ≠ financeEventId c.id))).countP
      (fun e' => decide (e'.id = financeEventId c.id)) = 0 := by
    rw [List.countP_eq_zero]
    intro e' he'
    simpa using (List.mem_filter.mp he').2
  have hpos : 0 < ((events.get? c.date).getD []).countP
      (fun e' => decide (e'.id = financeEventId c.id)) := by
    rw [hlist]
    exact List.countP_pos_iff.mpr ⟨e, he, by simpa using hid⟩
  have hnone : (filterCalendarEvents events c).allEvents.countP
      (fun e' => decide (e'.id = financeEventId c.id)) = 0 := by omega
  have hall : ∀ e' ∈ (deleteTransaction (run s actions) true).1.storedEvents,
      e'.id ≠ financeEventId c.id := by
    intro e' he'
    rw [hstoredEvents] at he'
    simpa using (List.countP_eq_zero.mp hnone) e' he'
  refine ⟨by rw [hres], hall, ?_⟩
  intro events' hev' key list' hget e' he'
  have hse := AppState.storedEvents_of_events_some _ events' hev'
  exact hall e' (hse ▸ EventMap.mem_allEvents_of_get? _ _ _ _ hget he')

/-- C12: a deletion that leaves the mirrored event behind. From empty stores the recurring
transaction 123 is created on 2024-03-01 and mirrored there, an edit moves its date to
2024-04-01, the form is closed and opened again on the record, and the deletion is
confirmed. Before the deletion the stored record 123 is recurring and the event
"finance_123" is in the store; the deletion succeeds, the transaction list is empty, and
the event "finance_123" is still in the store, under 2024-03-01: the event is looked for
only under the date that the record has at the time of the deletion. -/
theorem deleteTransaction_after_move_keeps_event :
    emptyStores emptyState
    ∧ ((creations emptyState moveActions).map (·.id)).Nodup
    ∧ (∃ t ∈ (run emptyState moveActions).transactions, t.id = 123 ∧ t.recurring = true)
    ∧ (∃ e ∈ (run emptyState moveActions).storedEvents, e.id = financeEventId 123)
    ∧ (deleteTransaction (run emptyState moveActions) true).2 = .deleted
    ∧ (deleteTransaction (run emptyState moveActions) true).1.transactions = []
    ∧ (∃ e ∈ (deleteTransaction (run emptyState moveActions) true).1.storedEvents,
        e.id = financeEventId 123)
    ∧ (deleteTransaction (run emptyState moveActions) true).1.events
        = some [("2024-03-01", [calendarEvent salaryTransaction])] := by
  refine ⟨⟨rfl, rfl, Or.inr rfl⟩, by decide, by decide, by decide, by decide, by decide,
    by decide, by decide⟩

/-- C13, as amended: in a state reached from empty stores by creations, edits, deletions
and plain event additions with pairwise distinct creation ids, a stored transaction that
was created with the recurring flag off has no event with the id "finance_" followed by
its id, anywhere in the event store, whatever edits have done to the flag since. -/
theorem run_unmirrored_when_created_plain (s : AppState) (actions : List Action)
    (t : Transaction)
    (hinit : emptyStores s) (hfresh : ((creations s actions).map (·.id)).Nodup)
    (ht : t ∈ (run s actions).transactions)
    (hplain : ∀ r ∈ creations s actions, r.id = t.id → r.recurring = false) :
    (∃ r ∈ creations s actions, r.id = t.id)
    ∧ (∀ e ∈ (run s actions).storedEvents, e.id ≠ financeEventId t.id)
    ∧ ∀ events, (run s actions).events = some events →
        ∀ key list, events.get? key = some list →
          ∀ e ∈ list, e.id ≠ financeEventId t.id := by
  have hinv := StoresInvariant.of_run actions hinit hfresh
  have hcreated : ∃ r ∈ creations s actions, r.id = t.id := by
    have hmem := hinv.stored_created t.id (List.mem_map_of_mem _ ht)
    obtain ⟨r, hr, hrid⟩ := List.mem_map.mp hmem
    exact ⟨r, hr, hrid⟩
  have hall : ∀ e ∈ (run s actions).storedEvents, e.id ≠ financeEventId t.id := by
    intro e he heid
    obtain ⟨r', hr', hid', hrec'⟩ := hinv.mirrored_created e he t.id heid
    rw [hplain r' hr' hid'] at hrec'
    exact Bool.false_ne_true hrec'
  refine ⟨hcreated, hall, ?_⟩
  intro events hev key list hget e he
  have hse := AppState.storedEvents_of_events_some _ events hev
  exact hall e (hse ▸ EventMap.mem_allEvents_of_get? _ _ _ _ hget he)

theorem run_unmirrored_when_created_plain_witness :
    (emptyStores emptyState ∧ ((creations emptyState busyActions).map (·.id)).Nodup
      ∧ buildTransaction none plainSalaryForm 125 "2024-03-01T09:00:02.000Z"
          ∈ (run emptyState busyActions).transactions
      ∧ ∀ r ∈ creations emptyState busyActions, r.id = 125 → r.recurring = false)
    ∧ (∃ r ∈ creations emptyState busyActions, r.id = 125)
    ∧ (∀ e ∈ (run emptyState busyActions).storedEvents, e.id ≠ financeEventId 125)
    ∧ ∀ events, (run emptyState busyActions).events = some events →
        ∀ key list, events.get? key = some list →
          ∀ e ∈ list, e.id ≠ financeEventId 125 :=
  ⟨⟨⟨rfl, rfl, Or.inr rfl⟩, by decide, by decide, by decide⟩,
   run_unmirrored_when_created_plain emptyState busyActions
     (buildTransaction none plainSalaryForm 125 "2024-03-01T09:00:02.000Z")
     ⟨rfl, rfl, Or.inr rfl⟩ (by decide) (by decide) (by decide)⟩

/-- The claim C13 fails after an edit that clears the flag: the recurring transaction 123
is created and mirrored, an edit clears its recurring flag, and the stored record, whose
flag is now off, still has the event "finance_123" in the store. -/
theorem run_clearFlag_keeps_event :
    emptyStores emptyState
    ∧ ((creations emptyState clearFlagActions).map (·.id)).Nodup
    ∧ ∃ t ∈ (run emptyState clearFlagActions).transactions,
        t.recurring = false
        ∧ ∃ e ∈ (run emptyState clearFlagActions).storedEvents, e.id = financeEventId t.id := by
  refine ⟨⟨rfl, rfl, Or.inr rfl⟩, by decide, ?_⟩
  decide

/-- C14: in a state reached from empty stores by creations, edits, deletions and plain
event additions, the ids assigned at creation being pairwise distinct, at most one event
of the whole store has the id "finance_" followed by a given transaction id, and an event
that carries financeData has the id "finance_" followed by its transactionId. -/
theorem run_mirrored_events_unique (s : AppState) (actions : List Action)
    (hinit : emptyStores s) (hfresh : ((creations s actions).map (·.id)).Nodup) :
    (∀ k, (run s actions).storedEvents.countP
        (fun e => decide (e.id = financeEventId k)) ≤ 1)
    ∧ ∀ e ∈ (run s actions).storedEvents, ∀ fd, e.financeData = some fd →
        e.id = financeEventId fd.transactionId := by
  have hinv := StoresInvariant.of_run actions hinit hfresh
  exact ⟨hinv.mirrored_once, hinv.finance_id⟩

theorem run_mirrored_events_unique_witness :
    (emptyStores emptyState ∧ ((creations emptyState busyActions).map (·.id)).Nodup)
    ∧ (∀ k, (run emptyState busyActions).storedEvents.countP
        (fun e => decide (e.id = financeEventId k)) ≤ 1)
    ∧ ∀ e ∈ (run emptyState busyActions).storedEvents, ∀ fd, e.financeData = some fd →
        e.id = financeEventId fd.transactionId :=
  ⟨⟨⟨rfl, rfl, Or.inr rfl⟩, by decide⟩,
   run_mirrored_events_unique emptyState busyActions ⟨rfl, rfl, Or.inr rfl⟩ (by decide)⟩

/-- C15, as amended: in a state reached from an empty transaction list by creations, edits
and deletions, no two stored transactions have the same id, provided that the clock values
taken as ids at the creations are pairwise distinct. -/
theorem run_ids_nodup (s : AppState) (actions : List Action)
    (hinit : emptyStores s) (hfresh : ((creations s actions).map (·.id)).Nodup) :
    ((run s actions).transactions.map (·.id)).Nodup :=
  (StoresInvariant.of_run actions hinit hfresh).stored_nodup

theorem run_ids_nodup_witness :
    (emptyStores emptyState ∧ ((creations emptyState busyActions).map (·.id)).Nodup)
    ∧ ((run emptyState busyActions).transactions.map (·.id)).Nodup :=
  ⟨⟨⟨rfl, rfl, Or.inr rfl⟩, by decide⟩,
   run_ids_nodup emptyState busyActions ⟨rfl, rfl, Or.inr rfl⟩ (by decide)⟩

/-- The claim C15 fails when two creations read the same clock value: both records are
stored with the id 123. -/
theorem run_sameTick_duplicate_ids :
    emptyStores emptyState
    ∧ (run emptyState sameTickActions).transactions.map (·.id) = [123, 123]
    ∧ ¬ ((run emptyState sameTickActions).transactions.map (·.id)).Nodup := by
  refine ⟨⟨rfl, rfl, Or.inr rfl⟩, by decide, by decide⟩

/-! ## The stages of the transaction view -/

theorem filterThrowing_of_total {α : Type} (callback : α → Option Bool) (l : List α)
    (h : ∀ x ∈ l, ∃ b, callback x = some b) :
    filterThrowing callback l = some (l.filter (fun x => decide (callback x = some true))) := by
  induction l with
  | nil => rfl
  | cons x xs ih =>
    obtain ⟨b, hb⟩ := h x (List.mem_cons_self x xs)
    have hxs := ih (fun y hy => h y (List.mem_cons_of_mem x hy))
    cases b <;> simp [filterThrowing, hb, hxs]

theorem dateStage_eq_filter (today : Today) (dateFilter : String) (ts : List Transaction) :
    dateStage today dateFilter ts
      = ts.filter (fun t => decide (dateFilter = "all") || dateFilterKeeps today dateFilter t) := by
  unfold dateStage
  by_cases h : dateFilter = "all"
  · simp [h]
  · simp [h]

theorem categoryStage_eq_filter (categoryFilter : String) (ts : List Transaction) :
    categoryStage categoryFilter ts
      = ts.filter (fun t => decide (categoryFilter = "all")
          || (if categoryFilter = "income" then decide (t.type = "income")
              else if categoryFilter = "expense" then decide (t.type = "expense")
              else decide (t.category = categoryFilter))) := by
  unfold categoryStage
  by_cases h : categoryFilter = "all"
  · simp [h]
  · by_cases h1 : categoryFilter = "income"
    · simp [h, h1]
    · by_cases h2 : categoryFilter = "expense"
      · simp [h, h1, h2]
      · simp [h, h1, h2]

theorem searchStage_eq_filter (searchText : String) (ts : List Transaction)
    (h : searchText = "" ∨ ∀ t ∈ ts, ∃ d, t.description = some d) :
    searchStage searchText ts
      = some (ts.filter (fun t => decide (searchText = "")
          || decide (searchKeeps searchText t = some true))) := by
  unfold searchStage
  by_cases hs : searchText = ""
  · simp [hs]
  · have hd : ∀ t ∈ ts, ∃ d, t.description = some d := h.resolve_left hs
    have htotal : ∀ t ∈ ts, ∃ b, searchKeeps searchText t = some b := by
      intro t ht
      obtain ⟨d, hd⟩ := hd t ht
      simp [searchKeeps, hd]
    simp [hs, filterThrowing_of_total _ _ htotal]

/-- The three stages in a row keep the transactions that pass the three filters, in the
order of the stored list. -/
theorem stages_eq_filter (today : Today) (filters : Filters) (ts : List Transaction)
    (h : toLowerCase filters.searchText = "" ∨ ∀ t ∈ ts, ∃ d, t.description = some d) :
    searchStage (toLowerCase filters.searchText)
        (categoryStage filters.categoryFilter (dateStage today filters.dateFilter ts))
      = some (ts.filter (passesFilters today filters)) := by
  rw [dateStage_eq_filter, categoryStage_eq_filter, searchStage_eq_filter]
  · simp only [List.filter_filter]
    congr 1
    apply List.filter_congr
    intro t _
    simp only [passesFilters, Bool.and_comm, Bool.and_assoc, Bool.and_left_comm]
  · rcases h with h | h
    · exact Or.inl h
    · refine Or.inr (fun t ht => h t ?_)
      exact List.mem_of_mem_filter (List.mem_of_mem_filter ht)

/-! ## Sorting by date -/

theorem staysBefore_compareByDate (a b : Transaction) (x y : Int)
    (ha : dateValue a.date = some x) (hb : dateValue b.date = some y) :
    staysBefore compareByDate a b = true ↔ y ≤ x := by
  simp [staysBefore, compareByDate, ha, hb]

theorem orderedInsert_newestFirst (a : Transaction) (l : List Transaction)
    (hvalid : ∀ t ∈ a :: l, ∃ v, dateValue t.date = some v)
    (hsorted : l.Pairwise (fun p q => ∀ x y, dateValue p.date = some x →
      dateValue q.date = some y → y ≤ x)) :
    (l.orderedInsert (fun p q => staysBefore compareByDate p q = true) a).Pairwise
      (fun p q => ∀ x y, dateValue p.date = some x → dateValue q.date = some y → y ≤ x) := by
  induction l with
  | nil => simp
  | cons b rest ih =>
    obtain ⟨va, hva⟩ := hvalid a (List.mem_cons_self _ _)
    obtain ⟨vb, hvb⟩ := hvalid b (List.mem_cons_of_mem _ (List.mem_cons_self _ _))
    have hrest := List.pairwise_cons.mp hsorted
    by_cases hab : staysBefore compareByDate a b = true
    · rw [List.orderedInsert, if_pos hab]
      have hle : vb ≤ va := (staysBefore_compareByDate a b va vb hva hvb).mp hab
      refine List.pairwise_cons.mpr ⟨?_, hsorted⟩
      intro q hq x y hx hy
      rw [hva] at hx
      have hxa : va = x := by simpa using hx
      rcases List.mem_cons.mp hq with h1 | h1
      · rw [h1, hvb] at hy
        have : vb = y := by simpa using hy
        omega
      · have := hrest.1 q h1 vb y hvb hy
        omega
    · rw [List.orderedInsert, if_neg hab]
      have hlt : va < vb := by
        have := (staysBefore_compareByDate a b va vb hva hvb).not.mp hab
        omega
      have hvalid' : ∀ t ∈ a :: rest, ∃ v, dateValue t.date = some v := by
        intro t ht
        rcases List.mem_cons.mp ht with h1 | h1
        · exact h1 ▸ ⟨va, hva⟩
        · exact hvalid t (List.mem_cons_of_mem _ (List.mem_cons_of_mem _ h1))
      refine List.pairwise_cons.mpr ⟨?_, ih hvalid' hrest.2⟩
      intro q hq x y hx hy
      rw [hvb] at hx
      have hxb : vb = x := by simpa using hx
      rcases (List.mem_orderedInsert _).mp hq with h1 | h1
      · rw [h1, hva] at hy
        have : va = y := by simpa using hy
        omega
      · have := hrest.1 q h1 vb y hvb hy
        omega

theorem arraySort_newestFirst (l : List Transaction)
    (hvalid : ∀ t ∈ l, ∃ v, dateValue t.date = some v) :
    (arraySort compareByDate l).Pairwise
      (fun p q => ∀ x y, dateValue p.date = some x → dateValue q.date = some y → y ≤ x) := by
  induction l with
  | nil => simp [arraySort]
  | cons a rest ih =>
    have hrest : ∀ t ∈ rest, ∃ v, dateValue t.date = some v :=
      fun t ht => hvalid t (List.mem_cons_of_mem _ ht)
    have hperm : (arraySort compareByDate rest).Perm rest := List.perm_insertionSort _ rest
    unfold arraySort
    rw [List.insertionSort]
    refine orderedInsert_newestFirst a _ ?_ (ih hrest)
    intro t ht
    rcases List.mem_cons.mp ht with h1 | h1
    · exact hvalid t (h1 ▸ List.mem_cons_self _ _)
    · exact hrest t (hperm.subset h1)

theorem orderedInsert_filter_date (a : Transaction) (l : List Transaction) (v : Int)
    (hvalid : ∀ t ∈ a :: l, ∃ w, dateValue t.date = some w) :
    (l.orderedInsert (fun p q => staysBefore compareByDate p q = true) a).filter
        (fun t => decide (dateValue t.date = some v))
      = (a :: l).filter (fun t => decide (dateValue t.date = some v)) := by
  induction l with
  | nil => simp
  | cons b rest ih =>
    obtain ⟨va, hva⟩ := hvalid a (List.mem_cons_self _ _)
    obtain ⟨vb, hvb⟩ := hvalid b (List.mem_cons_of_mem _ (List.mem_cons_self _ _))
    by_cases hab : staysBefore compareByDate a b = true
    · rw [List.orderedInsert, if_pos hab]
    · rw [List.orderedInsert, if_neg hab]
      have hlt : va < vb := by
        have := (staysBefore_compareByDate a b va vb hva hvb).not.mp hab
        omega
      have hvalid' : ∀ t ∈ a :: rest, ∃ w, dateValue t.date = some w := by
        intro t ht
        rcases List.mem_cons.mp ht with h1 | h1
        · exact h1 ▸ ⟨va, hva⟩
        · exact hvalid t (List.mem_cons_of_mem _ (List.mem_cons_of_mem _ h1))
      have hih := ih hvalid'
      by_cases hbv : vb = v
      · have hav : va ≠ v := by omega
        simp only [List.filter_cons, hva, hvb, hbv, hav, hih] 
        simp [hav]
      · simp only [List.filter_cons, hva, hvb, hih]
        simp [hbv]

theorem arraySort_filter_date (l : List Transaction) (v : Int)
    (hvalid : ∀ t ∈ l, ∃ w, dateValue t.date = some w) :
    (arraySort compareByDate l).filter (fun t => decide (dateValue t.date = some v))
      = l.filter (fun t => decide (dateValue t.date = some v)) := by
  induction l with
  | nil => simp [arraySort]
  | cons a rest ih =>
    have hrest : ∀ t ∈ rest, ∃ w, dateValue t.date = some w :=
      fun t ht => hvalid t (List.mem_cons_of_mem _ ht)
    have hperm : (arraySort compareByDate rest).Perm rest := List.perm_insertionSort _ rest
    have hins := orderedInsert_filter_date a (arraySort compareByDate rest) v (by
      intro t ht
      rcases List.mem_cons.mp ht with h1 | h1
      · exact hvalid t (h1 ▸ List.mem_cons_self _ _)
      · exact hrest t (hperm.subset h1))
    have hunfold : arraySort compareByDate (a :: rest)
        = (arraySort compareByDate rest).orderedInsert
            (fun p q => staysBefore compareByDate p q = true) a := rfl
    rw [hunfold, hins, List.filter_cons, List.filter_cons, ih hrest]

/-! ## The transaction view -/

/-- The view when the search stage does not fail: the transactions that pass the filters,
sorted. -/
theorem renderTransactions_eq (today : Today) (filters : Filters) (ts : List Transaction)
    (hdesc : toLowerCase filters.searchText = "" ∨ ∀ t ∈ ts, ∃ d, t.description = some d) :
    renderTransactions today filters ts
      = some (arraySort compareByDate (ts.filter (passesFilters today filters))) := by
  unfold renderTransactions
  simp only [stages_eq_filter today filters ts hdesc]

/-- C17: for a transaction list with valid dates (and, when a search text is given,
descriptions), `renderTransactions` shows a permutation of the transactions that pass the
filters, ordered by date from the newest to the oldest; the transactions of one date are
shown in the order they have in the stored list. -/
theorem renderTransactions_sorted (today : Today) (filters : Filters)
    (ts : List Transaction)
    (hvalid : ∀ t ∈ ts, (dateValue t.date).isSome = true)
    (hdesc : toLowerCase filters.searchText = "" ∨ ∀ t ∈ ts, t.description.isSome = true) :
    ∃ rendered,
      renderTransactions today filters ts = some rendered
      ∧ rendered.Perm (ts.filter (passesFilters today filters))
      ∧ rendered.Pairwise (fun p q => ∀ x y, dateValue p.date = some x →
          dateValue q.date = some y → y ≤ x)
      ∧ ∀ v, rendered.filter (fun t => decide (dateValue t.date = some v))
          = (ts.filter (passesFilters today filters)).filter
              (fun t => decide (dateValue t.date = some v)) := by
  have hpass : ∀ t ∈ ts.filter (passesFilters today filters),
      ∃ v, dateValue t.date = some v :=
    fun t ht => Option.isSome_iff_exists.mp (hvalid t (List.mem_of_mem_filter ht))
  have hdesc2 : toLowerCase filters.searchText = ""
      ∨ ∀ t ∈ ts, ∃ d, t.description = some d :=
    hdesc.imp id (fun h t ht => Option.isSome_iff_exists.mp (h t ht))
  exact ⟨_, renderTransactions_eq today filters ts hdesc2, List.perm_insertionSort _ _,
    arraySort_newestFirst _ hpass, fun v => arraySort_filter_date _ v hpass⟩

theorem renderTransactions_sorted_witness :
    ((∀ t ∈ viewTransactions, (dateValue t.date).isSome = true)
      ∧ (toLowerCase "$1,0" = "" ∨ ∀ t ∈ viewTransactions, t.description.isSome = true))
    ∧ (∃ rendered,
      renderTransactions march15 ⟨"week", "income", "$1,0"⟩ viewTransactions = some rendered
      ∧ rendered.Perm (viewTransactions.filter
          (passesFilters march15 ⟨"week", "income", "$1,0"⟩))
      ∧ rendered.Pairwise (fun p q => ∀ x y, dateValue p.date = some x →
          dateValue q.date = some y → y ≤ x)
      ∧ ∀ v, rendered.filter (fun t => decide (dateValue t.date = some v))
          = (viewTransactions.filter (passesFilters march15 ⟨"week", "income", "$1,0"⟩)).filter
              (fun t => decide (dateValue t.date = some v)))
    ∧ renderTransactions march15 ⟨"week", "income", "$1,0"⟩ viewTransactions
        = some [laterTransaction, todayTransaction, secondTodayTransaction] :=
  ⟨⟨by decide, Or.inr (by decide)⟩,
   renderTransactions_sorted march15 ⟨"week", "income", "$1,0"⟩ viewTransactions
     (by decide) (Or.inr (by decide)), by decide⟩

/-! ## The date filter -/

theorem daysFromCivil_day (year month day : Int) :
    daysFromCivil year month day = daysFromCivil year month 1 + (day - 1) := by
  simp only [daysFromCivil]
  omega

theorem makeDay_eq (year monthIndex day : Int)
    (hmonth : 0 ≤ monthIndex ∧ monthIndex ≤ 11) (hyear : 100 ≤ year) :
    makeDay year monthIndex day = daysFromCivil year (monthIndex + 1) day := by
  have h1 : monthIndex / 12 = 0 := by omega
  have h2 : monthIndex % 12 = monthIndex := by omega
  have h3 : ¬ (0 ≤ year ∧ year ≤ 99) := by omega
  rw [daysFromCivil_day year (monthIndex + 1) day]
  simp [makeDay, h1, h2, h3]

theorem timeGe_localMidnight (today : Today) (dateString : String) (dayNumber : Int) :
    timeGe (dateValue dateString) (localMidnight today dayNumber) = true
      ↔ ∃ n, dayNumberOf dateString = some n
          ∧ dayNumber * 86400000 - today.utcOffsetMinutes * 60000 ≤ n * 86400000 := by
  unfold dateValue localMidnight
  cases h : dayNumberOf dateString with
  | none => simp [timeGe]
  | some n => simp [timeGe, msPerDay]

theorem timeGe_localMidnight_east (today : Today) (dateString : String) (dayNumber : Int)
    (heast : 0 ≤ today.utcOffsetMinutes ∧ today.utcOffsetMinutes < 1440) :
    timeGe (dateValue dateString) (localMidnight today dayNumber) = true
      ↔ ∃ n, dayNumberOf dateString = some n ∧ dayNumber ≤ n := by
  rw [timeGe_localMidnight]
  constructor
  · rintro ⟨n, hn, hle⟩
    exact ⟨n, hn, by omega⟩
  · rintro ⟨n, hn, hle⟩
    exact ⟨n, hn, by omega⟩

theorem dateFilterKeeps_values (today : Today) (t : Transaction) :
    dateFilterKeeps today "today" t = timeGe (dateValue t.date) (startOfDay today)
    ∧ dateFilterKeeps today "week" t = timeGe (dateValue t.date) (startOfWeek today)
    ∧ dateFilterKeeps today "month" t = timeGe (dateValue t.date) (startOfMonth today)
    ∧ dateFilterKeeps today "year" t = timeGe (dateValue t.date) (startOfYear today) := by
  have h1 : ("week" : String) ≠ "today" := by decide
  have h2 : ("month" : String) ≠ "today" := by decide
  have h3 : ("month" : String) ≠ "week" := by decide
  have h4 : ("year" : String) ≠ "today" := by decide
  have h5 : ("year" : String) ≠ "week" := by decide
  have h6 : ("year" : String) ≠ "month" := by decide
  refine ⟨?_, ?_, ?_, ?_⟩
  · simp [dateFilterKeeps]
  · simp [dateFilterKeeps, h1]
  · simp [dateFilterKeeps, h2, h3]
  · simp [dateFilterKeeps, h4, h5, h6]

/-- The thresholds of the date filter. A transaction is kept exactly when the time value of
`new Date(date)`, midnight UTC of its day, is at or after the start of the local day of
today for "today", of the most recent Sunday (today when today is a Sunday) for "week", of
the first day of the current month for "month" and of 1 January of the current year for
"year", without upper bound; the value "all" excludes no transaction. At or east of
Greenwich this is the same as the day of the transaction being the threshold day or a
later day. -/
theorem dateStage_thresholds (today : Today) (ts : List Transaction)
    (hmonth : 0 ≤ today.month ∧ today.month ≤ 11) (hyear : 100 ≤ today.fullYear) :
    dateStage today "today" ts
      = ts.filter (fun t => timeGe (dateValue t.date) (localMidnight today
          (daysFromCivil today.fullYear (today.month + 1) today.date)))
    ∧ dateStage today "week" ts
      = ts.filter (fun t => timeGe (dateValue t.date) (localMidnight today
          (daysFromCivil today.fullYear (today.month + 1) today.date - today.getDay)))
    ∧ (0 ≤ today.getDay ∧ today.getDay ≤ 6
        ∧ today.getDay
          = (daysFromCivil today.fullYear (today.month + 1) today.date + 4) % 7
        ∧ (daysFromCivil today.fullYear (today.month + 1) today.date - today.getDay + 4) % 7
          = 0)
    ∧ dateStage today "month" ts
      = ts.filter (fun t => timeGe (dateValue t.date) (localMidnight today
          (daysFromCivil today.fullYear (today.month + 1) 1)))
    ∧ dateStage today "year" ts
      = ts.filter (fun t => timeGe (dateValue t.date) (localMidnight today
          (daysFromCivil today.fullYear 1 1)))
    ∧ dateStage today "all" ts = ts
    ∧ (∀ (t : Transaction) (dayNumber : Int),
        timeGe (dateValue t.date) (localMidnight today dayNumber) = true
          ↔ ∃ n, dayNumberOf t.date = some n
              ∧ dayNumber * 86400000 - today.utcOffsetMinutes * 60000 ≤ n * 86400000)
    ∧ (0 ≤ today.utcOffsetMinutes ∧ today.utcOffsetMinutes < 1440 →
        ∀ (t : Transaction) (dayNumber : Int),
          timeGe (dateValue t.date) (localMidnight today dayNumber) = true
            ↔ ∃ n, dayNumberOf t.date = some n ∧ dayNumber ≤ n) := by
  have hday : today.dayNumber
      = daysFromCivil today.fullYear (today.month + 1) today.date :=
    makeDay_eq _ _ _ hmonth hyear
  have hweek : makeDay today.fullYear today.month (today.date - today.getDay)
      = daysFromCivil today.fullYear (today.month + 1) today.date - today.getDay := by
    rw [makeDay_eq _ _ _ hmonth hyear, daysFromCivil_day,
      daysFromCivil_day today.fullYear (today.month + 1) today.date]
    omega
  have hget : today.getDay
      = (daysFromCivil today.fullYear (today.month + 1) today.date + 4) % 7 := by
    unfold Today.getDay
    rw [hday]
  have hne1 : ("today" : String) ≠ "all" := by decide
  have hne2 : ("week" : String) ≠ "all" := by decide
  have hne3 : ("month" : String) ≠ "all" := by decide
  have hne4 : ("year" : String) ≠ "all" := by decide
  refine ⟨?_, ?_, ⟨?_, ?_, hget, ?_⟩, ?_, ?_, ?_, ?_, ?_⟩
  · simp only [dateStage, hne1, ne_eq, not_false_eq_true, if_true]
    apply List.filter_congr
    intro t _
    rw [(dateFilterKeeps_values today t).1, startOfDay, makeDay_eq _ _ _ hmonth hyear]
  · simp only [dateStage, hne2, ne_eq, not_false_eq_true, if_true]
    apply List.filter_congr
    intro t _
    rw [(dateFilterKeeps_values today t).2.1, startOfWeek, hweek]
  · rw [hget]; omega
  · rw [hget]; omega
  · rw [hget]; omega
  · simp only [dateStage, hne3, ne_eq, not_false_eq_true, if_true]
    apply List.filter_congr
    intro t _
    rw [(dateFilterKeeps_values today t).2.2.1, startOfMonth, makeDay_eq _ _ _ hmonth hyear]
  · have h0 : makeDay today.fullYear 0 1 = daysFromCivil today.fullYear 1 1 := by
      simpa using makeDay_eq today.fullYear 0 1 (by omega) hyear
    simp only [dateStage, hne4, ne_eq, not_false_eq_true, if_true]
    apply List.filter_congr
    intro t _
    rw [(dateFilterKeeps_values today t).2.2.2, startOfYear, h0]
  · simp [dateStage]
  · exact fun t dayNumber => timeGe_localMidnight today t.date dayNumber
  · exact fun heast t dayNumber => timeGe_localMidnight_east today t.date dayNumber heast

/-- C18: west of Greenwich the date filter starts each range one day late. With local time
five hours behind UTC on 15 March 2024, a transaction dated 2024-03-15 is read as midnight
UTC, which is before the start of the local day, and the filter "today" drops it; at UTC
the same transaction is kept. The filters "week", "month" and "year" drop in the same way
a transaction dated on their first day (Sunday 10 March, 1 March, 1 January). -/
theorem dateStage_west_drops_first_day :
    dayNumberOf todayTransaction.date = some march15West.dayNumber
    ∧ dateStage march15West "today" [todayTransaction] = []
    ∧ dateStage march15 "today" [todayTransaction] = [todayTransaction]
    ∧ dateStage march15West "week"
        [{ todayTransaction with date := "2024-03-10" }] = []
    ∧ dateStage march15West "month"
        [{ todayTransaction with date := "2024-03-01" }] = []
    ∧ dateStage march15West "year"
        [{ todayTransaction with date := "2024-01-01" }] = [] := by
  decide

/-- The view "today" without category filter and search text: what `renderTransactions`
shows is the stage "today" of the date filter, sorted. -/
theorem renderTransactions_today (today : Today) (ts : List Transaction) :
    renderTransactions today ⟨"today", "all", ""⟩ ts
      = some (arraySort compareByDate
          (ts.filter (fun t => timeGe (dateValue t.date) (localMidnight today today.dayNumber)))) := by
  rw [renderTransactions_eq today _ ts (Or.inl (by decide))]
  congr 2
  apply List.filter_congr
  intro t _
  have h1 : ("today" : String) ≠ "all" := by decide
  have h2 : toLowerCase "" = "" := by decide
  simp [passesFilters, h1, h2, (dateFilterKeeps_values today t).1, startOfDay, Today.dayNumber]

/-- C19, as amended: the view with date filter "today", category filter "all" and empty
search text holds only stored transactions whose date is the current local calendar day
or a later day, and it holds every stored transaction dated after today: the range has no
upper bound. -/
theorem renderTransactions_today_from_today_on (today : Today) (ts : List Transaction)
    (hzone : -1440 < today.utcOffsetMinutes ∧ today.utcOffsetMinutes < 1440) :
    ∃ view,
      renderTransactions today ⟨"today", "all", ""⟩ ts = some view
      ∧ (∀ t ∈ view, t ∈ ts ∧ ∃ n, dayNumberOf t.date = some n ∧ today.dayNumber ≤ n)
      ∧ ∀ t ∈ ts, ∀ n, dayNumberOf t.date = some n → today.dayNumber < n → t ∈ view := by
  refine ⟨_, renderTransactions_today today ts, ?_, ?_⟩
  · intro t ht
    have hmem := (List.perm_insertionSort _ _).subset ht
    have hkeep := (List.mem_filter.mp hmem).2
    obtain ⟨n, hn, hle⟩ := (timeGe_localMidnight today t.date today.dayNumber).mp hkeep
    exact ⟨(List.mem_filter.mp hmem).1, n, hn, by omega⟩
  · intro t ht n hn hlt
    apply (List.perm_insertionSort _ _).symm.subset
    refine List.mem_filter.mpr ⟨ht, ?_⟩
    exact (timeGe_localMidnight today t.date today.dayNumber).mpr ⟨n, hn, by omega⟩

theorem renderTransactions_today_from_today_on_witness :
    (-1440 < march15West.utcOffsetMinutes ∧ march15West.utcOffsetMinutes < 1440)
    ∧ ∃ view,
      renderTransactions march15West ⟨"today", "all", ""⟩ viewTransactions = some view
      ∧ (∀ t ∈ view, t ∈ viewTransactions
          ∧ ∃ n, dayNumberOf t.date = some n ∧ march15West.dayNumber ≤ n)
      ∧ ∀ t ∈ viewTransactions, ∀ n, dayNumberOf t.date = some n →
          march15West.dayNumber < n → t ∈ view :=
  ⟨by decide, renderTransactions_today_from_today_on march15West viewTransactions (by decide)⟩

/-- The claim C19 fails on a transaction dated after today: on 15 March 2024 the view
"today" shows the transaction dated 2024-03-20. -/
theorem renderTransactions_today_shows_later_day :
    renderTransactions march15 ⟨"today", "all", ""⟩ viewTransactions
      = some [laterTransaction, todayTransaction, secondTodayTransaction]
    ∧ laterTransaction.date = "2024-03-20"
    ∧ dayNumberOf laterTransaction.date = some (march15.dayNumber + 5) := by
  decide

/-! ## The search stage -/

/-- C20: the search stage keeps a transaction exactly when the search text, in lower case,
is a substring of its description in lower case, of its category in lower case or of the
formatted currency string of its amount in lower case (every transaction having a
description); with an empty search text every transaction is kept. -/
theorem searchStage_keeps (search : String) (ts : List Transaction) :
    searchStage (toLowerCase "") ts = some ts
    ∧ searchStage (toLowerCase "REF") viewTransactions = some [secondTodayTransaction]
    ∧ ((∀ t ∈ ts, t.description.isSome = true) →
        searchStage (toLowerCase search) ts
          = some (ts.filter (fun t =>
              includes (toLowerCase (t.description.getD "")) (toLowerCase search)
              || includes (toLowerCase t.category) (toLowerCase search)
              || includes (toLowerCase (formatCurrency t.amount)) (toLowerCase search)))) := by
  refine ⟨rfl, by decide, ?_⟩
  · intro hdesc
    by_cases hs : toLowerCase search = ""
    · have hall : ∀ text : String, includes text "" = true := by
        intro text
        simp [includes]
      simp [searchStage, hs, hall]
    · have htotal : ∀ t ∈ ts, ∃ b, searchKeeps (toLowerCase search) t = some b := by
        intro t ht
        obtain ⟨d, hd⟩ := Option.isSome_iff_exists.mp (hdesc t ht)
        simp [searchKeeps, hd]
      simp only [searchStage, hs, ne_eq, not_false_eq_true, if_true,
        filterThrowing_of_total _ _ htotal]
      congr 1
      apply List.filter_congr
      intro t ht
      obtain ⟨d, hd⟩ := Option.isSome_iff_exists.mp (hdesc t ht)
      simp [searchKeeps, hd]

/-! ## Creation survives a failure of the bridge -/

theorem handleTransactionSubmitCatching_false (s : AppState) (form : TransactionForm)
    (now : Nat) (nowIso : String) :
    handleTransactionSubmitCatching false s form now nowIso
      = handleTransactionSubmit s form now nowIso := by
  simp [handleTransactionSubmitCatching, handleTransactionSubmit,
    addRecurringTransactionToCalendarCatching]

/-- C23: a valid new recurring transaction is created whatever happens in the calendar
bridge. When the calendar instance is not available, or its event mapping is not, or an
exception is raised in the `try` block before the event is stored, the call still appends
the record built from the form as the last element of the transaction list and reports
success, and it leaves the calendar, hence the event mapping where there is one, exactly
as it was: no mirrored event is stored. -/
theorem handleTransactionSubmit_survives_bridge_failure (raised : Bool) (s : AppState)
    (form : TransactionForm) (now : Nat) (nowIso : String)
    (hnew : s.currentTransaction = none)
    (hvalid : form.date ≠ "" ∧ JsNum.lt 0 form.amount = true)
    (hrec : form.recurring = true)
    (hfail : raised = true ∨ s.calendar = none ∨ s.events = none) :
    handleTransactionSubmitCatching raised s form now nowIso
      = ({ s with transactions := s.transactions ++ [buildTransaction none form now nowIso] },
         .feedback "Transaction added successfully!")
    ∧ (handleTransactionSubmitCatching raised s form now nowIso).1.events = s.events
    ∧ (raised = false →
        handleTransactionSubmit s form now nowIso
          = ({ s with transactions :=
                s.transactions ++ [buildTransaction none form now nowIso] },
             .feedback "Transaction added successfully!")) := by
  have hinv : formInvalid form = false := formInvalid_of_valid form hvalid.1 hvalid.2
  have hmain : handleTransactionSubmitCatching raised s form now nowIso
      = ({ s with transactions := s.transactions ++ [buildTransaction none form now nowIso] },
         .feedback "Transaction added successfully!") := by
    unfold handleTransactionSubmitCatching
    simp only [hinv, hnew, hrec, if_true, Bool.false_eq_true, if_false]
    rcases hfail with h | h | h
    · simp [addRecurringTransactionToCalendarCatching, h]
    · simp [addRecurringTransactionToCalendarCatching, addRecurringTransactionToCalendar, h]
    · have hev : ∀ ts ct, (AppState.mk s.calendar ts ct).events = none := fun _ _ => h
      simp [addRecurringTransactionToCalendarCatching,
        addRecurringTransactionToCalendar_of_events_none _ _ (hev _ _)]
  refine ⟨hmain, ?_, ?_⟩
  · rw [hmain]
    rfl
  · intro hr
    rw [← handleTransactionSubmitCatching_false, ← hr]
    exact hmain

theorem handleTransactionSubmit_survives_bridge_failure_witness :
    handleTransactionSubmitCatching false ⟨none, [], none⟩ salaryForm 123
        "2024-03-01T09:00:00.000Z"
      = ({ (⟨none, [], none⟩ : AppState) with transactions :=
            (⟨none, [], none⟩ : AppState).transactions
              ++ [buildTransaction none salaryForm 123 "2024-03-01T09:00:00.000Z"] },
         .feedback "Transaction added successfully!")
    ∧ (handleTransactionSubmitCatching false ⟨none, [], none⟩ salaryForm 123
        "2024-03-01T09:00:00.000Z").1.events = (⟨none, [], none⟩ : AppState).events
    ∧ (false = false →
        handleTransactionSubmit ⟨none, [], none⟩ salaryForm 123 "2024-03-01T09:00:00.000Z"
          = ({ (⟨none, [], none⟩ : AppState) with transactions :=
                (⟨none, [], none⟩ : AppState).transactions
                  ++ [buildTransaction none salaryForm 123 "2024-03-01T09:00:00.000Z"] },
             .feedback "Transaction added successfully!")) :=
  handleTransactionSubmit_survives_bridge_failure false ⟨none, [], none⟩ salaryForm 123
    "2024-03-01T09:00:00.000Z" rfl ⟨by decide, by decide⟩ rfl (Or.inr (Or.inl rfl))

/-! ## Plain events are appended -/

theorem pushNewEvent_get?_self (events : EventMap) (form : EventForm) (now : Nat) :
    (pushNewEvent events form now).get? form.date
      = some ((events.get? form.date).getD [] ++ [newEvent form now]) := by
  unfold pushNewEvent
  cases h : events.get? form.date with
  | none => simp [h, EventMap.get?_set_self]
  | some list => simp [h, EventMap.get?_set_self]

theorem pushNewEvent_get?_of_ne (events : EventMap) (form : EventForm) (now : Nat)
    (key : String) (hkey : key ≠ form.date) :
    (pushNewEvent events form now).get? key = events.get? key := by
  unfold pushNewEvent
  cases h : events.get? form.date with
  | none => simp [h, EventMap.get?_set_self, EventMap.get?_set_of_ne _ _ _ _ hkey]
  | some list => simp [h, EventMap.get?_set_of_ne _ _ _ _ hkey]

/-- C24: `handleEventSubmit` with a date and a title that are not empty, on a state whose
event mapping is `events`: the array of the date becomes the old array (empty when the
date had none) followed by the new event, whatever the old array holds (no event is
dropped, moved or merged, even one with the same id or the same fields). The new event
has the number `Date.now()` as id and the title, time and description of the form, and
neither a recurring flag nor finance data. The array of every other date is unchanged,
and so is the transaction list. -/
theorem handleEventSubmit_appends (s : AppState) (events : EventMap) (form : EventForm)
    (now : Nat) (hev : s.events = some events)
    (hdate : form.date ≠ "") (htitle : form.title ≠ "") :
    ∃ events', (handleEventSubmit s form now).events = some events'
      ∧ events'.get? form.date
          = some ((events.get? form.date).getD [] ++
              [{ id := .num now, title := form.title, time := some form.time
                 description := some form.description, recurring := none
                 financeData := none }])
      ∧ (∀ key, key ≠ form.date → events'.get? key = events.get? key)
      ∧ (handleEventSubmit s form now).transactions = s.transactions := by
  refine ⟨pushNewEvent events form now, ?_, ?_,
    fun key hkey => pushNewEvent_get?_of_ne events form now key hkey,
    handleEventSubmit_transactions s form now⟩
  · unfold AppState.events at hev
    unfold handleEventSubmit
    cases hc : s.calendar with
    | none => simp [hc] at hev
    | some calendar =>
      rw [hc] at hev
      simp only at hev
      simp [hdate, htitle, hev, AppState.events]
  · rw [pushNewEvent_get?_self events form now]
    rfl

theorem handleEventSubmit_appends_witness :
    ∃ events', (handleEventSubmit calendarState dentistForm 5).events = some events'
      ∧ events'.get? dentistForm.date
          = some ((EventMap.get? [("2024-03-01", [dentistEvent]), ("2024-03-02", [dentistEvent])]
              dentistForm.date).getD [] ++
              [{ id := .num 5, title := dentistForm.title, time := some dentistForm.time
                 description := some dentistForm.description, recurring := none
                 financeData := none }])
      ∧ (∀ key, key ≠ dentistForm.date → events'.get? key
          = EventMap.get? [("2024-03-01", [dentistEvent]), ("2024-03-02", [dentistEvent])] key)
      ∧ (handleEventSubmit calendarState dentistForm 5).transactions
          = calendarState.transactions :=
  handleEventSubmit_appends calendarState
    [("2024-03-01", [dentistEvent]), ("2024-03-02", [dentistEvent])] dentistForm 5 rfl
    (by decide) (by decide)

/-! ## Month navigation -/

theorem navigateMonth_forward (month year : Int) (events : Option EventMap)
    (hmonth : 0 ≤ month ∧ month ≤ 11) :
    navigateMonth ⟨month, year, events⟩ 1
      = if month = 11 then ⟨0, year + 1, events⟩ else ⟨month + 1, year, events⟩ := by
  simp only [navigateMonth]
  split_ifs <;> first | rfl | omega

theorem navigateMonth_backward (month year : Int) (events : Option EventMap)
    (hmonth : 0 ≤ month ∧ month ≤ 11) :
    navigateMonth ⟨month, year, events⟩ (-1)
      = if month = 0 then ⟨11, year - 1, events⟩ else ⟨month + -1, year, events⟩ := by
  simp only [navigateMonth]
  split_ifs <;> first | rfl | omega

/-- C26: `navigateMonth` with `currentMonth` in 0..11 and a direction of -1 or 1 leaves
`currentMonth` in 0..11 and moves the linear month index `12 * currentYear + currentMonth`
by exactly the direction; a step forward followed by a step backward gives back the
calendar it started from, and so does a step backward followed by a step forward. -/
theorem navigateMonth_steps (calendar : Calendar) (direction : Int)
    (hmonth : 0 ≤ calendar.currentMonth ∧ calendar.currentMonth ≤ 11)
    (hdir : direction = -1 ∨ direction = 1) :
    0 ≤ (navigateMonth calendar direction).currentMonth
    ∧ (navigateMonth calendar direction).currentMonth ≤ 11
    ∧ 12 * (navigateMonth calendar direction).currentYear
        + (navigateMonth calendar direction).currentMonth
        = 12 * calendar.currentYear + calendar.currentMonth + direction
    ∧ navigateMonth (navigateMonth calendar 1) (-1) = calendar
    ∧ navigateMonth (navigateMonth calendar (-1)) 1 = calendar := by
  obtain ⟨month, year, events⟩ := calendar
  simp only at hmonth
  have hforward := navigateMonth_forward month year events hmonth
  have hbackward := navigateMonth_backward month year events hmonth
  refine ⟨?_, ?_, ?_, ?_, ?_⟩
  · rcases hdir with h | h <;> subst h
    · rw [hbackward]; split_ifs <;> simp only <;> omega
    · rw [hforward]; split_ifs <;> simp only <;> omega
  · rcases hdir with h | h <;> subst h
    · rw [hbackward]; split_ifs <;> simp only <;> omega
    · rw [hforward]; split_ifs <;> simp only <;> omega
  · rcases hdir with h | h <;> subst h
    · rw [hbackward]; split_ifs <;> simp only <;> omega
    · rw [hforward]; split_ifs <;> simp only <;> omega
  · rw [hforward]
    split_ifs with h
    · rw [navigateMonth_backward 0 (year + 1) events ⟨by omega, by omega⟩]
      simp only [if_true, Calendar.mk.injEq, and_true]
      omega
    · rw [navigateMonth_backward (month + 1) year events ⟨by omega, by omega⟩]
      rw [if_neg (by omega)]
      simp only [Calendar.mk.injEq, and_true]
      omega
  · rw [hbackward]
    split_ifs with h
    · rw [navigateMonth_forward 11 (year - 1) events ⟨by omega, by omega⟩]
      simp only [if_true, Calendar.mk.injEq, and_true]
      omega
    · rw [navigateMonth_forward (month + -1) year events ⟨by omega, by omega⟩]
      rw [if_neg (by omega)]
      simp only [Calendar.mk.injEq, and_true]
      omega

theorem navigateMonth_steps_witness :
    0 ≤ (navigateMonth ⟨11, 2024, none⟩ 1).currentMonth
    ∧ (navigateMonth ⟨11, 2024, none⟩ 1).currentMonth ≤ 11
    ∧ 12 * (navigateMonth ⟨11, 2024, none⟩ 1).currentYear
        + (navigateMonth ⟨11, 2024, none⟩ 1).currentMonth
        = 12 * (2024 : Int) + 11 + 1
    ∧ navigateMonth (navigateMonth ⟨11, 2024, none⟩ 1) (-1) = ⟨11, 2024, none⟩
    ∧ navigateMonth (navigateMonth ⟨11, 2024, none⟩ (-1)) 1 = ⟨11, 2024, none⟩ :=
  navigateMonth_steps ⟨11, 2024, none⟩ 1 ⟨by decide, by decide⟩ (Or.inr rfl)

/-! ## No date is left with an empty array -/

theorem pushNewEvent_nonempty (events : EventMap) (form : EventForm) (now : Nat)
    (h : ∀ key list, events.get? key = some list → list ≠ []) :
    ∀ key list, (pushNewEvent events form now).get? key = some list → list ≠ [] := by
  intro key list hget
  by_cases hkey : key = form.date
  · subst hkey
    rw [pushNewEvent_get?_self] at hget
    cases hget
    simp
  · rw [pushNewEvent_get?_of_ne events form now key hkey] at hget
    exact h key list hget

theorem pushCalendarEvent_nonempty (events : EventMap) (t : Transaction)
    (h : ∀ key list, events.get? key = some list → list ≠ []) :
    ∀ key list, (pushCalendarEvent events t).get? key = some list → list ≠ [] := by
  intro key list hget
  by_cases hkey : key = t.date
  · subst hkey
    rw [pushCalendarEvent_get?_self] at hget
    cases hget
    simp
  · rw [pushCalendarEvent_get?_of_ne events t key hkey] at hget
    exact h key list hget

theorem filterCalendarEvents_nonempty (events : EventMap) (t : Transaction)
    (h : ∀ key list, events.get? key = some list → list ≠ []) :
    ∀ key list, (filterCalendarEvents events t).get? key = some list → list ≠ [] := by
  intro key list hget
  unfold filterCalendarEvents at hget
  cases hold : events.get? t.date with
  | none =>
    simp only [hold] at hget
    exact h key list hget
  | some old =>
    simp only [hold] at hget
    by_cases hkey : key = t.date
    · subst hkey
      split_ifs at hget with hlen
      · rw [EventMap.get?_delete_self] at hget
        cases hget
      · rw [EventMap.get?_set_self] at hget
        cases hget
        intro hnil
        exact hlen (by rw [hnil]; rfl)
    · split_ifs at hget with hlen
      · rw [EventMap.get?_delete_of_ne _ _ _ hkey] at hget
        exact h key list hget
      · rw [EventMap.get?_set_of_ne _ _ _ _ hkey] at hget
        exact h key list hget

theorem handleTransactionSubmit_events_cases (s : AppState) (form : TransactionForm)
    (now : Nat) (nowIso : String) :
    (handleTransactionSubmit s form now nowIso).1.events = s.events
    ∨ ∃ events t, s.events = some events
        ∧ (handleTransactionSubmit s form now nowIso).1.events
            = some (pushCalendarEvent events t) := by
  unfold handleTransactionSubmit
  split
  · exact Or.inl rfl
  · cases hcur : s.currentTransaction with
    | some current =>
      simp only
      split <;> exact Or.inl rfl
    | none =>
      simp only
      split
      · cases hev : s.events with
        | none =>
          left
          have hev' : ∀ ts ct, (AppState.mk s.calendar ts ct).events = none :=
            fun _ _ => hev
          rw [addRecurringTransactionToCalendar_of_events_none _ _ (hev' _ _)]
          exact hev' _ _
        | some events =>
          right
          exact ⟨events, _, rfl, addRecurringTransactionToCalendar_events _ _ events
            (show (AppState.mk s.calendar _ _).events = some events from hev)⟩
      · exact Or.inl rfl

theorem deleteTransaction_events_cases (s : AppState) (confirmed : Bool) :
    (deleteTransaction s confirmed).1.events = s.events
    ∨ ∃ events t, s.events = some events
        ∧ (deleteTransaction s confirmed).1.events
            = some (filterCalendarEvents events t) := by
  unfold deleteTransaction
  cases hcur : s.currentTransaction with
  | none => exact Or.inl rfl
  | some current =>
    simp only
    split
    · exact Or.inl rfl
    · split
      · split
        · cases hev : s.events with
          | none =>
            left
            show (removeTransactionFromCalendar _ _).events = none
            have hev' : ∀ ts ct, (AppState.mk s.calendar ts ct).events = none :=
              fun _ _ => hev
            rw [removeTransactionFromCalendar_of_events_none _ _ (hev' _ _)]
            exact hev' _ _
          | some events =>
            right
            exact ⟨events, current, rfl, removeTransactionFromCalendar_events _ _ events
              (show (AppState.mk s.calendar _ _).events = some events from hev)⟩
        · exact Or.inl rfl
      · exact Or.inl rfl

theorem step_nonempty (s : AppState) (action : Action)
    (h : ∀ events, s.events = some events →
      ∀ key list, events.get? key = some list → list ≠ []) :
    ∀ events, (step s action).events = some events →
      ∀ key list, events.get? key = some list → list ≠ [] := by
  have hsame : ∀ s' : AppState, s'.events = s.events →
      ∀ events, s'.events = some events →
        ∀ key list, events.get? key = some list → list ≠ [] :=
    fun s' hs' events hev => h events (hs' ▸ hev)
  cases action with
  | openModal index =>
    cases index with
    | none => exact hsame _ rfl
    | some index =>
      simp only [step]
      split
      · exact hsame _ rfl
      · exact h
  | closeModal => exact hsame _ rfl
  | submit form now nowIso =>
    rcases handleTransactionSubmit_events_cases s form now nowIso with hc | ⟨old, t, hold, hc⟩
    · exact hsame _ hc
    · intro events hev
      simp only [step] at hev
      rw [hc] at hev
      cases hev
      exact pushCalendarEvent_nonempty old t (h old hold)
  | remove confirmed =>
    rcases deleteTransaction_events_cases s confirmed with hc | ⟨old, t, hold, hc⟩
    · exact hsame _ hc
    · intro events hev
      simp only [step] at hev
      rw [hc] at hev
      cases hev
      exact filterCalendarEvents_nonempty old t (h old hold)
  | addEvent form now =>
    rcases handleEventSubmit_events s form now with hc | ⟨old, hold, hc⟩
    · exact hsame _ hc
    · intro events hev
      simp only [step] at hev
      rw [hc] at hev
      cases hev
      exact pushNewEvent_nonempty old form now (h old hold)

theorem run_nonempty (s : AppState) (actions : List Action)
    (h : ∀ events, s.events = some events →
      ∀ key list, events.get? key = some list → list ≠ []) :
    ∀ events, (run s actions).events = some events →
      ∀ key list, events.get? key = some list → list ≠ [] := by
  induction actions generalizing s with
  | nil => exact h
  | cons action rest ih => exact ih (step s action) (step_nonempty s action h)

/-- C25: in every state reached from a state whose event mapping has no entry (or that
has no mapping) by any sequence of actions (plain event additions, creations of
transactions, recurring or not, edits, deletions, opening and closing the form), no date
key of the event mapping maps to an empty array. -/
theorem run_no_empty_date (s : AppState) (actions : List Action)
    (hempty : s.events = none ∨ s.events = some [])
    (events : EventMap) (hev : (run s actions).events = some events)
    (key : String) (list : List CalendarEvent) (hget : events.get? key = some list) :
    list ≠ [] := by
  refine run_nonempty s actions ?_ events hev key list hget
  intro start hstart k l hk
  rcases hempty with h | h
  · rw [h] at hstart
    cases hstart
  · rw [h] at hstart
    cases hstart
    simp [EventMap.get?] at hk

theorem run_no_empty_date_witness :
    (run emptyState busyActions).events
      = some [("2024-03-01",
          [calendarEvent (buildTransaction none salaryForm 123 "2024-03-01T09:00:00.000Z"),
           newEvent dentistForm 124])]
    ∧ [calendarEvent (buildTransaction none salaryForm 123 "2024-03-01T09:00:00.000Z"),
       newEvent dentistForm 124] ≠ [] :=
  ⟨by decide,
   run_no_empty_date emptyState busyActions (Or.inr rfl)
    [("2024-03-01",
      [calendarEvent (buildTransaction none salaryForm 123 "2024-03-01T09:00:00.000Z"),
       newEvent dentistForm 124])]
    (by decide) "2024-03-01"
    [calendarEvent (buildTransaction none salaryForm 123 "2024-03-01T09:00:00.000Z"),
     newEvent dentistForm 124]
    (by decide)⟩

/-! ## The date filters are nested -/

theorem makeDay_month_le (year monthIndex : Int)
    (hmonth : 0 ≤ monthIndex ∧ monthIndex ≤ 11) :
    makeDay year 0 1 ≤ makeDay year monthIndex 1 := by
  obtain ⟨h0, h11⟩ := hmonth
  have h1 : monthIndex / 12 = 0 := by omega
  have h2 : monthIndex % 12 = monthIndex := by omega
  simp only [makeDay, h1, h2]
  generalize (if 0 ≤ year ∧ year ≤ 99 then 1900 + year else year) = fullYear
  interval_cases monthIndex <;> simp only [daysFromCivil] <;> norm_num <;> omega

theorem makeDay_day_le (year monthIndex day day' : Int) (h : day ≤ day') :
    makeDay year monthIndex day ≤ makeDay year monthIndex day' := by
  simp only [makeDay]
  omega

theorem Today.getDay_nonneg (today : Today) : 0 ≤ today.getDay := by
  unfold Today.getDay
  omega

theorem timeGe_localMidnight_le (today : Today) (a b : Int) (h : b ≤ a) :
    timeGe (localMidnight today a) (localMidnight today b) = true := by
  simp only [timeGe, localMidnight, msPerDay, decide_eq_true_eq]
  omega

theorem timeGe_trans (a b c : Option Int) (hab : timeGe a b = true)
    (hbc : timeGe b c = true) : timeGe a c = true := by
  cases a <;> cases b <;> cases c <;> simp_all [timeGe]
  omega

theorem mem_dateStage (today : Today) (dateFilter : String) (ts : List Transaction)
    (t : Transaction) (hfilter : dateFilter ≠ "all") :
    t ∈ dateStage today dateFilter ts ↔ t ∈ ts ∧ dateFilterKeeps today dateFilter t = true := by
  simp [dateStage, hfilter]

/-- C29: the date filters are nested. For every current date (month index in 0..11, day
of the month at least 1) the thresholds satisfy `startOfWeek <= startOfDay` and
`startOfYear <= startOfMonth <= startOfDay`, so for every stored list a transaction kept
by the date stage under 'today' is kept under 'week', 'month' and 'year', and one kept
under 'month' is kept under 'year'. -/
theorem dateStage_nested (today : Today) (ts : List Transaction)
    (hmonth : 0 ≤ today.month ∧ today.month ≤ 11) (hdate : 1 ≤ today.date) :
    timeGe (startOfDay today) (startOfWeek today) = true
    ∧ timeGe (startOfDay today) (startOfMonth today) = true
    ∧ timeGe (startOfMonth today) (startOfYear today) = true
    ∧ (∀ t ∈ dateStage today "today" ts,
        t ∈ dateStage today "week" ts ∧ t ∈ dateStage today "month" ts
          ∧ t ∈ dateStage today "year" ts)
    ∧ (∀ t ∈ dateStage today "month" ts, t ∈ dateStage today "year" ts) := by
  have hweek : timeGe (startOfDay today) (startOfWeek today) = true :=
    timeGe_localMidnight_le today _ _
      (makeDay_day_le _ _ _ _ (by have := today.getDay_nonneg; omega))
  have hmonthDay : timeGe (startOfDay today) (startOfMonth today) = true :=
    timeGe_localMidnight_le today _ _ (makeDay_day_le _ _ _ _ hdate)
  have hyear : timeGe (startOfMonth today) (startOfYear today) = true :=
    timeGe_localMidnight_le today _ _ (makeDay_month_le _ _ hmonth)
  refine ⟨hweek, hmonthDay, hyear, ?_, ?_⟩
  · intro t ht
    rw [mem_dateStage today "today" ts t (by decide)] at ht
    obtain ⟨hmem, hkeep⟩ := ht
    obtain ⟨h1, h2, h3, h4⟩ := dateFilterKeeps_values today t
    rw [h1] at hkeep
    rw [mem_dateStage today "week" ts t (by decide),
      mem_dateStage today "month" ts t (by decide),
      mem_dateStage today "year" ts t (by decide), h2, h3, h4]
    exact ⟨⟨hmem, timeGe_trans _ _ _ hkeep hweek⟩,
      ⟨hmem, timeGe_trans _ _ _ hkeep hmonthDay⟩,
      ⟨hmem, timeGe_trans _ _ _ (timeGe_trans _ _ _ hkeep hmonthDay) hyear⟩⟩
  · intro t ht
    rw [mem_dateStage today "month" ts t (by decide)] at ht
    obtain ⟨hmem, hkeep⟩ := ht
    obtain ⟨h1, h2, h3, h4⟩ := dateFilterKeeps_values today t
    rw [h3] at hkeep
    rw [mem_dateStage today "year" ts t (by decide), h4]
    exact ⟨hmem, timeGe_trans _ _ _ hkeep hyear⟩

theorem dateStage_nested_witness :
    timeGe (startOfDay march15) (startOfWeek march15) = true
    ∧ timeGe (startOfDay march15) (startOfMonth march15) = true
    ∧ timeGe (startOfMonth march15) (startOfYear march15) = true
    ∧ (∀ t ∈ dateStage march15 "today" viewTransactions,
        t ∈ dateStage march15 "week" viewTransactions
          ∧ t ∈ dateStage march15 "month" viewTransactions
          ∧ t ∈ dateStage march15 "year" viewTransactions)
    ∧ (∀ t ∈ dateStage march15 "month" viewTransactions,
        t ∈ dateStage march15 "year" viewTransactions) :=
  dateStage_nested march15 viewTransactions ⟨by decide, by decide⟩ (by decide)

/-! ## The search stage on a record without description -/

/-- C30: the search stage does not complete on a record whose description is absent. With
the search text "a" and the stored list made of a described record followed by a record
without description, the callback raises the TypeError of
`transaction.description.toLowerCase()`: the search stage has no result and
`renderTransactions` ends in the error state of its `catch` block, whatever the two other
filters are set to show. -/
theorem searchStage_absent_description_raises :
    searchStage "a" [todayTransaction, undescribedTransaction] = none
    ∧ renderTransactions march15 ⟨"all", "all", "a"⟩
        [todayTransaction, undescribedTransaction] = none
    ∧ renderTransactions march15 ⟨"all", "all", ""⟩
        [todayTransaction, undescribedTransaction]
        = some [todayTransaction, undescribedTransaction] := by
  decide

/-! ## The totals of the chart -/

theorem CategoryTotals.totals_get?_set_self (m : CategoryTotals) (key : String) (value : JsNum) :
    (m.set key value).get? key = some value := by
  induction m with
  | nil => simp [CategoryTotals.set, CategoryTotals.get?]
  | cons p rest ih =>
    obtain ⟨k, v⟩ := p
    by_cases h : k = key
    · simp [CategoryTotals.set, CategoryTotals.get?, h]
    · simp [CategoryTotals.set, CategoryTotals.get?, h, ih]

theorem CategoryTotals.totals_get?_set_of_ne (m : CategoryTotals) (key other : String)
    (value : JsNum) (h : other ≠ key) :
    (m.set key value).get? other = m.get? other := by
  induction m with
  | nil => simp [CategoryTotals.set, CategoryTotals.get?, Ne.symm h]
  | cons p rest ih =>
    obtain ⟨k, v⟩ := p
    by_cases hk : k = key
    · have hko : k ≠ other := fun e => h (e ▸ hk)
      simp [CategoryTotals.set, CategoryTotals.get?, hk, hko, Ne.symm h]
    · by_cases hko : k = other
      · subst hko
        simp [CategoryTotals.set, CategoryTotals.get?, h]
      · simp [CategoryTotals.set, CategoryTotals.get?, hk, hko, ih]

theorem CategoryTotals.get?_eq_none_iff (m : CategoryTotals) (key : String) :
    m.get? key = none ↔ key ∉ m.map Prod.fst := by
  induction m with
  | nil => simp [CategoryTotals.get?]
  | cons p rest ih =>
    obtain ⟨k, v⟩ := p
    by_cases h : k = key
    · simp [CategoryTotals.get?, h]
    · have h' : ¬ key = k := fun hk => h hk.symm
      simp [CategoryTotals.get?, h, h', ih]

theorem CategoryTotals.map_fst_set (m : CategoryTotals) (key : String) (value : JsNum) :
    (m.set key value).map Prod.fst
      = if key ∈ m.map Prod.fst then m.map Prod.fst else m.map Prod.fst ++ [key] := by
  induction m with
  | nil => simp [CategoryTotals.set]
  | cons p rest ih =>
    obtain ⟨k, v⟩ := p
    by_cases h : k = key
    · simp [CategoryTotals.set, h]
    · have h' : ¬ key = k := fun hk => h hk.symm
      simp only [CategoryTotals.set, h, if_false, List.map_cons, ih, List.mem_cons, h',
        false_or]
      split_ifs <;> simp

theorem CategoryTotals.nodup_set (m : CategoryTotals) (key : String) (value : JsNum)
    (h : (m.map Prod.fst).Nodup) : ((m.set key value).map Prod.fst).Nodup := by
  rw [CategoryTotals.map_fst_set]
  split_ifs with hmem
  · exact h
  · exact List.Nodup.append h (List.nodup_singleton key) (by simpa using hmem)

theorem CategoryTotals.get?_of_mem (m : CategoryTotals) (h : (m.map Prod.fst).Nodup)
    (key : String) (value : JsNum) (hmem : (key, value) ∈ m) : m.get? key = some value := by
  induction m with
  | nil => simp at hmem
  | cons p rest ih =>
    obtain ⟨k, v⟩ := p
    rw [List.map_cons, List.nodup_cons] at h
    rcases List.mem_cons.mp hmem with heq | hrest
    · cases heq
      simp [CategoryTotals.get?]
    · have hk : ¬ k = key := by
        intro hk
        subst hk
        exact h.1 (List.mem_map.mpr ⟨(k, value), hrest, rfl⟩)
      simp [CategoryTotals.get?, hk, ih h.2 hrest]

theorem CategoryTotals.mem_of_get? (m : CategoryTotals) (key : String) (value : JsNum)
    (h : m.get? key = some value) : (key, value) ∈ m := by
  induction m with
  | nil => simp [CategoryTotals.get?] at h
  | cons p rest ih =>
    obtain ⟨k, v⟩ := p
    by_cases hk : k = key
    · simp [CategoryTotals.get?, hk] at h
      simp [hk, h]
    · simp [CategoryTotals.get?, hk] at h
      exact List.mem_cons_of_mem _ (ih h)

theorem JsNum.sum_fin (l : List JsNum) (h : ∀ x ∈ l, ∃ q, x = JsNum.fin q) :
    ∃ q, l.sum = JsNum.fin q := by
  induction l with
  | nil => exact ⟨0, rfl⟩
  | cons a rest ih =>
    obtain ⟨qa, hqa⟩ := h a (List.mem_cons_self _ _)
    obtain ⟨qr, hqr⟩ := ih (fun x hx => h x (List.mem_cons_of_mem _ hx))
    exact ⟨qa + qr, by rw [List.sum_cons, hqa, hqr, JsNum.fin_add_fin]⟩

theorem JsNum.eq_zero_of_falsy (v : JsNum) (hnan : v ≠ .nan) (hfalsy : v.truthy = false) :
    v = 0 := by
  cases v with
  | nan => exact absurd rfl hnan
  | negInf => simp [JsNum.truthy] at hfalsy
  | posInf => simp [JsNum.truthy] at hfalsy
  | fin q =>
    simp [JsNum.truthy] at hfalsy
    rw [hfalsy]
    rfl

theorem chartStep_get?_self (totals : CategoryTotals) (t : Transaction)
    (hnan : ∀ v, totals.get? t.category = some v → v ≠ .nan) :
    (chartStep totals t).get? t.category
      = some ((totals.get? t.category).getD 0
          + (if t.type = "expense" then t.amount else 0)) := by
  unfold chartStep
  cases h : totals.get? t.category with
  | none =>
    by_cases hexp : t.type = "expense"
    · simp [hexp, h, CategoryTotals.totals_get?_set_self]
    · simp [hexp, h, CategoryTotals.totals_get?_set_self]
  | some v =>
    by_cases htruthy : v.truthy = true
    · by_cases hexp : t.type = "expense"
      · simp [hexp, htruthy, h, CategoryTotals.totals_get?_set_self]
      · simp [hexp, htruthy, h]
    · have hv : v = 0 :=
        JsNum.eq_zero_of_falsy v (hnan v h) (by simpa using htruthy)
      subst hv
      by_cases hexp : t.type = "expense"
      · simp [hexp, htruthy, h, CategoryTotals.totals_get?_set_self]
      · simp [hexp, htruthy, h, CategoryTotals.totals_get?_set_self]

theorem chartStep_get?_of_ne (totals : CategoryTotals) (t : Transaction) (key : String)
    (hkey : key ≠ t.category) : (chartStep totals t).get? key = totals.get? key := by
  have hset : ∀ (m : CategoryTotals) (value : JsNum),
      (m.set t.category value).get? key = m.get? key :=
    fun m value => CategoryTotals.totals_get?_set_of_ne m t.category key value hkey
  unfold chartStep
  simp only
  split_ifs <;> split <;> (try split) <;> (try split) <;> simp only [hset]

theorem chartStep_nodup (totals : CategoryTotals) (t : Transaction)
    (h : (totals.map Prod.fst).Nodup) : ((chartStep totals t).map Prod.fst).Nodup := by
  have hset : ∀ (m : CategoryTotals) (value : JsNum), (m.map Prod.fst).Nodup →
      ((m.set t.category value).map Prod.fst).Nodup :=
    fun m value hm => CategoryTotals.nodup_set m t.category value hm
  unfold chartStep
  simp only
  split_ifs <;> split <;> (try split) <;> (try split) <;>
    first | exact h | exact hset _ _ h | exact hset _ _ (hset _ _ h)

theorem expenses_of_category_append (init : List Transaction) (t : Transaction)
    (c : String) :
    (((init ++ [t]).filter
        (fun u => decide (u.type = "expense" ∧ u.category = c))).map (·.amount)).sum
      = ((init.filter
          (fun u => decide (u.type = "expense" ∧ u.category = c))).map (·.amount)).sum
        + (if t.type = "expense" ∧ t.category = c then t.amount else 0) := by
  rw [List.filter_append, List.map_append, List.sum_append]
  by_cases h : t.type = "expense" ∧ t.category = c
  · simp [List.filter_cons, h]
  · simp [List.filter_cons, h]

theorem expenses_of_category_fin (ts : List Transaction) (c : String)
    (hfin : ∀ t ∈ ts, ∃ q, t.amount = JsNum.fin q) :
    ∃ q, ((ts.filter
        (fun u => decide (u.type = "expense" ∧ u.category = c))).map (·.amount)).sum
      = JsNum.fin q := by
  apply JsNum.sum_fin
  intro x hx
  obtain ⟨u, hu, rfl⟩ := List.mem_map.mp hx
  exact hfin u (List.mem_filter.mp hu).1

theorem expenses_of_category_absent (ts : List Transaction) (c : String)
    (h : c ∉ ts.map (·.category)) :
    ((ts.filter
        (fun u => decide (u.type = "expense" ∧ u.category = c))).map (·.amount)).sum = 0 := by
  have hnil : ts.filter (fun u => decide (u.type = "expense" ∧ u.category = c)) = [] := by
    rw [List.filter_eq_nil_iff]
    intro u hu hdec
    have := of_decide_eq_true hdec
    exact h (List.mem_map.mpr ⟨u, hu, this.2⟩)
  rw [hnil]
  rfl

theorem foldl_chartStep (ts : List Transaction)
    (hfin : ∀ t ∈ ts, ∃ q, t.amount = JsNum.fin q) :
    ((ts.foldl chartStep []).map Prod.fst).Nodup
    ∧ ∀ c, (ts.foldl chartStep []).get? c
        = if c ∈ ts.map (·.category) then
            some (((ts.filter
              (fun u => decide (u.type = "expense" ∧ u.category = c))).map (·.amount)).sum)
          else none := by
  induction ts using List.reverseRecOn with
  | nil => exact ⟨by simp, fun c => by simp [CategoryTotals.get?]⟩
  | append_singleton init t ih =>
    have hinit : ∀ u ∈ init, ∃ q, u.amount = JsNum.fin q :=
      fun u hu => hfin u (List.mem_append_left _ hu)
    obtain ⟨hnodup, hget⟩ := ih hinit
    rw [List.foldl_append, List.foldl_cons, List.foldl_nil]
    refine ⟨chartStep_nodup _ t hnodup, ?_⟩
    intro c
    rw [expenses_of_category_append]
    by_cases hc : c = t.category
    · subst hc
      have hnan : ∀ v, (init.foldl chartStep []).get? t.category = some v → v ≠ .nan := by
        intro v hv
        rw [hget] at hv
        split_ifs at hv
        obtain ⟨q, hq⟩ := expenses_of_category_fin init t.category hinit
        rw [hq] at hv
        cases hv
        simp
      rw [chartStep_get?_self _ t hnan, hget]
      have hmem : t.category ∈ (init ++ [t]).map (·.category) := by simp
      rw [if_pos hmem]
      by_cases hold : t.category ∈ init.map (·.category)
      · by_cases hexp : t.type = "expense"
        · simp [hold, hexp]
        · simp [hold, hexp]
      · rw [if_neg hold, expenses_of_category_absent init t.category hold]
        by_cases hexp : t.type = "expense"
        · simp [hexp]
        · simp [hexp]
    · rw [chartStep_get?_of_ne _ t c hc, hget]
      have hne : ¬ (t.type = "expense" ∧ t.category = c) := fun h => hc h.2.symm
      have hmem : c ∈ (init ++ [t]).map (·.category) ↔ c ∈ init.map (·.category) := by
        simp [hc]
      by_cases hold : c ∈ init.map (·.category)
      · rw [if_pos hold, if_pos (hmem.mpr hold), if_neg hne, add_zero]
      · rw [if_neg hold, if_neg (fun h => hold (hmem.mp h))]

/-! ## The order of the chart entries -/

theorem staysBeforeNumber_fin (x y : String × JsNum) (a b : ℚ)
    (hx : x.2 = .fin a) (hy : y.2 = .fin b) :
    staysBeforeNumber (fun p q => q.2 - p.2) x y = true ↔ b ≤ a := by
  simp [staysBeforeNumber, hx, hy, JsNum.fin_sub_fin, JsNum.zero_eq, JsNum.lt]

theorem orderedInsert_descending (a : String × JsNum) (l : List (String × JsNum))
    (hvalid : ∀ p ∈ a :: l, ∃ q, p.2 = JsNum.fin q)
    (hsorted : l.Pairwise (fun p q => JsNum.le q.2 p.2 = true)) :
    (l.orderedInsert
      (fun p q => staysBeforeNumber (fun x y => y.2 - x.2) p q = true) a).Pairwise
      (fun p q => JsNum.le q.2 p.2 = true) := by
  induction l with
  | nil => simp
  | cons b rest ih =>
    obtain ⟨va, hva⟩ := hvalid a (List.mem_cons_self _ _)
    obtain ⟨vb, hvb⟩ := hvalid b (List.mem_cons_of_mem _ (List.mem_cons_self _ _))
    have hrest := List.pairwise_cons.mp hsorted
    have hle : ∀ p q : String × JsNum, ∀ x y : ℚ, p.2 = .fin x → q.2 = .fin y →
        (JsNum.le q.2 p.2 = true ↔ y ≤ x) := by
      intro p q x y hp hq
      simp [hp, hq, JsNum.le]
    by_cases hab : staysBeforeNumber (fun x y => y.2 - x.2) a b = true
    · rw [List.orderedInsert, if_pos hab]
      have hba : vb ≤ va := (staysBeforeNumber_fin a b va vb hva hvb).mp hab
      refine List.pairwise_cons.mpr ⟨?_, hsorted⟩
      intro q hq
      obtain ⟨vq, hvq⟩ := hvalid q (List.mem_cons_of_mem _ hq)
      rw [hle a q va vq hva hvq]
      rcases List.mem_cons.mp hq with h1 | h1
      · rw [h1, hvb] at hvq
        cases hvq
        exact hba
      · exact le_trans ((hle b q vb vq hvb hvq).mp (hrest.1 q h1)) hba
    · rw [List.orderedInsert, if_neg hab]
      have hlt : va < vb := by
        have := (staysBeforeNumber_fin a b va vb hva hvb).not.mp hab
        exact lt_of_not_le this
      have hvalid' : ∀ p ∈ a :: rest, ∃ q, p.2 = JsNum.fin q := by
        intro p hp
        rcases List.mem_cons.mp hp with h1 | h1
        · exact h1 ▸ ⟨va, hva⟩
        · exact hvalid p (List.mem_cons_of_mem _ (List.mem_cons_of_mem _ h1))
      refine List.pairwise_cons.mpr ⟨?_, ih hvalid' hrest.2⟩
      intro q hq
      rcases (List.mem_orderedInsert _).mp hq with h1 | h1
      · rw [h1, hle b a vb va hvb hva]
        exact le_of_lt hlt
      · exact hrest.1 q h1

theorem arraySortNumber_descending (l : List (String × JsNum))
    (hvalid : ∀ p ∈ l, ∃ q, p.2 = JsNum.fin q) :
    (arraySortNumber (fun x y => y.2 - x.2) l).Pairwise
      (fun p q => JsNum.le q.2 p.2 = true) := by
  induction l with
  | nil => simp [arraySortNumber]
  | cons a rest ih =>
    have hrest : ∀ p ∈ rest, ∃ q, p.2 = JsNum.fin q :=
      fun p hp => hvalid p (List.mem_cons_of_mem _ hp)
    have hperm : (arraySortNumber (fun x y => y.2 - x.2) rest).Perm rest :=
      List.perm_insertionSort _ rest
    unfold arraySortNumber
    rw [List.insertionSort]
    refine orderedInsert_descending a _ ?_ (ih hrest)
    intro p hp
    rcases List.mem_cons.mp hp with h1 | h1
    · exact hvalid p (h1 ▸ List.mem_cons_self _ _)
    · exact hrest p (hperm.subset h1)

theorem chartEntries_perm (ts : List Transaction) :
    (chartEntries ts).Perm (ts.foldl chartStep []) :=
  List.perm_insertionSort _ _

/-- The category aggregation of `updateChart` in exact arithmetic, for amounts that are
finite numbers: every reported pair holds a category and the sum of the amounts of the
'expense' transactions of that category; a category is reported exactly when some
transaction of the list has it, and it is reported once; the pairs come in non-increasing
order of the sum. -/
theorem updateChart_pairs (chart : ChartData) (ts : List Transaction)
    (hfin : ∀ t ∈ ts, ∃ q, t.amount = JsNum.fin q) :
    updateChart (some chart) ts
      = some { labels := (chartEntries ts).map (fun entry => capitalize entry.1)
               data := (chartEntries ts).map (fun entry => entry.2) }
    ∧ (∀ c v, (c, v) ∈ chartEntries ts →
        v = ((ts.filter
          (fun u => decide (u.type = "expense" ∧ u.category = c))).map (·.amount)).sum)
    ∧ (∀ c, (∃ v, (c, v) ∈ chartEntries ts) ↔ c ∈ ts.map (·.category))
    ∧ ((chartEntries ts).map Prod.fst).Nodup
    ∧ (chartEntries ts).Pairwise (fun p q => JsNum.le q.2 p.2 = true) := by
  obtain ⟨hnodup, hget⟩ := foldl_chartStep ts hfin
  have hperm := chartEntries_perm ts
  have hvalue : ∀ c v, (c, v) ∈ ts.foldl chartStep [] →
      c ∈ ts.map (·.category) ∧ v = ((ts.filter
          (fun u => decide (u.type = "expense" ∧ u.category = c))).map (·.amount)).sum := by
    intro c v hmem
    have h := CategoryTotals.get?_of_mem _ hnodup c v hmem
    rw [hget] at h
    split_ifs at h with hc
    cases h
    exact ⟨hc, rfl⟩
  refine ⟨rfl, ?_, ?_, ?_, ?_⟩
  · intro c v hmem
    exact (hvalue c v (hperm.subset hmem)).2
  · intro c
    constructor
    · rintro ⟨v, hmem⟩
      exact (hvalue c v (hperm.subset hmem)).1
    · intro hc
      have h := hget c
      rw [if_pos hc] at h
      exact ⟨_, hperm.symm.subset (CategoryTotals.mem_of_get? _ c _ h)⟩
  · exact (hperm.map Prod.fst).nodup_iff.mpr hnodup
  · apply arraySortNumber_descending
    intro p hp
    obtain ⟨c, v⟩ := p
    rw [(hvalue c v hp).2]
    exact expenses_of_category_fin ts c hfin

theorem chartEntries_chartTransactions :
    chartEntries chartTransactions
      = [("rent", .fin 900), ("food", .fin 42), ("salary", .fin 0)] := by
  simp [chartEntries, chartTransactions, chartStep, salaryTransaction, groceriesTransaction,
    rentTransaction, dinnerTransaction, buildTransaction, salaryForm, CategoryTotals.get?,
    CategoryTotals.set, JsNum.truthy, JsNum.zero_eq, JsNum.fin_add_fin, arraySortNumber,
    staysBeforeNumber, JsNum.fin_sub_fin]
  norm_num [JsNum.fin_sub_fin, JsNum.lt]

/-- C22: a category that occurs only on income transactions is reported. On the list made
of one income transaction of category "salary" the chart receives the label "Salary" with
the amount 0, and on the list of one income ("salary") and three expenses ("food", "rent",
"food") it receives the three labels "Rent", "Food" and "Salary" with the amounts 900, 42
and 0, although no expense has the category "salary": the entry of a category is created
for a transaction of any type, before the test on the type. -/
theorem updateChart_reports_income_category :
    updateChart (some emptyChart) [salaryTransaction]
      = some { labels := ["Salary"], data := [0] }
    ∧ updateChart (some emptyChart) chartTransactions
      = some { labels := ["Rent", "Food", "Salary"], data := [.fin 900, .fin 42, .fin 0] }
    ∧ chartTransactions.filter (fun t => decide (t.type = "expense" ∧ t.category = "salary"))
      = [] := by
  refine ⟨by decide, ?_, by decide⟩
  simp only [updateChart, chartEntries_chartTransactions]
  decide

/-! ## The chart and the dashboard agree -/

theorem CategoryTotals.sum_set_of_none (m : CategoryTotals) (key : String) (value : JsNum)
    (h : m.get? key = none) :
    ((m.set key value).map Prod.snd).sum = (m.map Prod.snd).sum + value := by
  induction m with
  | nil => simp [CategoryTotals.set]
  | cons p rest ih =>
    obtain ⟨k, v⟩ := p
    by_cases hk : k = key
    · simp [CategoryTotals.get?, hk] at h
    · simp only [CategoryTotals.get?, hk, if_false] at h
      simp only [CategoryTotals.set, hk, if_false, List.map_cons, List.sum_cons, ih h,
        add_assoc]

theorem CategoryTotals.sum_set_of_some (m : CategoryTotals) (key : String)
    (old change : JsNum) (h : m.get? key = some old) :
    ((m.set key (old + change)).map Prod.snd).sum = (m.map Prod.snd).sum + change := by
  induction m with
  | nil => simp [CategoryTotals.get?] at h
  | cons p rest ih =>
    obtain ⟨k, v⟩ := p
    by_cases hk : k = key
    · simp only [CategoryTotals.get?, hk, if_true, Option.some.injEq] at h
      subst h
      simp only [CategoryTotals.set, hk, if_true, List.map_cons, List.sum_cons]
      rw [add_assoc, add_comm change, ← add_assoc]
    · simp only [CategoryTotals.get?, hk, if_false] at h
      simp only [CategoryTotals.set, hk, if_false, List.map_cons, List.sum_cons, ih h,
        add_assoc]

theorem chartStep_sum (totals : CategoryTotals) (t : Transaction)
    (hnan : ∀ v, totals.get? t.category = some v → v ≠ .nan) :
    ((chartStep totals t).map Prod.snd).sum
      = (totals.map Prod.snd).sum + (if t.type = "expense" then t.amount else 0) := by
  unfold chartStep
  cases h : totals.get? t.category with
  | none =>
    have h0 : ((totals.set t.category 0).map Prod.snd).sum = (totals.map Prod.snd).sum := by
      rw [CategoryTotals.sum_set_of_none _ _ _ h, add_zero]
    have hget : (totals.set t.category 0).get? t.category = some 0 :=
      CategoryTotals.totals_get?_set_self _ _ _
    by_cases hexp : t.type = "expense"
    · simp only [h, hexp, if_true, hget]
      rw [CategoryTotals.sum_set_of_some _ _ _ _ hget, h0]
    · simp only [h, hexp, if_false, h0, add_zero]
  | some v =>
    by_cases htruthy : v.truthy = true
    · by_cases hexp : t.type = "expense"
      · simp only [h, hexp, htruthy, if_true]
        rw [CategoryTotals.sum_set_of_some _ _ _ _ h]
      · simp only [h, hexp, htruthy, if_true, if_false, add_zero]
    · have hv : v = 0 := JsNum.eq_zero_of_falsy v (hnan v h) (by simpa using htruthy)
      subst hv
      have h0 : ((totals.set t.category 0).map Prod.snd).sum = (totals.map Prod.snd).sum := by
        have := CategoryTotals.sum_set_of_some totals t.category 0 0 h
        rwa [add_zero, add_zero] at this
      have hget : (totals.set t.category 0).get? t.category = some 0 :=
        CategoryTotals.totals_get?_set_self _ _ _
      by_cases hexp : t.type = "expense"
      · simp only [h, hexp, htruthy, if_true, if_false, Bool.false_eq_true, hget]
        rw [CategoryTotals.sum_set_of_some _ _ _ _ hget, h0]
      · simp only [h, hexp, htruthy, if_false, Bool.false_eq_true, h0, add_zero]

theorem foldl_chartStep_sum (ts : List Transaction)
    (hfin : ∀ t ∈ ts, ∃ q, t.amount = JsNum.fin q) :
    ((ts.foldl chartStep []).map Prod.snd).sum
      = ((ts.filter (fun t => decide (t.type = "expense"))).map (·.amount)).sum := by
  induction ts using List.reverseRecOn with
  | nil => rfl
  | append_singleton init t ih =>
    have hinit : ∀ u ∈ init, ∃ q, u.amount = JsNum.fin q :=
      fun u hu => hfin u (List.mem_append_left _ hu)
    have hnan : ∀ v, (init.foldl chartStep []).get? t.category = some v → v ≠ .nan := by
      intro v hv
      rw [(foldl_chartStep init hinit).2] at hv
      split_ifs at hv
      obtain ⟨q, hq⟩ := expenses_of_category_fin init t.category hinit
      rw [hq] at hv
      cases hv
      simp
    rw [List.foldl_append, List.foldl_cons, List.foldl_nil, chartStep_sum _ t hnan, ih hinit,
      List.filter_append, List.map_append, List.sum_append]
    by_cases hexp : t.type = "expense"
    · simp [List.filter_cons, hexp]
    · simp [List.filter_cons, hexp]

/-- C28: the chart and the dashboard agree on the expenses. For every stored list whose
types are all 'income' or 'expense' and whose amounts are finite numbers (exact
arithmetic), the amounts that `updateChart` reports, one per category, add up to the
`totalExpenses` of `updateDashboard`. -/
theorem updateChart_sum_eq_totalExpenses (chart : ChartData) (ts : List Transaction)
    (htypes : ∀ t ∈ ts, t.type = "income" ∨ t.type = "expense")
    (hfin : ∀ t ∈ ts, ∃ q, t.amount = JsNum.fin q) :
    ∃ shown, updateChart (some chart) ts = some shown
      ∧ shown.data.sum = (updateDashboard ts).totalExpenses := by
  refine ⟨_, rfl, ?_⟩
  have hperm : ((chartEntries ts).map Prod.snd).Perm ((ts.foldl chartStep []).map Prod.snd) :=
    (chartEntries_perm ts).map Prod.snd
  show ((chartEntries ts).map Prod.snd).sum = _
  rw [hperm.sum_eq, foldl_chartStep_sum ts hfin]
  unfold updateDashboard
  rw [foldl_dashboardStep ts 0 0 htypes]
  simp

theorem updateChart_sum_eq_totalExpenses_witness :
    ∃ shown, updateChart (some emptyChart) chartTransactions = some shown
      ∧ shown.data.sum = (updateDashboard chartTransactions).totalExpenses :=
  updateChart_sum_eq_totalExpenses emptyChart chartTransactions (by decide) (by
    intro t ht
    simp only [chartTransactions, List.mem_cons, List.mem_singleton, List.not_mem_nil,
      or_false] at ht
    rcases ht with rfl | rfl | rfl | rfl
    · exact ⟨1000, rfl⟩
    · exact ⟨8, rfl⟩
    · exact ⟨900, rfl⟩
    · exact ⟨34, rfl⟩)

/-! ## Date keys -/

theorem digitChar_isDigit (k : Nat) (hk : k < 10) : (Nat.digitChar k).isDigit = true := by
  interval_cases k <;> rfl

theorem isDigit_ne_dash (c : Char) (h : c.isDigit = true) : c ≠ '-' := by
  intro hc
  subst hc
  exact absurd h (by decide)

theorem isDigit_not_isWhitespace (c : Char) (h : c.isDigit = true) :
    c.isWhitespace = false := by
  cases hw : c.isWhitespace with
  | false => rfl
  | true =>
    exfalso
    simp only [Char.isWhitespace, Bool.or_eq_true, decide_eq_true_eq] at hw
    rcases hw with ((hc | hc) | hc) | hc <;> subst hc <;> exact absurd h (by decide)

theorem toDigitsCore_isDigit (fuel n : Nat) (ds : List Char)
    (hds : ∀ c ∈ ds, c.isDigit = true) :
    ∀ c ∈ Nat.toDigitsCore 10 fuel n ds, c.isDigit = true := by
  induction fuel generalizing n ds with
  | zero => simpa [Nat.toDigitsCore] using hds
  | succ fuel ih =>
    unfold Nat.toDigitsCore
    have hd : (Nat.digitChar (n % 10)).isDigit = true :=
      digitChar_isDigit _ (Nat.mod_lt _ (by decide))
    have hcons : ∀ c ∈ Nat.digitChar (n % 10) :: ds, c.isDigit = true := by
      intro c hc
      rcases List.mem_cons.mp hc with h | h
      · rw [h]; exact hd
      · exact hds c h
    by_cases h0 : n / 10 = 0
    · simpa only [h0, if_true] using hcons
    · simp only [h0, if_false]
      exact ih _ _ hcons

theorem toDigitsCore_length (fuel n k : Nat) (ds : List Char) (hfuel : n < fuel)
    (hhi : n < 10 ^ (k + 1)) (hlo : k = 0 ∨ 10 ^ k ≤ n) :
    (Nat.toDigitsCore 10 fuel n ds).length = ds.length + k + 1 := by
  induction fuel generalizing n k ds with
  | zero => omega
  | succ fuel ih =>
    unfold Nat.toDigitsCore
    by_cases h0 : n / 10 = 0
    · have hn : n < 10 := by omega
      have hk : k = 0 := by
        rcases hlo with h | h
        · exact h
        · by_contra hne
          have : 10 ^ 1 ≤ 10 ^ k := Nat.pow_le_pow_right (by decide) (by omega)
          omega
      simp [h0, hk]
    · have hn : 10 ≤ n := by omega
      obtain ⟨j, rfl⟩ : ∃ j, k = j + 1 := by
        cases k with
        | zero => simp at hhi; omega
        | succ j => exact ⟨j, rfl⟩
      have hhi' : n / 10 < 10 ^ (j + 1) := by
        rw [pow_succ] at hhi
        omega
      have hlo' : j = 0 ∨ 10 ^ j ≤ n / 10 := by
        rcases hlo with h | h
        · omega
        · right
          rw [pow_succ] at h
          omega
      simp only [h0, if_false]
      rw [ih (n / 10) j _ (by omega) hhi' hlo']
      simp
      omega

theorem toString_nat_data (n : Nat) : (toString n).data = Nat.toDigits 10 n := rfl

theorem toString_int_data (n : Nat) : (toString (n : Int)).data = Nat.toDigits 10 n := rfl

theorem toDigits_isDigit (n : Nat) : ∀ c ∈ Nat.toDigits 10 n, c.isDigit = true :=
  toDigitsCore_isDigit (n + 1) n [] (by simp)

theorem toDigits_value (n : Nat) : digitsValue 0 (Nat.toDigits 10 n) = n := by
  have := digitsValue_toDigitsCore (n + 1) n [] (Nat.lt_succ_self n)
  simpa [Nat.toDigits, digitsValue] using this

theorem toDigits_length (n k : Nat) (hhi : n < 10 ^ (k + 1)) (hlo : k = 0 ∨ 10 ^ k ≤ n) :
    (Nat.toDigits 10 n).length = k + 1 := by
  have := toDigitsCore_length (n + 1) n k [] (Nat.lt_succ_self n) hhi hlo
  simpa [Nat.toDigits] using this

theorem digitsValue_replicate_zero (k : Nat) (ds : List Char) :
    digitsValue 0 (List.replicate k '0' ++ ds) = digitsValue 0 ds := by
  induction k with
  | zero => rfl
  | succ k ih =>
    rw [List.replicate_succ, List.cons_append]
    simpa [digitsValue] using ih

theorem splitOn_of_not_mem (separator : Char) (piece : List Char)
    (h : separator ∉ piece) : splitOn separator piece = [piece] := by
  induction piece with
  | nil => rfl
  | cons c rest ih =>
    have hc : c ≠ separator := fun e => h (e ▸ List.mem_cons_self _ _)
    have hrest : separator ∉ rest := fun e => h (List.mem_cons_of_mem _ e)
    simp [splitOn, hc, ih hrest]

theorem splitOn_append (separator : Char) (piece rest : List Char)
    (h : separator ∉ piece) :
    splitOn separator (piece ++ separator :: rest) = piece :: splitOn separator rest := by
  induction piece with
  | nil => simp [splitOn]
  | cons c more ih =>
    have hc : c ≠ separator := fun e => h (e ▸ List.mem_cons_self _ _)
    have hmore : separator ∉ more := fun e => h (List.mem_cons_of_mem _ e)
    simp [splitOn, hc, ih hmore]

theorem parseInt_digits (digits : List Char) (hne : digits ≠ [])
    (hall : ∀ c ∈ digits, c.isDigit = true) :
    parseInt digits = some (digitsValue 0 digits : Int) := by
  obtain ⟨c, rest, rfl⟩ := List.exists_cons_of_ne_nil hne
  have hc : c.isDigit = true := hall c (List.mem_cons_self _ _)
  have hws : c.isWhitespace = false := isDigit_not_isWhitespace c hc
  have htake : (c :: rest).takeWhile Char.isDigit = c :: rest :=
    List.takeWhile_eq_self_iff.mpr (fun x hx => hall x hx)
  have hminus : c ≠ '-' := fun e => absurd hc (by rw [e]; decide)
  have hplus : c ≠ '+' := fun e => absurd hc (by rw [e]; decide)
  unfold parseInt
  simp [hws, hminus, hplus, htake]

theorem padStart_two_data (text : String) :
    (padStart text 2 '0').data = List.replicate (2 - text.data.length) '0' ++ text.data :=
  rfl

theorem formatDate_data (date : DateFields) :
    (formatDate date).data
      = (toString date.fullYear).data
        ++ '-' :: ((padStart (toString (date.month + 1)) 2 '0').data
        ++ '-' :: (padStart (toString date.date) 2 '0').data) := by
  simp [formatDate, String.data_append]

theorem daysInMonth_le (year month : Int) : daysInMonth year month ≤ 31 := by
  unfold daysInMonth
  split_ifs <;> omega

theorem padded_digits (n : Nat) (hn : n < 100) :
    ∃ c1 c2 : Char, (padStart (toString (n : Int)) 2 '0').data = [c1, c2]
      ∧ c1.isDigit = true ∧ c2.isDigit = true ∧ digitsValue 0 [c1, c2] = n := by
  have hdata : (padStart (toString (n : Int)) 2 '0').data
      = List.replicate (2 - (Nat.toDigits 10 n).length) '0' ++ Nat.toDigits 10 n := rfl
  have hall : ∀ c ∈ (padStart (toString (n : Int)) 2 '0').data, c.isDigit = true := by
    intro c hc
    rw [hdata] at hc
    rcases List.mem_append.mp hc with h | h
    · rw [(List.mem_replicate.mp h).2]
      rfl
    · exact toDigits_isDigit n c h
  have hvalue : digitsValue 0 (padStart (toString (n : Int)) 2 '0').data = n := by
    rw [hdata, digitsValue_replicate_zero, toDigits_value]
  have hlen : (padStart (toString (n : Int)) 2 '0').data.length = 2 := by
    rw [hdata, List.length_append, List.length_replicate]
    by_cases h10 : n < 10
    · rw [toDigits_length n 0 (by simpa using h10) (Or.inl rfl)]
    · rw [toDigits_length n 1 (by simpa using hn) (Or.inr (by simpa using h10))]
  obtain ⟨c1, c2, hlist⟩ := List.length_eq_two.mp hlen
  rw [hlist] at hall hvalue
  exact ⟨c1, c2, hlist, hall c1 (by simp), hall c2 (by simp), hvalue⟩

theorem year_digits (n : Nat) (hlo : 1000 ≤ n) (hhi : n ≤ 9999) :
    ∃ c1 c2 c3 c4 : Char, (toString (n : Int)).data = [c1, c2, c3, c4]
      ∧ c1.isDigit = true ∧ c2.isDigit = true ∧ c3.isDigit = true ∧ c4.isDigit = true
      ∧ digitsValue 0 [c1, c2, c3, c4] = n := by
  have hdata : (toString (n : Int)).data = Nat.toDigits 10 n := rfl
  have hlen : (Nat.toDigits 10 n).length = 4 :=
    toDigits_length n 3 (by norm_num; omega) (Or.inr (by norm_num; omega))
  have hall := toDigits_isDigit n
  have hvalue := toDigits_value n
  rw [hdata]
  match hl : Nat.toDigits 10 n, hlen with
  | [c1, c2, c3, c4], _ =>
    rw [hl] at hall hvalue
    exact ⟨c1, c2, c3, c4, rfl, hall c1 (by simp), hall c2 (by simp), hall c3 (by simp),
      hall c4 (by simp), hvalue⟩

/-- C27: date keys. For every calendar date with a year in 1000..9999 (month index in
0..11, day in 1..the length of the month), `formatDate` returns a string of 10 characters of
the form `YYYY-MM-DD`: four digits, a hyphen, two digits, a hyphen, two digits, which
write the year, the month counted from 1 and the day, padded with zeros. `parseDate` reads
that string back: the three numbers handed to `new Date(year, month - 1, day)` are the
year, the month and the day of the date, so the result is the same local day. -/
theorem parseDate_formatDate (date : DateFields)
    (hyear : 1000 ≤ date.fullYear ∧ date.fullYear ≤ 9999)
    (hmonth : 0 ≤ date.month ∧ date.month ≤ 11)
    (hday : 1 ≤ date.date ∧ date.date ≤ daysInMonth date.fullYear (date.month + 1)) :
    (formatDate date).length = 10
    ∧ (∃ y1 y2 y3 y4 m1 m2 d1 d2 : Char,
        (formatDate date).data = [y1, y2, y3, y4, '-', m1, m2, '-', d1, d2]
        ∧ (∀ c ∈ [y1, y2, y3, y4, m1, m2, d1, d2], c.isDigit = true)
        ∧ (digitsValue 0 [y1, y2, y3, y4] : Int) = date.fullYear
        ∧ (digitsValue 0 [m1, m2] : Int) = date.month + 1
        ∧ (digitsValue 0 [d1, d2] : Int) = date.date)
    ∧ parseIsoDate (formatDate date) = some (date.fullYear, date.month + 1, date.date)
    ∧ parseDateParts (formatDate date) = some (date.fullYear, date.month + 1, date.date)
    ∧ parseDate (formatDate date) = some date.dayNumber := by
  obtain ⟨year, month, day⟩ := date
  simp only at hyear hmonth hday
  obtain ⟨yn, rfl⟩ := Int.eq_ofNat_of_zero_le (by omega : 0 ≤ year)
  obtain ⟨mn, rfl⟩ := Int.eq_ofNat_of_zero_le (by omega : 0 ≤ month)
  obtain ⟨dn, rfl⟩ := Int.eq_ofNat_of_zero_le (by omega : 0 ≤ day)
  have hd31 := daysInMonth_le (yn : Int) ((mn : Int) + 1)
  obtain ⟨y1, y2, y3, y4, hy, hy1, hy2, hy3, hy4, hyv⟩ :=
    year_digits yn (by omega) (by omega)
  obtain ⟨m1, m2, hm, hm1, hm2, hmv⟩ := padded_digits (mn + 1) (by omega)
  obtain ⟨d1, d2, hd, hd1, hd2, hdv⟩ := padded_digits dn (by omega)
  have hcast : ((mn : Int) + 1) = ((mn + 1 : Nat) : Int) := by push_cast; rfl
  have hdata : (formatDate ⟨(yn : Int), (mn : Int), (dn : Int)⟩).data
      = [y1, y2, y3, y4, '-', m1, m2, '-', d1, d2] := by
    rw [formatDate_data]
    simp only [hcast]
    rw [hy, hm, hd]
    rfl
  have hsplit : splitOn '-' [y1, y2, y3, y4, '-', m1, m2, '-', d1, d2]
      = [[y1, y2, y3, y4], [m1, m2], [d1, d2]] := by
    have h1 : '-' ∉ [y1, y2, y3, y4] := by
      intro h
      simp only [List.mem_cons, List.mem_singleton, List.not_mem_nil, or_false] at h
      rcases h with h | h | h | h
      · exact isDigit_ne_dash y1 hy1 h.symm
      · exact isDigit_ne_dash y2 hy2 h.symm
      · exact isDigit_ne_dash y3 hy3 h.symm
      · exact isDigit_ne_dash y4 hy4 h.symm
    have h2 : '-' ∉ [m1, m2] := by
      intro h
      simp only [List.mem_cons, List.mem_singleton, List.not_mem_nil, or_false] at h
      rcases h with h | h
      · exact isDigit_ne_dash m1 hm1 h.symm
      · exact isDigit_ne_dash m2 hm2 h.symm
    have h3 : '-' ∉ [d1, d2] := by
      intro h
      simp only [List.mem_cons, List.mem_singleton, List.not_mem_nil, or_false] at h
      rcases h with h | h
      · exact isDigit_ne_dash d1 hd1 h.symm
      · exact isDigit_ne_dash d2 hd2 h.symm
    have e1 := splitOn_append '-' [y1, y2, y3, y4] ([m1, m2] ++ '-' :: [d1, d2]) h1
    have e2 := splitOn_append '-' [m1, m2] [d1, d2] h2
    have e3 := splitOn_of_not_mem '-' [d1, d2] h3
    rw [e2, e3] at e1
    exact e1
  have hpy : parseInt [y1, y2, y3, y4] = some (yn : Int) := by
    rw [parseInt_digits _ (by simp) (by simp [hy1, hy2, hy3, hy4]), hyv]
  have hpm : parseInt [m1, m2] = some ((mn : Int) + 1) := by
    rw [parseInt_digits _ (by simp) (by simp [hm1, hm2]), hmv, hcast]
  have hpd : parseInt [d1, d2] = some (dn : Int) := by
    rw [parseInt_digits _ (by simp) (by simp [hd1, hd2]), hdv]
  have hparts : parseDateParts (formatDate ⟨(yn : Int), (mn : Int), (dn : Int)⟩)
      = some ((yn : Int), (mn : Int) + 1, (dn : Int)) := by
    unfold parseDateParts
    rw [hdata, hsplit]
    simp [hpy, hpm, hpd]
  refine ⟨?_, ⟨y1, y2, y3, y4, m1, m2, d1, d2, hdata, ?_, ?_, ?_, ?_⟩, ?_, hparts, ?_⟩
  · show (formatDate ⟨(yn : Int), (mn : Int), (dn : Int)⟩).data.length = 10
    rw [hdata]
    rfl
  · simp [hy1, hy2, hy3, hy4, hm1, hm2, hd1, hd2]
  · rw [hyv]
  · rw [hmv, hcast]
  · rw [hdv]
  · unfold parseIsoDate
    rw [hdata]
    have q1 : parseDigits [y1, y2, y3, y4] = some yn := by
      simp [parseDigits, hy1, hy2, hy3, hy4, hyv]
    have q2 : parseDigits [m1, m2] = some (mn + 1) := by
      simp [parseDigits, hm1, hm2, hmv]
    have q3 : parseDigits [d1, d2] = some dn := by
      simp [parseDigits, hd1, hd2, hdv]
    simp only [q1, q2, q3]
    have hcond : 1 ≤ mn + 1 ∧ mn + 1 ≤ 12 ∧ 1 ≤ dn
        ∧ (dn : Int) ≤ daysInMonth (yn : Int) ((mn + 1 : Nat) : Int) := by
      rw [← hcast]
      exact ⟨by omega, by omega, by omega, hday.2⟩
    rw [if_pos hcond, hcast]
  · unfold parseDate
    rw [hparts]
    simp [DateFields.dayNumber]

theorem parseDate_formatDate_witness :
    (formatDate ⟨2024, 2, 5⟩).length = 10
    ∧ (∃ y1 y2 y3 y4 m1 m2 d1 d2 : Char,
        (formatDate ⟨2024, 2, 5⟩).data = [y1, y2, y3, y4, '-', m1, m2, '-', d1, d2]
        ∧ (∀ c ∈ [y1, y2, y3, y4, m1, m2, d1, d2], c.isDigit = true)
        ∧ (digitsValue 0 [y1, y2, y3, y4] : Int) = (⟨2024, 2, 5⟩ : DateFields).fullYear
        ∧ (digitsValue 0 [m1, m2] : Int) = (⟨2024, 2, 5⟩ : DateFields).month + 1
        ∧ (digitsValue 0 [d1, d2] : Int) = (⟨2024, 2, 5⟩ : DateFields).date)
    ∧ parseIsoDate (formatDate ⟨2024, 2, 5⟩)
        = some ((⟨2024, 2, 5⟩ : DateFields).fullYear, (⟨2024, 2, 5⟩ : DateFields).month + 1,
            (⟨2024, 2, 5⟩ : DateFields).date)
    ∧ parseDateParts (formatDate ⟨2024, 2, 5⟩)
        = some ((⟨2024, 2, 5⟩ : DateFields).fullYear, (⟨2024, 2, 5⟩ : DateFields).month + 1,
            (⟨2024, 2, 5⟩ : DateFields).date)
    ∧ parseDate (formatDate ⟨2024, 2, 5⟩) = some (⟨2024, 2, 5⟩ : DateFields).dayNumber :=
  parseDate_formatDate ⟨2024, 2, 5⟩ ⟨by decide, by decide⟩ ⟨by decide, by decide⟩
    ⟨by decide, by decide⟩

/-! ## The form is open on a stored record -/

theorem addRecurringTransactionToCalendar_currentTransaction (s : AppState)
    (t : Transaction) :
    (addRecurringTransactionToCalendar s t).currentTransaction = s.currentTransaction := by
  unfold addRecurringTransactionToCalendar
  split
  · rfl
  · split <;> rfl

theorem handleEventSubmit_currentTransaction (s : AppState) (form : EventForm) (now : Nat) :
    (handleEventSubmit s form now).currentTransaction = s.currentTransaction := by
  unfold handleEventSubmit
  split
  · rfl
  · split
    · rfl
    · split <;> rfl

theorem step_current_stored (s : AppState) (action : Action)
    (h : ∀ c, s.currentTransaction = some c → c.id ∈ s.transactions.map (·.id)) :
    ∀ c, (step s action).currentTransaction = some c →
      c.id ∈ (step s action).transactions.map (·.id) := by
  cases action with
  | openModal index =>
    cases index with
    | none =>
      intro c hc
      simp [step, openTransactionModal] at hc
    | some index =>
      intro c hc
      simp only [step] at hc ⊢
      cases hget : s.transactions[index]? with
      | none =>
        simp only [hget] at hc ⊢
        exact h c hc
      | some t =>
        simp only [hget, openTransactionModal] at hc ⊢
        have hct : t = c := by simpa using hc
        subst hct
        exact List.mem_map.mpr ⟨t, List.getElem?_mem hget, rfl⟩
  | closeModal =>
    intro c hc
    simp [step, closeTransactionModal] at hc
  | submit form now nowIso =>
    intro c hc
    simp only [step] at hc ⊢
    unfold handleTransactionSubmit at hc ⊢
    by_cases hinv : formInvalid form = true
    · simp only [hinv, if_true] at hc ⊢
      exact h c hc
    · simp only [hinv, if_false, Bool.false_eq_true] at hc ⊢
      cases hcur : s.currentTransaction with
      | none =>
        simp only [hcur] at hc
        exfalso
        split at hc
        · rw [addRecurringTransactionToCalendar_currentTransaction] at hc
          simp [hcur] at hc
        · simp [hcur] at hc
      | some current =>
        simp only [hcur] at hc ⊢
        cases hfind : findIndex (fun t => decide (t.id = current.id)) s.transactions with
        | none =>
          simp only [hfind] at hc ⊢
          exact h c hc
        | some index =>
          simp only [hfind] at hc ⊢
          obtain ⟨x, hx, hpx⟩ := findIndex_some _ _ _ hfind
          have hxid : x.id = current.id := by simpa using hpx
          rw [map_id_set s.transactions index x _ hx
            (show (buildTransaction (some current) form now nowIso).id = x.id from
              hxid.symm)]
          exact h c (hcur.trans hc)
  | remove confirmed =>
    intro c hc
    simp only [step] at hc ⊢
    unfold deleteTransaction at hc ⊢
    cases hcur : s.currentTransaction with
    | none =>
      simp only [hcur] at hc ⊢
      cases hc
    | some current =>
      simp only [hcur] at hc ⊢
      by_cases hconf : confirmed = true
      · simp only [hconf, Bool.not_true, Bool.false_eq_true, if_false] at hc ⊢
        cases hfind : findIndex (fun t => decide (t.id = current.id)) s.transactions with
        | none =>
          simp only [hfind] at hc ⊢
          exact h c hc
        | some index =>
          simp only [hfind, closeTransactionModal] at hc
          cases hc
      · have hconf' : confirmed = false := by simpa using hconf
        simp only [hconf', Bool.not_false, if_true] at hc ⊢
        exact h c hc
  | addEvent form now =>
    intro c hc
    simp only [step] at hc ⊢
    rw [handleEventSubmit_currentTransaction] at hc
    rw [handleEventSubmit_transactions]
    exact h c hc

theorem run_current_stored (s : AppState) (actions : List Action)
    (h : ∀ c, s.currentTransaction = some c → c.id ∈ s.transactions.map (·.id)) :
    ∀ c, (run s actions).currentTransaction = some c →
      c.id ∈ (run s actions).transactions.map (·.id) := by
  induction actions generalizing s with
  | nil => exact h
  | cons action rest ih => exact ih (step s action) (step_current_stored s action h)

/-- C6, as amended: an edit submission that passes validation while the id of the edited
transaction matches no stored transaction changes nothing (the transaction list, the
calendar and the form are as before), and it is reported like every edit, with the text
"Transaction updated successfully!": the edit path has no not-found error. The case does
not arise in the states that the application reaches by its own actions from a state with
no form open: there the form is always open on a record whose id is stored. -/
theorem handleTransactionSubmit_edit_unknown_id_silent (s : AppState)
    (form : TransactionForm) (now : Nat) (nowIso : String) (c : Transaction)
    (hcur : s.currentTransaction = some c)
    (hvalid : form.date ≠ "" ∧ JsNum.lt (.fin 0) form.amount = true)
    (hnone : ∀ t ∈ s.transactions, t.id ≠ c.id) :
    handleTransactionSubmit s form now nowIso
      = (s, .feedback "Transaction updated successfully!")
    ∧ ∀ (start : AppState) (actions : List Action), start.currentTransaction = none →
        ∀ current, (run start actions).currentTransaction = some current →
          ∃ t ∈ (run start actions).transactions, t.id = current.id := by
  refine ⟨handleTransactionSubmit_edit_unknown_id s form now nowIso c hcur
    (formInvalid_of_valid form hvalid.1 hvalid.2) hnone, ?_⟩
  intro start actions hstart current hcurrent
  have hmem := run_current_stored start actions
    (fun c hc => by rw [hstart] at hc; cases hc) current hcurrent
  obtain ⟨t, ht, hid⟩ := List.mem_map.mp hmem
  exact ⟨t, ht, hid⟩

theorem handleTransactionSubmit_edit_unknown_id_silent_witness :
    handleTransactionSubmit staleState plainSalaryForm 99 "2024-03-16T08:00:00.000Z"
      = (staleState, .feedback "Transaction updated successfully!")
    ∧ ∀ (start : AppState) (actions : List Action), start.currentTransaction = none →
        ∀ current, (run start actions).currentTransaction = some current →
          ∃ t ∈ (run start actions).transactions, t.id = current.id :=
  handleTransactionSubmit_edit_unknown_id_silent staleState plainSalaryForm 99
    "2024-03-16T08:00:00.000Z" foodTransaction rfl
    ⟨by decide, by simp [plainSalaryForm, salaryForm, JsNum.lt]⟩ (by decide)

/-! ## Double arithmetic: evaluation -/

theorem roundMagnitude_of (n d m : Nat) (e : Int) (he : doubleExponent n d = e)
    (hm : doubleMantissa n d = m) (hfin : ¬ (972 ≤ e ∨ (e = 971 ∧ 2 ^ 53 ≤ m))) :
    roundMagnitude n d = .fin ((m : ℚ) * (2 : ℚ) ^ e) := by
  unfold roundMagnitude
  simp only [he, hm, hfin, if_false]

theorem roundDouble_natCast (n : Nat) (hn : 0 < n) :
    roundDouble (n : ℚ) = roundMagnitude n 1 := by
  have h0 : (n : ℚ) ≠ 0 := by exact_mod_cast hn.ne'
  have hpos : (0 : ℚ) < n := by exact_mod_cast hn
  simp [roundDouble, h0, hpos]

theorem addDouble_big_one :
    JsNum.addDouble (.fin 10000000000000000) (.fin 1) = .fin 10000000000000000 := by
  have hsum : (JsNum.fin 10000000000000000 + JsNum.fin 1 : JsNum)
      = .fin ((10000000000000001 : Nat) : ℚ) := by
    rw [JsNum.fin_add_fin]
    norm_num
  unfold JsNum.addDouble
  rw [hsum]
  simp only [JsNum.toDouble]
  rw [roundDouble_natCast _ (by decide),
    roundMagnitude_of 10000000000000001 1 5000000000000000 1 (by decide) (by decide)
      (by decide)]
  norm_num

theorem addDouble_zero_big :
    JsNum.addDouble 0 (.fin 10000000000000000) = .fin 10000000000000000 := by
  have hsum : ((0 : JsNum) + JsNum.fin 10000000000000000 : JsNum)
      = .fin ((10000000000000000 : Nat) : ℚ) := by
    rw [JsNum.zero_eq, JsNum.fin_add_fin]
    norm_num
  unfold JsNum.addDouble
  rw [hsum]
  simp only [JsNum.toDouble]
  rw [roundDouble_natCast _ (by decide),
    roundMagnitude_of 10000000000000000 1 5000000000000000 1 (by decide) (by decide)
      (by decide)]
  norm_num

theorem roundDouble_zero : roundDouble 0 = .fin 0 := by
  simp [roundDouble]

theorem roundDouble_div (n d : Nat) (hn : 0 < n) (hd : 0 < d) (hcop : Nat.Coprime n d) :
    roundDouble ((n : ℚ) / (d : ℚ)) = roundMagnitude n d := by
  have hnum : ((n : ℚ) / (d : ℚ)).num = n := by
    have := Rat.num_div_eq_of_coprime (a := (n : ℤ)) (b := (d : ℤ)) (by exact_mod_cast hd)
      (by simpa using hcop)
    simpa using this
  have hden : ((n : ℚ) / (d : ℚ)).den = d := by
    have := Rat.den_div_eq_of_coprime (a := (n : ℤ)) (b := (d : ℤ)) (by exact_mod_cast hd)
      (by simpa using hcop)
    simpa using this
  have hpos : (0 : ℚ) < (n : ℚ) / (d : ℚ) := by positivity
  unfold roundDouble
  rw [if_neg hpos.ne', if_pos hpos, hnum, hden]
  rfl

theorem roundDouble_neg_div (n d : Nat) (hn : 0 < n) (hd : 0 < d) (hcop : Nat.Coprime n d) :
    roundDouble (-((n : ℚ) / (d : ℚ))) = JsNum.neg (roundMagnitude n d) := by
  have hnum : (-((n : ℚ) / (d : ℚ))).num = -(n : ℤ) := by
    have := Rat.num_div_eq_of_coprime (a := (n : ℤ)) (b := (d : ℤ)) (by exact_mod_cast hd)
      (by simpa using hcop)
    simp only [Rat.neg_num]
    simpa using this
  have hden : (-((n : ℚ) / (d : ℚ))).den = d := by
    have := Rat.den_div_eq_of_coprime (a := (n : ℤ)) (b := (d : ℤ)) (by exact_mod_cast hd)
      (by simpa using hcop)
    simp only [Rat.neg_den]
    simpa using this
  have hpos : (0 : ℚ) < (n : ℚ) / (d : ℚ) := by positivity
  have hneg : -((n : ℚ) / (d : ℚ)) < 0 := by linarith
  unfold roundDouble
  rw [if_neg hneg.ne, if_neg (not_lt.mpr hneg.le), hnum, hden]
  simp

theorem addDouble_zero_food : JsNum.addDouble 0 (.fin 42.5) = .fin 42.5 := by
  have hsum : ((0 : JsNum) + JsNum.fin 42.5 : JsNum) = .fin (((85 : Nat) : ℚ) / ((2 : Nat) : ℚ)) := by
    rw [JsNum.zero_eq, JsNum.fin_add_fin]
    norm_num
  unfold JsNum.addDouble
  rw [hsum]
  simp only [JsNum.toDouble]
  rw [roundDouble_div 85 2 (by decide) (by decide) (by decide),
    roundMagnitude_of 85 2 5981343255101440 (-47) (by decide) (by decide) (by decide)]
  norm_num

theorem subDouble_zero_food : JsNum.subDouble 0 (.fin 42.5) = .fin (-42.5) := by
  have hsub : ((0 : JsNum) - JsNum.fin 42.5 : JsNum)
      = .fin (-(((85 : Nat) : ℚ) / ((2 : Nat) : ℚ))) := by
    rw [JsNum.zero_eq, JsNum.fin_sub_fin]
    norm_num
  unfold JsNum.subDouble
  rw [hsub]
  simp only [JsNum.toDouble]
  rw [roundDouble_neg_div 85 2 (by decide) (by decide) (by decide),
    roundMagnitude_of 85 2 5981343255101440 (-47) (by decide) (by decide) (by decide)]
  simp only [JsNum.neg]
  norm_num

/-! ## Dashboard totals in double arithmetic -/

theorem foldl_dashboardStepDouble (ts : List Transaction) (a b : JsNum)
    (h : ∀ t ∈ ts, t.type = "income" ∨ t.type = "expense") :
    ts.foldl dashboardStepDouble (a, b)
      = (((ts.filter (fun t => decide (t.type = "income"))).map (·.amount)).foldl
            JsNum.addDouble a,
         ((ts.filter (fun t => decide (t.type = "expense"))).map (·.amount)).foldl
            JsNum.addDouble b) := by
  induction ts generalizing a b with
  | nil => rfl
  | cons t rest ih =>
    have hrest : ∀ u ∈ rest, u.type = "income" ∨ u.type = "expense" :=
      fun u hu => h u (List.mem_cons_of_mem t hu)
    rw [List.foldl_cons, ih _ _ hrest]
    rcases h t (List.mem_cons_self t rest) with ht | ht
    · have hne : t.type ≠ "expense" := by rw [ht]; decide
      simp [dashboardStepDouble, ht, List.filter_cons]
    · have hne : t.type ≠ "income" := by rw [ht]; decide
      simp [dashboardStepDouble, ht, hne, List.filter_cons]

theorem subDouble_zero_zero : JsNum.subDouble 0 0 = 0 := by
  show JsNum.toDouble (JsNum.fin 0 - JsNum.fin 0) = JsNum.fin 0
  rw [JsNum.fin_sub_fin]
  simp [JsNum.toDouble, roundDouble]

/-- The claim C3 fails in the arithmetic of the program: on the list of two incomes, one of
ten quadrillion (1e16) and one of 1, the sum of the amounts is 10000000000000001, and the
dashboard computation gives totalIncome 10000000000000000, because the second addition
rounds to the nearest double. -/
theorem updateDashboardDouble_total_is_rounded :
    (∀ t ∈ [largeIncome, unitIncome], t.type = "income" ∨ t.type = "expense")
    ∧ (([largeIncome, unitIncome].filter
          (fun t => decide (t.type = "income"))).map (·.amount)).sum
        = .fin 10000000000000001
    ∧ (updateDashboardDouble [largeIncome, unitIncome]).totalIncome
        = .fin 10000000000000000
    ∧ (updateDashboardDouble [largeIncome, unitIncome]).totalIncome
        ≠ (([largeIncome, unitIncome].filter
          (fun t => decide (t.type = "income"))).map (·.amount)).sum := by
  have hsum : (([largeIncome, unitIncome].filter
      (fun t => decide (t.type = "income"))).map (·.amount)).sum
        = .fin 10000000000000001 := by
    simp only [largeIncome, unitIncome, salaryTransaction, buildTransaction, salaryForm,
      List.filter, decide_True, List.map, List.sum_cons, List.sum_nil]
    rw [add_zero, JsNum.fin_add_fin]
    norm_num
  have htotal : (updateDashboardDouble [largeIncome, unitIncome]).totalIncome
      = .fin 10000000000000000 := by
    simp only [updateDashboardDouble, List.foldl, dashboardStepDouble, largeIncome,
      unitIncome, salaryTransaction, buildTransaction, salaryForm, if_true]
    rw [addDouble_zero_big, addDouble_big_one]
  refine ⟨by decide, hsum, htotal, ?_⟩
  rw [hsum, htotal]
  intro h
  injection h with h
  norm_num at h

/-- C3, as amended: on a transaction list whose types are all "income" or "expense", the
dashboard computation gives as totalIncome the result of adding the amounts of the income
transactions to 0 one after the other, in the order of the list, every addition rounded
to the nearest double; as totalExpenses the same for the expense transactions; and as
balance the rounded difference of the two. On the empty list the three figures are 0. In
exact arithmetic, where no operation rounds, totalIncome and totalExpenses are the sums of
the amounts and balance is their difference. -/
theorem updateDashboardDouble_totals (ts : List Transaction)
    (h : ∀ t ∈ ts, t.type = "income" ∨ t.type = "expense") :
    (updateDashboardDouble ts).totalIncome
        = ((ts.filter (fun t => decide (t.type = "income"))).map (·.amount)).foldl
            JsNum.addDouble 0
    ∧ (updateDashboardDouble ts).totalExpenses
        = ((ts.filter (fun t => decide (t.type = "expense"))).map (·.amount)).foldl
            JsNum.addDouble 0
    ∧ (updateDashboardDouble ts).balance
        = JsNum.subDouble (updateDashboardDouble ts).totalIncome
            (updateDashboardDouble ts).totalExpenses
    ∧ updateDashboardDouble [] = { totalIncome := 0, totalExpenses := 0, balance := 0 }
    ∧ (updateDashboard ts).totalIncome
        = ((ts.filter (fun t => decide (t.type = "income"))).map (·.amount)).sum
    ∧ (updateDashboard ts).totalExpenses
        = ((ts.filter (fun t => decide (t.type = "expense"))).map (·.amount)).sum
    ∧ (updateDashboard ts).balance
        = (updateDashboard ts).totalIncome - (updateDashboard ts).totalExpenses := by
  have hfold := foldl_dashboardStepDouble ts 0 0 h
  have hexact := foldl_dashboardStep ts 0 0 h
  refine ⟨?_, ?_, rfl, ?_, ?_, ?_, rfl⟩
  · unfold updateDashboardDouble
    rw [hfold]
  · unfold updateDashboardDouble
    rw [hfold]
  · show DashboardTotals.mk 0 0 (JsNum.subDouble 0 0) = ⟨0, 0, 0⟩
    rw [subDouble_zero_zero]
  · unfold updateDashboard
    rw [hexact]
    simp
  · unfold updateDashboard
    rw [hexact]
    simp

theorem updateDashboardDouble_totals_witness :
    (updateDashboardDouble [largeIncome, unitIncome, foodTransaction]).totalIncome
        = (([largeIncome, unitIncome, foodTransaction].filter
            (fun t => decide (t.type = "income"))).map (·.amount)).foldl JsNum.addDouble 0
    ∧ (updateDashboardDouble [largeIncome, unitIncome, foodTransaction]).totalExpenses
        = (([largeIncome, unitIncome, foodTransaction].filter
            (fun t => decide (t.type = "expense"))).map (·.amount)).foldl JsNum.addDouble 0
    ∧ (updateDashboardDouble [largeIncome, unitIncome, foodTransaction]).balance
        = JsNum.subDouble
            (updateDashboardDouble [largeIncome, unitIncome, foodTransaction]).totalIncome
            (updateDashboardDouble [largeIncome, unitIncome, foodTransaction]).totalExpenses
    ∧ updateDashboardDouble [] = { totalIncome := 0, totalExpenses := 0, balance := 0 }
    ∧ (updateDashboard [largeIncome, unitIncome, foodTransaction]).totalIncome
        = (([largeIncome, unitIncome, foodTransaction].filter
            (fun t => decide (t.type = "income"))).map (·.amount)).sum
    ∧ (updateDashboard [largeIncome, unitIncome, foodTransaction]).totalExpenses
        = (([largeIncome, unitIncome, foodTransaction].filter
            (fun t => decide (t.type = "expense"))).map (·.amount)).sum
    ∧ (updateDashboard [largeIncome, unitIncome, foodTransaction]).balance
        = (updateDashboard [largeIncome, unitIncome, foodTransaction]).totalIncome
          - (updateDashboard [largeIncome, unitIncome, foodTransaction]).totalExpenses :=
  updateDashboardDouble_totals [largeIncome, unitIncome, foodTransaction] (by decide)

/-- The claim C4 fails in the arithmetic of the program: with one stored income of ten
quadrillion (1e16), a valid new income of 1 is added; totalIncome is 10000000000000000
before and 10000000000000000 after, so it has not grown by the amount, the old total plus
the amount being 10000000000000001. -/
theorem updateDashboardDouble_after_add_total_stays :
    largeLedgerState.currentTransaction = none
    ∧ unitIncomeForm.date ≠ ""
    ∧ JsNum.lt (.fin 0) unitIncomeForm.amount = true
    ∧ unitIncomeForm.type = "income"
    ∧ (updateDashboardDouble largeLedgerState.transactions).totalIncome
        = .fin 10000000000000000
    ∧ (updateDashboardDouble (handleTransactionSubmit largeLedgerState unitIncomeForm 21
        "2024-03-01T09:00:00.000Z").1.transactions).totalIncome = .fin 10000000000000000
    ∧ (updateDashboardDouble largeLedgerState.transactions).totalIncome
        + unitIncomeForm.amount = .fin 10000000000000001 := by
  have hbefore : (updateDashboardDouble largeLedgerState.transactions).totalIncome
      = .fin 10000000000000000 := by
    simp only [updateDashboardDouble, largeLedgerState, emptyState, List.foldl,
      dashboardStepDouble, largeIncome, salaryTransaction, buildTransaction, salaryForm,
      if_true]
    rw [addDouble_zero_big]
  have hvalid : formInvalid unitIncomeForm = false :=
    formInvalid_of_valid unitIncomeForm (by decide)
      (by simp [unitIncomeForm, salaryForm, JsNum.lt])
  refine ⟨rfl, by decide, by simp [unitIncomeForm, salaryForm, JsNum.lt], rfl, hbefore,
    ?_, ?_⟩
  · rw [handleTransactionSubmit_new_transactions largeLedgerState unitIncomeForm 21 _ rfl
      hvalid]
    simp only [updateDashboardDouble, largeLedgerState, emptyState, List.cons_append,
      List.nil_append, List.foldl, dashboardStepDouble, largeIncome, salaryTransaction,
      buildTransaction, salaryForm, unitIncomeForm, if_true]
    rw [addDouble_zero_big, addDouble_big_one]
  · rw [hbefore]
    show JsNum.fin 10000000000000000 + JsNum.fin 1 = _
    rw [JsNum.fin_add_fin]
    norm_num

/-- C4, as amended: after a valid new transaction (amount above zero) is added, the
dashboard totals differ from the totals before only in the bucket of the transaction, and
the new total of that bucket is the old total plus the amount, rounded to the nearest
double: for type "income" totalIncome becomes the rounded sum of the old totalIncome and
the amount and totalExpenses is the same, for type "expense" totalExpenses becomes the
rounded sum of the old totalExpenses and the amount and totalIncome is the same. In exact
arithmetic, where no operation rounds, the total of the bucket grows by exactly the
amount. -/
theorem updateDashboardDouble_after_add (s : AppState) (form : TransactionForm)
    (now : Nat) (nowIso : String) (hnew : s.currentTransaction = none)
    (hdate : form.date ≠ "") (hpos : JsNum.lt (.fin 0) form.amount = true) :
    (form.type = "income" →
      (updateDashboardDouble
          (handleTransactionSubmit s form now nowIso).1.transactions).totalIncome
        = JsNum.addDouble (updateDashboardDouble s.transactions).totalIncome form.amount
      ∧ (updateDashboardDouble
          (handleTransactionSubmit s form now nowIso).1.transactions).totalExpenses
        = (updateDashboardDouble s.transactions).totalExpenses
      ∧ (updateDashboard (handleTransactionSubmit s form now nowIso).1.transactions).totalIncome
        = (updateDashboard s.transactions).totalIncome + form.amount
      ∧ (updateDashboard
          (handleTransactionSubmit s form now nowIso).1.transactions).totalExpenses
        = (updateDashboard s.transactions).totalExpenses)
    ∧ (form.type = "expense" →
      (updateDashboardDouble
          (handleTransactionSubmit s form now nowIso).1.transactions).totalExpenses
        = JsNum.addDouble (updateDashboardDouble s.transactions).totalExpenses form.amount
      ∧ (updateDashboardDouble
          (handleTransactionSubmit s form now nowIso).1.transactions).totalIncome
        = (updateDashboardDouble s.transactions).totalIncome
      ∧ (updateDashboard
          (handleTransactionSubmit s form now nowIso).1.transactions).totalExpenses
        = (updateDashboard s.transactions).totalExpenses + form.amount
      ∧ (updateDashboard (handleTransactionSubmit s form now nowIso).1.transactions).totalIncome
        = (updateDashboard s.transactions).totalIncome) := by
  have happ := handleTransactionSubmit_new_transactions s form now nowIso hnew
    (formInvalid_of_valid form hdate hpos)
  rw [happ]
  constructor
  · intro ht
    simp [updateDashboardDouble, updateDashboard, List.foldl_append, dashboardStepDouble,
      dashboardStep, buildTransaction, ht]
  · intro ht
    have hne : form.type ≠ "income" := by rw [ht]; decide
    simp [updateDashboardDouble, updateDashboard, List.foldl_append, dashboardStepDouble,
      dashboardStep, buildTransaction, hne]

theorem updateDashboardDouble_after_add_witness :
    (emptyState.currentTransaction = none ∧ foodExpenseForm.date ≠ ""
      ∧ JsNum.lt (.fin 0) foodExpenseForm.amount = true ∧ foodExpenseForm.type = "expense")
    ∧ ((updateDashboardDouble (handleTransactionSubmit emptyState foodExpenseForm 7
          "2024-03-15T12:00:00.000Z").1.transactions).totalExpenses
          = JsNum.addDouble (updateDashboardDouble emptyState.transactions).totalExpenses
              foodExpenseForm.amount
      ∧ (updateDashboardDouble (handleTransactionSubmit emptyState foodExpenseForm 7
          "2024-03-15T12:00:00.000Z").1.transactions).totalIncome
          = (updateDashboardDouble emptyState.transactions).totalIncome
      ∧ (updateDashboard (handleTransactionSubmit emptyState foodExpenseForm 7
          "2024-03-15T12:00:00.000Z").1.transactions).totalExpenses
          = (updateDashboard emptyState.transactions).totalExpenses + foodExpenseForm.amount
      ∧ (updateDashboard (handleTransactionSubmit emptyState foodExpenseForm 7
          "2024-03-15T12:00:00.000Z").1.transactions).totalIncome
          = (updateDashboard emptyState.transactions).totalIncome)
    ∧ updateDashboardDouble (handleTransactionSubmit emptyState foodExpenseForm 7
          "2024-03-15T12:00:00.000Z").1.transactions
        = { totalIncome := .fin 0, totalExpenses := .fin 42.5, balance := .fin (-42.5) } :=
  ⟨⟨rfl, by decide, by norm_num [foodExpenseForm, JsNum.lt], rfl⟩,
   (updateDashboardDouble_after_add emptyState foodExpenseForm 7 "2024-03-15T12:00:00.000Z"
     rfl (by decide) (by norm_num [foodExpenseForm, JsNum.lt])).2 rfl,
   by
    rw [handleTransactionSubmit_new_transactions emptyState foodExpenseForm 7 _ rfl
      (formInvalid_of_valid _ (by decide) (by norm_num [foodExpenseForm, JsNum.lt]))]
    have hne : ("expense" : String) ≠ "income" := by decide
    simp only [emptyState, List.nil_append, updateDashboardDouble, List.foldl,
      dashboardStepDouble, buildTransaction, foodExpenseForm, hne, if_false]
    rw [addDouble_zero_food, subDouble_zero_food]
    rfl⟩

/-! ## Double arithmetic: the doubles are a grid -/

theorem bitLengthCore_zero (fuel : Nat) : bitLengthCore fuel 0 = 0 := by
  cases fuel <;> simp [bitLengthCore]

theorem bitLengthCore_spec (fuel n : Nat) (h : n ≤ fuel) :
    n < 2 ^ bitLengthCore fuel n ∧ (0 < n → 2 ^ (bitLengthCore fuel n - 1) ≤ n) := by
  induction fuel generalizing n with
  | zero =>
    have hn : n = 0 := by omega
    subst hn
    simp [bitLengthCore]
  | succ fuel ih =>
    by_cases hn : n = 0
    · subst hn
      simp [bitLengthCore]
    · obtain ⟨hlt, hle⟩ := ih (n / 2) (by omega)
      have hb : bitLengthCore (fuel + 1) n = bitLengthCore fuel (n / 2) + 1 := by
        simp [bitLengthCore, hn]
      rw [hb]
      refine ⟨?_, fun _ => ?_⟩
      · rw [pow_succ]
        omega
      · rw [Nat.add_sub_cancel]
        by_cases h2 : n / 2 = 0
        · rw [h2, bitLengthCore_zero]
          simp
          omega
        · have hpos : 0 < n / 2 := Nat.pos_of_ne_zero h2
          have hle' := hle hpos
          have hb1 : 1 ≤ bitLengthCore fuel (n / 2) := by
            by_contra hcon
            have h0 : bitLengthCore fuel (n / 2) = 0 := by omega
            rw [h0] at hlt
            simp at hlt
            omega
          obtain ⟨b, hbeq⟩ : ∃ b, bitLengthCore fuel (n / 2) = b + 1 :=
            ⟨bitLengthCore fuel (n / 2) - 1, by omega⟩
          rw [hbeq] at hle' ⊢
          rw [Nat.add_sub_cancel] at hle'
          rw [pow_succ]
          omega

theorem bitLength_spec (n : Nat) (hn : 0 < n) :
    n < 2 ^ bitLength n ∧ 2 ^ (bitLength n - 1) ≤ n ∧ 1 ≤ bitLength n := by
  obtain ⟨h1, h2⟩ := bitLengthCore_spec n n le_rfl
  refine ⟨h1, h2 hn, ?_⟩
  by_contra hcon
  have h0 : bitLengthCore n n = 0 := by
    have : bitLength n = 0 := by omega
    exact this
  rw [h0] at h1
  simp at h1
  omega

theorem roundHalfEven_ge (n d : Nat) : n / d ≤ roundHalfEven n d := by
  unfold roundHalfEven
  simp only
  split_ifs <;> omega

theorem scaled_le_iff (n d : Nat) (x : Int) :
    d * 2 ^ x.toNat ≤ n * 2 ^ (-x).toNat ↔ (d : ℚ) * (2 : ℚ) ^ x ≤ (n : ℚ) := by
  rcases le_or_lt 0 x with hx | hx
  · obtain ⟨j, rfl⟩ := Int.eq_ofNat_of_zero_le hx
    have h0 : (-(j : Int)).toNat = 0 := by omega
    rw [Int.toNat_ofNat, h0, pow_zero, mul_one, zpow_natCast]
    constructor
    · intro h
      exact_mod_cast h
    · intro h
      exact_mod_cast h
  · obtain ⟨j, hj⟩ : ∃ j : Nat, x = -(j : Int) := ⟨(-x).toNat, by omega⟩
    subst hj
    have h0 : (-(j : Int)).toNat = 0 := by omega
    have h1 : (- -(j : Int)).toNat = j := by omega
    rw [h0, h1, pow_zero, mul_one, zpow_neg, zpow_natCast]
    have hpow : (0 : ℚ) < (2 : ℚ) ^ j := by positivity
    rw [← div_eq_mul_inv, div_le_iff₀ hpow]
    constructor
    · intro h
      exact_mod_cast h
    · intro h
      exact_mod_cast h

theorem doubleExponent_ge (n d : Nat) : -1074 ≤ doubleExponent n d := by
  unfold doubleExponent
  exact le_max_right _ _

theorem doubleExponent_scaled (n d : Nat) (hn : 0 < n) (hd : 0 < d)
    (hsmall : (d : ℚ) * (2 : ℚ) ^ (-1074 : Int) ≤ (n : ℚ)) :
    (d : ℚ) * (2 : ℚ) ^ doubleExponent n d ≤ (n : ℚ) := by
  obtain ⟨hnlt, hnle, hn1⟩ := bitLength_spec n hn
  obtain ⟨hdlt, hdle, hd1⟩ := bitLength_spec d hd
  have hdq : (0 : ℚ) < d := by exact_mod_cast hd
  have hfloor : ∀ fl : Int,
      fl = (if d * 2 ^ ((bitLength n : Int) - (bitLength d : Int)).toNat
            ≤ n * 2 ^ (-((bitLength n : Int) - (bitLength d : Int))).toNat
          then (bitLength n : Int) - (bitLength d : Int)
          else (bitLength n : Int) - (bitLength d : Int) - 1) →
      (d : ℚ) * (2 : ℚ) ^ fl ≤ (n : ℚ) := by
    intro fl hfl
    split_ifs at hfl with hcond
    · rw [hfl]
      exact (scaled_le_iff n d _).mp hcond
    · rw [hfl]
      have h1 : (d : ℚ) ≤ (2 : ℚ) ^ (bitLength d : Int) := by
        rw [zpow_natCast]
        exact_mod_cast hdlt.le
      have h2 : (2 : ℚ) ^ ((bitLength n : Int) - 1) ≤ (n : ℚ) := by
        have : ((bitLength n : Int) - 1) = ((bitLength n - 1 : Nat) : Int) := by omega
        rw [this, zpow_natCast]
        exact_mod_cast hnle
      have h3 : (2 : ℚ) ^ (bitLength d : Int)
          * (2 : ℚ) ^ ((bitLength n : Int) - (bitLength d : Int) - 1)
          = (2 : ℚ) ^ ((bitLength n : Int) - 1) := by
        rw [← zpow_add₀ (by norm_num : (2 : ℚ) ≠ 0)]
        congr 1
        ring
      calc (d : ℚ) * (2 : ℚ) ^ ((bitLength n : Int) - (bitLength d : Int) - 1)
          ≤ (2 : ℚ) ^ (bitLength d : Int)
            * (2 : ℚ) ^ ((bitLength n : Int) - (bitLength d : Int) - 1) :=
            mul_le_mul_of_nonneg_right h1 (by positivity)
        _ = (2 : ℚ) ^ ((bitLength n : Int) - 1) := h3
        _ ≤ (n : ℚ) := h2
  unfold doubleExponent
  simp only
  rcases max_choice
    ((if d * 2 ^ ((bitLength n : Int) - (bitLength d : Int)).toNat
            ≤ n * 2 ^ (-((bitLength n : Int) - (bitLength d : Int))).toNat
          then (bitLength n : Int) - (bitLength d : Int)
          else (bitLength n : Int) - (bitLength d : Int) - 1) - 52) (-1074 : Int) with h | h
  · rw [h]
    have hfl := hfloor _ rfl
    refine le_trans (mul_le_mul_of_nonneg_left ?_ hdq.le) hfl
    exact zpow_le_zpow_right₀ (by norm_num) (by omega)
  · rw [h]
    exact hsmall

theorem doubleMantissa_pos (n d : Nat) (hn : 0 < n) (hd : 0 < d)
    (hsmall : (d : ℚ) * (2 : ℚ) ^ (-1074 : Int) ≤ (n : ℚ)) :
    1 ≤ doubleMantissa n d := by
  have hscaled := (scaled_le_iff n d (doubleExponent n d)).mpr
    (doubleExponent_scaled n d hn hd hsmall)
  unfold doubleMantissa
  simp only
  refine le_trans ?_ (roundHalfEven_ge _ _)
  exact Nat.div_pos hscaled (by positivity)

theorem roundMagnitude_shape (n d : Nat) :
    roundMagnitude n d = .posInf
    ∨ ∃ k : Nat, roundMagnitude n d = .fin ((k : ℚ) * (2 : ℚ) ^ (-1074 : Int))
        ∧ (1 ≤ doubleMantissa n d → 0 < k) := by
  unfold roundMagnitude
  simp only
  split_ifs with h
  · exact Or.inl rfl
  · right
    have he := doubleExponent_ge n d
    refine ⟨doubleMantissa n d * 2 ^ (doubleExponent n d + 1074).toNat, ?_, ?_⟩
    · congr 1
      have hsplit : (2 : ℚ) ^ doubleExponent n d
          = (2 : ℚ) ^ (((doubleExponent n d + 1074).toNat : Int)) * (2 : ℚ) ^ (-1074 : Int) := by
        rw [← zpow_add₀ (by norm_num : (2 : ℚ) ≠ 0)]
        congr 1
        omega
      rw [hsplit, zpow_natCast]
      push_cast
      ring
    · intro hm
      positivity

theorem roundDouble_nonneg (q : ℚ) (hq : 0 ≤ q) :
    roundDouble q = .posInf
    ∨ ∃ k : Nat, roundDouble q = .fin ((k : ℚ) * (2 : ℚ) ^ (-1074 : Int)) := by
  unfold roundDouble
  by_cases h0 : q = 0
  · right
    exact ⟨0, by simp [h0]⟩
  · have hpos : 0 < q := lt_of_le_of_ne hq (Ne.symm h0)
    rw [if_neg h0, if_pos hpos]
    rcases roundMagnitude_shape q.num.natAbs q.den with h | ⟨k, hk, _⟩
    · exact Or.inl h
    · exact Or.inr ⟨k, hk⟩

theorem roundDouble_grid_pos (k : Nat) (hk : 0 < k) :
    JsNum.lt (.fin 0) (roundDouble ((k : ℚ) * (2 : ℚ) ^ (-1074 : Int))) = true := by
  have hu : (0 : ℚ) < (2 : ℚ) ^ (-1074 : Int) := by positivity
  have hkq : (1 : ℚ) ≤ k := by exact_mod_cast hk
  have hpos : (0 : ℚ) < (k : ℚ) * (2 : ℚ) ^ (-1074 : Int) := by positivity
  have hnum : (0 : Int) < ((k : ℚ) * (2 : ℚ) ^ (-1074 : Int)).num := Rat.num_pos.mpr hpos
  have hden : 0 < ((k : ℚ) * (2 : ℚ) ^ (-1074 : Int)).den := Rat.den_pos _
  have hn : 0 < ((k : ℚ) * (2 : ℚ) ^ (-1074 : Int)).num.natAbs := by omega
  have hcast : ((((k : ℚ) * (2 : ℚ) ^ (-1074 : Int)).num.natAbs : Nat) : ℚ)
      = (((k : ℚ) * (2 : ℚ) ^ (-1074 : Int)).num : ℚ) := by
    have : ((((k : ℚ) * (2 : ℚ) ^ (-1074 : Int)).num.natAbs : Nat) : Int)
        = ((k : ℚ) * (2 : ℚ) ^ (-1074 : Int)).num := by omega
    rw [← Int.cast_natCast, this]
  have hsmall : ((((k : ℚ) * (2 : ℚ) ^ (-1074 : Int)).den : Nat) : ℚ)
        * (2 : ℚ) ^ (-1074 : Int)
      ≤ ((((k : ℚ) * (2 : ℚ) ^ (-1074 : Int)).num.natAbs : Nat) : ℚ) := by
    rw [hcast]
    have hq := Rat.mul_den_eq_num ((k : ℚ) * (2 : ℚ) ^ (-1074 : Int))
    rw [← hq]
    have hdq : (0 : ℚ) < (((k : ℚ) * (2 : ℚ) ^ (-1074 : Int)).den : ℚ) := by
      exact_mod_cast hden
    have hle : (2 : ℚ) ^ (-1074 : Int) ≤ (k : ℚ) * (2 : ℚ) ^ (-1074 : Int) := by
      nlinarith
    calc ((((k : ℚ) * (2 : ℚ) ^ (-1074 : Int)).den : Nat) : ℚ) * (2 : ℚ) ^ (-1074 : Int)
        ≤ ((((k : ℚ) * (2 : ℚ) ^ (-1074 : Int)).den : Nat) : ℚ)
          * ((k : ℚ) * (2 : ℚ) ^ (-1074 : Int)) := mul_le_mul_of_nonneg_left hle hdq.le
      _ = (k : ℚ) * (2 : ℚ) ^ (-1074 : Int)
          * ((((k : ℚ) * (2 : ℚ) ^ (-1074 : Int)).den : Nat) : ℚ) := by ring
  have hm := doubleMantissa_pos _ _ hn hden hsmall
  unfold roundDouble
  rw [if_neg hpos.ne', if_pos hpos]
  rcases roundMagnitude_shape ((k : ℚ) * (2 : ℚ) ^ (-1074 : Int)).num.natAbs
    ((k : ℚ) * (2 : ℚ) ^ (-1074 : Int)).den with h | ⟨j, hj, hjpos⟩
  · rw [h]
    rfl
  · rw [hj]
    have hjq : (0 : ℚ) < (j : ℚ) := by exact_mod_cast hjpos hm
    have : (0 : ℚ) < (j : ℚ) * (2 : ℚ) ^ (-1074 : Int) := by positivity
    simpa [JsNum.lt] using this

theorem roundDouble_nonpos (q : ℚ) (hq : q ≤ 0) :
    JsNum.lt (.fin 0) (roundDouble q) = false := by
  unfold roundDouble
  by_cases h0 : q = 0
  · simp [h0, JsNum.lt]
  · have hneg : ¬ 0 < q := not_lt.mpr hq
    rw [if_neg h0, if_neg hneg]
    rcases roundMagnitude_shape q.num.natAbs q.den with h | ⟨k, hk, _⟩
    · rw [h]
      rfl
    · rw [hk]
      have : (0 : ℚ) ≤ (k : ℚ) * (2 : ℚ) ^ (-1074 : Int) := by positivity
      simpa [JsNum.neg, JsNum.lt] using this

/-! ## The chart in double arithmetic -/

theorem nonNegativeDouble_zero : nonNegativeDouble 0 :=
  Or.inr ⟨0, by simp [JsNum.zero_eq]⟩

theorem nonNegativeDouble_ne_nan (v : JsNum) (h : nonNegativeDouble v) : v ≠ .nan := by
  rcases h with h | ⟨k, h⟩ <;> rw [h] <;> simp

theorem addDouble_nonNegativeDouble (x amount : JsNum) (hx : nonNegativeDouble x)
    (ha : JsNum.lt (.fin 0) amount = true) : nonNegativeDouble (x.addDouble amount) := by
  have hu : (0 : ℚ) ≤ (2 : ℚ) ^ (-1074 : Int) := by positivity
  cases amount with
  | nan => simp [JsNum.lt] at ha
  | negInf => simp [JsNum.lt] at ha
  | posInf =>
    rcases hx with h | ⟨k, h⟩ <;> rw [h] <;> exact Or.inl rfl
  | fin a =>
    have hapos : 0 < a := by simpa [JsNum.lt] using ha
    rcases hx with h | ⟨k, h⟩
    · rw [h]
      exact Or.inl rfl
    · rw [h]
      show nonNegativeDouble (JsNum.toDouble (JsNum.fin _ + JsNum.fin a))
      rw [JsNum.fin_add_fin]
      have hk : (0 : ℚ) ≤ (k : ℚ) * (2 : ℚ) ^ (-1074 : Int) := by positivity
      exact roundDouble_nonneg _ (by linarith)

theorem foldl_addDouble_nonNegativeDouble (amounts : List JsNum) (x : JsNum)
    (hx : nonNegativeDouble x) (ha : ∀ a ∈ amounts, JsNum.lt (.fin 0) a = true) :
    nonNegativeDouble (amounts.foldl JsNum.addDouble x) := by
  induction amounts generalizing x with
  | nil => exact hx
  | cons a rest ih =>
    rw [List.foldl_cons]
    exact ih _ (addDouble_nonNegativeDouble x a hx (ha a (List.mem_cons_self _ _)))
      (fun b hb => ha b (List.mem_cons_of_mem _ hb))

theorem staysBeforeNumber_double (x y : String × JsNum) (hx : nonNegativeDouble x.2)
    (hy : nonNegativeDouble y.2) :
    staysBeforeNumber (fun p q => q.2.subDouble p.2) x y = JsNum.le y.2 x.2 := by
  obtain ⟨cx, vx⟩ := x
  obtain ⟨cy, vy⟩ := y
  simp only at hx hy
  simp only [staysBeforeNumber]
  rcases hx with hx | ⟨kx, hx⟩ <;> rcases hy with hy | ⟨ky, hy⟩ <;> subst hx <;> subst hy
  · rfl
  · rfl
  · rfl
  · show (!JsNum.lt 0 (JsNum.toDouble (JsNum.fin _ - JsNum.fin _))) = _
    rw [JsNum.fin_sub_fin]
    have hu : (0 : ℚ) < (2 : ℚ) ^ (-1074 : Int) := by positivity
    by_cases hlt : kx < ky
    · have hdiff : (ky : ℚ) * (2 : ℚ) ^ (-1074 : Int) - (kx : ℚ) * (2 : ℚ) ^ (-1074 : Int)
          = ((ky - kx : Nat) : ℚ) * (2 : ℚ) ^ (-1074 : Int) := by
        rw [Nat.cast_sub hlt.le]
        ring
      have hpos := roundDouble_grid_pos (ky - kx) (by omega)
      rw [← hdiff] at hpos
      have hle : ¬ ((ky : ℚ) * (2 : ℚ) ^ (-1074 : Int) ≤ (kx : ℚ) * (2 : ℚ) ^ (-1074 : Int)) := by
        intro h
        have h' := le_of_mul_le_mul_right h hu
        have : ky ≤ kx := by exact_mod_cast h'
        omega
      simp only [JsNum.toDouble, JsNum.zero_eq, hpos, Bool.not_true, JsNum.le]
      exact (decide_eq_false hle).symm
    · have hkq : (ky : ℚ) ≤ (kx : ℚ) := by exact_mod_cast (not_lt.mp hlt)
      have hle : (ky : ℚ) * (2 : ℚ) ^ (-1074 : Int) ≤ (kx : ℚ) * (2 : ℚ) ^ (-1074 : Int) :=
        mul_le_mul_of_nonneg_right hkq hu.le
      have hnp := roundDouble_nonpos
        ((ky : ℚ) * (2 : ℚ) ^ (-1074 : Int) - (kx : ℚ) * (2 : ℚ) ^ (-1074 : Int))
        (by linarith)
      simp only [JsNum.toDouble, JsNum.zero_eq, hnp, Bool.not_false, JsNum.le]
      exact (decide_eq_true hle).symm

theorem le_trans_nonNegativeDouble (a b c : JsNum) (ha : nonNegativeDouble a)
    (hb : nonNegativeDouble b) (hc : nonNegativeDouble c)
    (hab : JsNum.le a b = true) (hbc : JsNum.le b c = true) : JsNum.le a c = true := by
  rcases ha with ha | ⟨ka, ha⟩ <;> rcases hb with hb | ⟨kb, hb⟩ <;>
    rcases hc with hc | ⟨kc, hc⟩ <;> subst ha <;> subst hb <;> subst hc <;>
    simp_all [JsNum.le]
  exact le_trans hab hbc

theorem le_total_nonNegativeDouble (a b : JsNum) (ha : nonNegativeDouble a)
    (hb : nonNegativeDouble b) (hab : JsNum.le a b = false) : JsNum.le b a = true := by
  rcases ha with ha | ⟨ka, ha⟩ <;> rcases hb with hb | ⟨kb, hb⟩ <;> subst ha <;> subst hb <;>
    simp_all [JsNum.le]
  exact le_of_lt hab

theorem chartStepDouble_get?_self (totals : CategoryTotals) (t : Transaction)
    (hnan : ∀ v, totals.get? t.category = some v → v ≠ .nan) :
    (chartStepDouble totals t).get? t.category
      = some (if t.type = "expense" then
          ((totals.get? t.category).getD 0).addDouble t.amount
        else (totals.get? t.category).getD 0) := by
  unfold chartStepDouble
  cases h : totals.get? t.category with
  | none =>
    by_cases hexp : t.type = "expense"
    · simp [hexp, h, CategoryTotals.totals_get?_set_self]
    · simp [hexp, h, CategoryTotals.totals_get?_set_self]
  | some v =>
    by_cases htruthy : v.truthy = true
    · by_cases hexp : t.type = "expense"
      · simp [hexp, htruthy, h, CategoryTotals.totals_get?_set_self]
      · simp [hexp, htruthy, h]
    · have hv : v = 0 :=
        JsNum.eq_zero_of_falsy v (hnan v h) (by simpa using htruthy)
      subst hv
      by_cases hexp : t.type = "expense"
      · simp [hexp, htruthy, h, CategoryTotals.totals_get?_set_self]
      · simp [hexp, htruthy, h, CategoryTotals.totals_get?_set_self]

theorem chartStepDouble_get?_of_ne (totals : CategoryTotals) (t : Transaction)
    (key : String) (hkey : key ≠ t.category) :
    (chartStepDouble totals t).get? key = totals.get? key := by
  have hset : ∀ (m : CategoryTotals) (value : JsNum),
      (m.set t.category value).get? key = m.get? key :=
    fun m value => CategoryTotals.totals_get?_set_of_ne m t.category key value hkey
  unfold chartStepDouble
  simp only
  split_ifs <;> split <;> (try split) <;> (try split) <;> simp only [hset]

theorem chartStepDouble_nodup (totals : CategoryTotals) (t : Transaction)
    (h : (totals.map Prod.fst).Nodup) :
    ((chartStepDouble totals t).map Prod.fst).Nodup := by
  have hset : ∀ (m : CategoryTotals) (value : JsNum), (m.map Prod.fst).Nodup →
      ((m.set t.category value).map Prod.fst).Nodup :=
    fun m value hm => CategoryTotals.nodup_set m t.category value hm
  unfold chartStepDouble
  simp only
  split_ifs <;> split <;> (try split) <;> (try split) <;>
    first | exact h | exact hset _ _ h | exact hset _ _ (hset _ _ h)

theorem expensesDouble_append (init : List Transaction) (t : Transaction) (c : String) :
    (((init ++ [t]).filter
        (fun u => decide (u.type = "expense" ∧ u.category = c))).map (·.amount)).foldl
        JsNum.addDouble 0
      = if t.type = "expense" ∧ t.category = c then
          JsNum.addDouble
            (((init.filter
              (fun u => decide (u.type = "expense" ∧ u.category = c))).map
                (·.amount)).foldl JsNum.addDouble 0) t.amount
        else ((init.filter
              (fun u => decide (u.type = "expense" ∧ u.category = c))).map
                (·.amount)).foldl JsNum.addDouble 0 := by
  rw [List.filter_append, List.map_append, List.foldl_append]
  by_cases h : t.type = "expense" ∧ t.category = c
  · simp [List.filter_cons, h]
  · simp [List.filter_cons, h]

theorem expensesDouble_nonNegativeDouble (ts : List Transaction) (c : String)
    (hvalid : ∀ t ∈ ts, JsNum.lt (.fin 0) t.amount = true) :
    nonNegativeDouble
      (((ts.filter (fun u => decide (u.type = "expense" ∧ u.category = c))).map
        (·.amount)).foldl JsNum.addDouble 0) := by
  apply foldl_addDouble_nonNegativeDouble _ _ nonNegativeDouble_zero
  intro a ha
  obtain ⟨u, hu, rfl⟩ := List.mem_map.mp ha
  exact hvalid u (List.mem_filter.mp hu).1

theorem expensesDouble_absent (ts : List Transaction) (c : String)
    (h : c ∉ ts.map (·.category)) :
    ((ts.filter (fun u => decide (u.type = "expense" ∧ u.category = c))).map
      (·.amount)).foldl JsNum.addDouble 0 = 0 := by
  have hnil : ts.filter (fun u => decide (u.type = "expense" ∧ u.category = c)) = [] := by
    rw [List.filter_eq_nil_iff]
    intro u hu hdec
    have := of_decide_eq_true hdec
    exact h (List.mem_map.mpr ⟨u, hu, this.2⟩)
  rw [hnil]
  rfl

theorem foldl_chartStepDouble (ts : List Transaction)
    (hvalid : ∀ t ∈ ts, JsNum.lt (.fin 0) t.amount = true) :
    ((ts.foldl chartStepDouble []).map Prod.fst).Nodup
    ∧ ∀ c, (ts.foldl chartStepDouble []).get? c
        = if c ∈ ts.map (·.category) then
            some (((ts.filter
              (fun u => decide (u.type = "expense" ∧ u.category = c))).map
                (·.amount)).foldl JsNum.addDouble 0)
          else none := by
  induction ts using List.reverseRecOn with
  | nil => exact ⟨by simp, fun c => by simp [CategoryTotals.get?]⟩
  | append_singleton init t ih =>
    have hinit : ∀ u ∈ init, JsNum.lt (.fin 0) u.amount = true :=
      fun u hu => hvalid u (List.mem_append_left _ hu)
    obtain ⟨hnodup, hget⟩ := ih hinit
    rw [List.foldl_append, List.foldl_cons, List.foldl_nil]
    refine ⟨chartStepDouble_nodup _ t hnodup, ?_⟩
    intro c
    rw [expensesDouble_append]
    by_cases hc : c = t.category
    · subst hc
      have hnan : ∀ v, (init.foldl chartStepDouble []).get? t.category = some v →
          v ≠ .nan := by
        intro v hv
        rw [hget] at hv
        split_ifs at hv
        cases hv
        exact nonNegativeDouble_ne_nan _
          (expensesDouble_nonNegativeDouble init t.category hinit)
      rw [chartStepDouble_get?_self _ t hnan, hget]
      have hmem : t.category ∈ (init ++ [t]).map (·.category) := by simp
      rw [if_pos hmem]
      by_cases hold : t.category ∈ init.map (·.category)
      · by_cases hexp : t.type = "expense"
        · simp [hold, hexp]
        · simp [hold, hexp]
      · rw [if_neg hold, expensesDouble_absent init t.category hold]
        by_cases hexp : t.type = "expense"
        · simp [hexp]
        · simp [hexp]
    · rw [chartStepDouble_get?_of_ne _ t c hc, hget]
      have hne : ¬ (t.type = "expense" ∧ t.category = c) := fun h => hc h.2.symm
      have hmem : c ∈ (init ++ [t]).map (·.category) ↔ c ∈ init.map (·.category) := by
        simp [hc]
      by_cases hold : c ∈ init.map (·.category)
      · rw [if_pos hold, if_pos (hmem.mpr hold), if_neg hne]
      · rw [if_neg hold, if_neg (fun h => hold (hmem.mp h))]

theorem orderedInsert_descending_double (a : String × JsNum) (l : List (String × JsNum))
    (hvalid : ∀ p ∈ a :: l, nonNegativeDouble p.2)
    (hsorted : l.Pairwise (fun p q => JsNum.le q.2 p.2 = true)) :
    (l.orderedInsert
      (fun p q => staysBeforeNumber (fun x y => y.2.subDouble x.2) p q = true) a).Pairwise
      (fun p q => JsNum.le q.2 p.2 = true) := by
  induction l with
  | nil => simp
  | cons b rest ih =>
    have ha := hvalid a (List.mem_cons_self _ _)
    have hb := hvalid b (List.mem_cons_of_mem _ (List.mem_cons_self _ _))
    have hrest := List.pairwise_cons.mp hsorted
    by_cases hab : staysBeforeNumber (fun x y => y.2.subDouble x.2) a b = true
    · rw [List.orderedInsert, if_pos hab]
      have hba : JsNum.le b.2 a.2 = true := by
        rw [← staysBeforeNumber_double a b ha hb]
        exact hab
      refine List.pairwise_cons.mpr ⟨?_, hsorted⟩
      intro q hq
      rcases List.mem_cons.mp hq with h1 | h1
      · rw [h1]
        exact hba
      · exact le_trans_nonNegativeDouble _ _ _
          (hvalid q (List.mem_cons_of_mem _ hq)) hb ha (hrest.1 q h1) hba
    · rw [List.orderedInsert, if_neg hab]
      have hnot : JsNum.le b.2 a.2 = false := by
        rw [← staysBeforeNumber_double a b ha hb]
        simpa using hab
      have hle : JsNum.le a.2 b.2 = true := le_total_nonNegativeDouble _ _ hb ha hnot
      have hvalid' : ∀ p ∈ a :: rest, nonNegativeDouble p.2 := by
        intro p hp
        rcases List.mem_cons.mp hp with h1 | h1
        · exact h1 ▸ ha
        · exact hvalid p (List.mem_cons_of_mem _ (List.mem_cons_of_mem _ h1))
      refine List.pairwise_cons.mpr ⟨?_, ih hvalid' hrest.2⟩
      intro q hq
      rcases (List.mem_orderedInsert _).mp hq with h1 | h1
      · rw [h1]
        exact hle
      · exact hrest.1 q h1

theorem arraySortNumber_descending_double (l : List (String × JsNum))
    (hvalid : ∀ p ∈ l, nonNegativeDouble p.2) :
    (arraySortNumber (fun x y => y.2.subDouble x.2) l).Pairwise
      (fun p q => JsNum.le q.2 p.2 = true) := by
  induction l with
  | nil => simp [arraySortNumber]
  | cons a rest ih =>
    have hrest : ∀ p ∈ rest, nonNegativeDouble p.2 :=
      fun p hp => hvalid p (List.mem_cons_of_mem _ hp)
    have hperm : (arraySortNumber (fun x y => y.2.subDouble x.2) rest).Perm rest :=
      List.perm_insertionSort _ rest
    unfold arraySortNumber
    rw [List.insertionSort]
    refine orderedInsert_descending_double a _ ?_ (ih hrest)
    intro p hp
    rcases List.mem_cons.mp hp with h1 | h1
    · exact hvalid p (h1 ▸ List.mem_cons_self _ _)
    · exact hrest p (hperm.subset h1)

theorem chartEntriesDouble_perm (ts : List Transaction) :
    (chartEntriesDouble ts).Perm (ts.foldl chartStepDouble []) :=
  List.perm_insertionSort _ _

theorem addDouble_zero_nan : JsNum.addDouble 0 .nan = .nan := rfl

theorem addDouble_zero_thirtyFour : JsNum.addDouble 0 (.fin 34) = .fin 34 := by
  have hsum : ((0 : JsNum) + JsNum.fin 34 : JsNum) = .fin ((34 : Nat) : ℚ) := by
    rw [JsNum.zero_eq, JsNum.fin_add_fin]
    norm_num
  unfold JsNum.addDouble
  rw [hsum]
  simp only [JsNum.toDouble]
  rw [roundDouble_natCast _ (by decide),
    roundMagnitude_of 34 1 4785074604081152 (-47) (by decide) (by decide) (by decide)]
  norm_num

/-- The claim C21 fails on two lists. On the two "food" expenses of ten quadrillion (1e16)
and of 1, the sum of the amounts is 10000000000000001 and the chart reports "food" with
10000000000000000, the second addition being rounded to the nearest double. On the two
"food" records with the amounts `NaN` and 34, the sum of the amounts is `NaN` and the
chart reports "food" with 34: the test `!categoryTotals[category]` takes the total `NaN`
for a missing entry and sets it back to 0. -/
theorem chartEntriesDouble_not_the_sum :
    (([largeExpense, unitExpense].filter
        (fun u => decide (u.type = "expense" ∧ u.category = "food"))).map (·.amount)).sum
      = .fin 10000000000000001
    ∧ chartEntriesDouble [largeExpense, unitExpense] = [("food", .fin 10000000000000000)]
    ∧ (([nanExpense, dinnerTransaction].filter
        (fun u => decide (u.type = "expense" ∧ u.category = "food"))).map (·.amount)).sum
      = .nan
    ∧ (([nanExpense, dinnerTransaction].filter
        (fun u => decide (u.type = "expense" ∧ u.category = "food"))).map
          (·.amount)).foldl JsNum.addDouble 0 = .nan
    ∧ chartEntriesDouble [nanExpense, dinnerTransaction] = [("food", .fin 34)]
    ∧ chartEntries [nanExpense, dinnerTransaction] = [("food", .fin 34)] := by
  refine ⟨?_, ?_, ?_, ?_, ?_, ?_⟩
  · simp only [largeExpense, unitExpense, largeIncome, unitIncome, salaryTransaction,
      buildTransaction, salaryForm, List.filter, decide_True, and_self, List.map,
      List.sum_cons, List.sum_nil]
    rw [add_zero, JsNum.fin_add_fin]
    norm_num
  · simp only [chartEntriesDouble, List.foldl, chartStepDouble, largeExpense, unitExpense,
      largeIncome, unitIncome, salaryTransaction, buildTransaction, salaryForm,
      CategoryTotals.get?, CategoryTotals.set, if_true, addDouble_zero_big]
    simp only [JsNum.truthy, ne_eq, OfNat.ofNat_ne_zero, not_false_eq_true, decide_True,
      if_true, CategoryTotals.get?, CategoryTotals.set, addDouble_big_one]
    rfl
  · simp only [nanExpense, unitExpense, unitIncome, dinnerTransaction, salaryTransaction,
      buildTransaction, salaryForm, List.filter, decide_True, and_self, List.map,
      List.sum_cons, List.sum_nil]
    rfl
  · simp only [nanExpense, unitExpense, unitIncome, dinnerTransaction, salaryTransaction,
      buildTransaction, salaryForm, List.filter, decide_True, and_self, List.map,
      List.foldl, addDouble_zero_nan]
    rfl
  · simp only [chartEntriesDouble, List.foldl, chartStepDouble, nanExpense, unitExpense,
      unitIncome, dinnerTransaction, salaryTransaction, buildTransaction, salaryForm,
      CategoryTotals.get?, CategoryTotals.set, if_true, addDouble_zero_nan]
    rw [addDouble_zero_thirtyFour]
    rfl
  · simp only [chartEntries, List.foldl, chartStep, nanExpense, unitExpense,
      unitIncome, dinnerTransaction, salaryTransaction, buildTransaction, salaryForm,
      CategoryTotals.get?, CategoryTotals.set, if_true]
    have h2 : ((0 : JsNum) + JsNum.fin 34) = .fin 34 := by
      rw [JsNum.zero_eq, JsNum.fin_add_fin]
      norm_num
    rw [h2]
    rfl

/-- C21, as amended: for every transaction list whose amounts are above zero (what the
validation of the form lets through, `Infinity` included), the chart receives the entries
of `chartEntriesDouble`, labels and data in the same order. Every reported pair holds a
category and the result of adding the amounts of the 'expense' transactions of that
category to 0 one after the other, in the order of the list, every addition rounded to the
nearest double; a category is reported exactly when some transaction of the list has it
(with 0 when none of them is an expense), and it is reported once; the pairs come in
non-increasing order of that total. -/
theorem updateChartDouble_pairs (chart : ChartData) (ts : List Transaction)
    (hvalid : ∀ t ∈ ts, JsNum.lt (.fin 0) t.amount = true) :
    updateChartDouble (some chart) ts
      = some { labels := (chartEntriesDouble ts).map (fun entry => capitalize entry.1)
               data := (chartEntriesDouble ts).map (fun entry => entry.2) }
    ∧ (∀ c v, (c, v) ∈ chartEntriesDouble ts →
        v = ((ts.filter
          (fun u => decide (u.type = "expense" ∧ u.category = c))).map
            (·.amount)).foldl JsNum.addDouble 0)
    ∧ (∀ c, (∃ v, (c, v) ∈ chartEntriesDouble ts) ↔ c ∈ ts.map (·.category))
    ∧ ((chartEntriesDouble ts).map Prod.fst).Nodup
    ∧ (chartEntriesDouble ts).Pairwise (fun p q => JsNum.le q.2 p.2 = true) := by
  obtain ⟨hnodup, hget⟩ := foldl_chartStepDouble ts hvalid
  have hperm := chartEntriesDouble_perm ts
  have hvalue : ∀ c v, (c, v) ∈ ts.foldl chartStepDouble [] →
      c ∈ ts.map (·.category) ∧ v = ((ts.filter
          (fun u => decide (u.type = "expense" ∧ u.category = c))).map
            (·.amount)).foldl JsNum.addDouble 0 := by
    intro c v hmem
    have h := CategoryTotals.get?_of_mem _ hnodup c v hmem
    rw [hget] at h
    split_ifs at h with hc
    cases h
    exact ⟨hc, rfl⟩
  refine ⟨rfl, ?_, ?_, ?_, ?_⟩
  · intro c v hmem
    exact (hvalue c v (hperm.subset hmem)).2
  · intro c
    constructor
    · rintro ⟨v, hmem⟩
      exact (hvalue c v (hperm.subset hmem)).1
    · intro hc
      have h := hget c
      rw [if_pos hc] at h
      exact ⟨_, hperm.symm.subset (CategoryTotals.mem_of_get? _ c _ h)⟩
  · exact (hperm.map Prod.fst).nodup_iff.mpr hnodup
  · apply arraySortNumber_descending_double
    intro p hp
    obtain ⟨c, v⟩ := p
    rw [(hvalue c v hp).2]
    exact expensesDouble_nonNegativeDouble ts c hvalid

theorem updateChartDouble_pairs_witness :
    updateChartDouble (some emptyChart) chartTransactions
      = some { labels :=
                (chartEntriesDouble chartTransactions).map (fun entry => capitalize entry.1)
               data := (chartEntriesDouble chartTransactions).map (fun entry => entry.2) }
    ∧ (∀ c v, (c, v) ∈ chartEntriesDouble chartTransactions →
        v = ((chartTransactions.filter
          (fun u => decide (u.type = "expense" ∧ u.category = c))).map
            (·.amount)).foldl JsNum.addDouble 0)
    ∧ (∀ c, (∃ v, (c, v) ∈ chartEntriesDouble chartTransactions)
        ↔ c ∈ chartTransactions.map (·.category))
    ∧ ((chartEntriesDouble chartTransactions).map Prod.fst).Nodup
    ∧ (chartEntriesDouble chartTransactions).Pairwise
        (fun p q => JsNum.le q.2 p.2 = true) :=
  updateChartDouble_pairs emptyChart chartTransactions (by
    intro t ht
    simp only [chartTransactions, List.mem_cons, List.mem_singleton, List.not_mem_nil,
      or_false] at ht
    rcases ht with rfl | rfl | rfl | rfl <;>
      simp [salaryTransaction, groceriesTransaction, rentTransaction, dinnerTransaction,
        buildTransaction, salaryForm, JsNum.lt])

end CalendarApp
